import Mathlib

/-!
# odom_estimator: the manifold state and its process model

A shallow embedding of `odom_estimator/state.h` (`State`, `StateUpdater`).

* `double` is a type parameter `α` carrying the arithmetic the code uses.  The
  algebraic laws are proved at `α = ℝ` (rounding idealised away); the assertion
  behaviour is studied at `α = WithNaN β`, exact values extended by one
  non-finite element, and at `α = Double β`, exact values with the range of
  binary64: overflow to an infinity, underflow to zero, and NaN.
* `ros::Time` is a number of nanoseconds (`Int`); `Duration::toSec` divides by
  `10^9`.
* The headers `util.h` and `gravity.h` are not part of the sources at hand, so
  `sqrt`, `isfinite`, the coefficient test of `assert_none_nan`,
  `quat_from_rotvec`, `rotvec_from_quat` and `gravity::gravity` are the fields of
  a parameter `Helpers α`.
* `assert` is modelled with `Option`: a failed assertion is `none`.
-/

namespace odom_estimator

/-! ## Eigen vectors and quaternions -/

/-- Eigen column vector `Vec<N>`. -/
abbrev Vec (n : Nat) (α : Type) := Fin n → α

/-- Eigen square matrix `SqMat<N>`, indexed row then column. -/
abbrev SqMat (n : Nat) (α : Type) := Fin n → Fin n → α

/-- Eigen `Quaternion` (`Eigen::Quaterniond`), scalar part `w`, vector part `(x, y, z)`. -/
@[ext]
structure Quaternion (α : Type) where
  w : α
  x : α
  y : α
  z : α
deriving DecidableEq

section Arithmetic

variable {α : Type} [Zero α] [One α] [Add α] [Sub α] [Mul α] [Div α] [Neg α]

/-- Eigen `a.cross(b)` for 3-vectors. -/
def Vec.cross (a b : Vec 3 α) : Vec 3 α :=
  ![a 1 * b 2 - a 2 * b 1, a 2 * b 0 - a 0 * b 2, a 0 * b 1 - a 1 * b 0]

/-- Eigen `v.squaredNorm()` for 3-vectors. -/
def Vec.squaredNorm (v : Vec 3 α) : α :=
  v 0 * v 0 + v 1 * v 1 + v 2 * v 2

/-- Eigen `v.segment<3>(i)`: the three entries starting at index `i`. -/
def Vec.segment3 {n : Nat} (v : Vec n α) (i : Nat) (h : i + 3 ≤ n) : Vec 3 α :=
  fun k => v ⟨i + k.val, by omega⟩

namespace Quaternion

/-- Eigen `Quaternion::Identity()`. -/
def Identity : Quaternion α := ⟨1, 0, 0, 0⟩

/-- Eigen `q.vec()`. -/
def vec (q : Quaternion α) : Vec 3 α := ![q.x, q.y, q.z]

/-- Eigen `a * b`: the Hamilton product. -/
def mul (a b : Quaternion α) : Quaternion α :=
  ⟨a.w * b.w - a.x * b.x - a.y * b.y - a.z * b.z,
   a.w * b.x + a.x * b.w + a.y * b.z - a.z * b.y,
   a.w * b.y + a.y * b.w + a.z * b.x - a.x * b.z,
   a.w * b.z + a.z * b.w + a.x * b.y - a.y * b.x⟩

instance : Mul (Quaternion α) := ⟨mul⟩

/-- Eigen `q.conjugate()`. -/
def conjugate (q : Quaternion α) : Quaternion α := ⟨q.w, -q.x, -q.y, -q.z⟩

/-- Eigen `q.squaredNorm()`. -/
def squaredNorm (q : Quaternion α) : α :=
  q.x * q.x + q.y * q.y + q.z * q.z + q.w * q.w

/-- Eigen `q.normalized()`: every coefficient divided by the norm.  For the zero
quaternion the quotient is `0 / 0`: in a field that is `0` (Eigen from 3.3 on
returns the zero quaternion unchanged), with NaN arithmetic it is NaN (older
Eigen). -/
def normalized (sqrt : α → α) (q : Quaternion α) : Quaternion α :=
  let n := sqrt q.squaredNorm
  ⟨q.w / n, q.x / n, q.y / n, q.z / n⟩

/-- Eigen `q._transformVector(v)`: `v + w * uv + vec × uv` with `uv = 2 (vec × v)`. -/
def _transformVector (q : Quaternion α) (v : Vec 3 α) : Vec 3 α :=
  let uv := q.vec.cross v
  let uv := uv + uv
  v + q.w • uv + q.vec.cross uv

end Quaternion

end Arithmetic

/-! ## Helpers that live outside `state.h` -/

/-- The functions `state.h` calls but does not define: `sqrt` and `isfinite`
from the C library; `isnan`, the test `assert_none_nan` applies to every
coefficient of its argument; `quat_from_rotvec` and `rotvec_from_quat` from
`util.h`; `gravity` from `gravity.h`. -/
structure Helpers (α : Type) where
  sqrt : α → α
  isfinite : α → Bool
  isnan : α → Bool
  quat_from_rotvec : Vec 3 α → Quaternion α
  rotvec_from_quat : Quaternion α → Vec 3 α
  gravity : Vec 3 α → Vec 3 α

/-- The check of `assert_none_nan(v)`: no entry of `v` is NaN. -/
def assert_none_nan {α : Type} {n : Nat} (E : Helpers α) (v : Vec n α) : Bool :=
  (List.finRange n).all (fun i => !E.isnan (v i))

/-- Eigen `q.coeffs()`: the coefficients in storage order `x, y, z, w`. -/
def Quaternion.coeffs {α : Type} (q : Quaternion α) : Vec 4 α := ![q.x, q.y, q.z, q.w]

/-- The value of `ros::Duration::toSec` for a duration of `d` nanoseconds. -/
def Duration.toSec {α : Type} [Div α] [IntCast α] (d : Int) : α :=
  (Int.cast d : α) / (Int.cast 1000000000 : α)

/-! ## State -/

/-- Fields of `struct State`; `t` is a `ros::Time` in nanoseconds. -/
structure State (α : Type) where
  t : Int
  pos_eci : Vec 3 α
  orient : Quaternion α
  vel : Vec 3 α
  gyro_bias : Vec 3 α
  local_g : α
  ground_air_pressure : α

namespace State

/-- Index constant `State::POS_ECI`. -/
abbrev POS_ECI : Nat := 0
/-- Index constant `State::ORIENT`. -/
abbrev ORIENT : Nat := POS_ECI + 3
/-- Index constant `State::VEL`. -/
abbrev VEL : Nat := ORIENT + 3
/-- Index constant `State::GYRO_BIAS`. -/
abbrev GYRO_BIAS : Nat := VEL + 3
/-- Index constant `State::LOCAL_G`. -/
abbrev LOCAL_G : Nat := GYRO_BIAS + 3
/-- Index constant `State::GROUND_AIR_PRESSURE`. -/
abbrev GROUND_AIR_PRESSURE : Nat := LOCAL_G + 1
/-- Constant `State::RowsAtCompileTime`. -/
abbrev RowsAtCompileTime : Nat := GROUND_AIR_PRESSURE + 1

/-- Type `State::DeltaType`, that is `Vec<RowsAtCompileTime>`. -/
abbrev DeltaType (α : Type) := Vec RowsAtCompileTime α

/-- Type `State::CovType`, that is `SqMat<RowsAtCompileTime>`. -/
abbrev CovType (α : Type) := SqMat RowsAtCompileTime α

/-- Member `State::rows()`. -/
def rows {α : Type} (_s : State α) : Nat := RowsAtCompileTime

section Operators

variable {α : Type} [Zero α] [One α] [Add α] [Sub α] [Mul α] [Div α] [Neg α]

/-- The constructor `State::State`.  The member `orient` is initialised with
`orient.normalized()`; the assertions in the body name the constructor
parameters (which shadow the members), so the orientation that is tested is the
argument, not the normalised member.  A failed assertion is `none`. -/
def new (E : Helpers α) (t : Int) (pos_eci : Vec 3 α) (orient : Quaternion α)
    (vel gyro_bias : Vec 3 α) (local_g ground_air_pressure : α) : Option (State α) :=
  if assert_none_nan E pos_eci && assert_none_nan E orient.coeffs
      && assert_none_nan E vel && assert_none_nan E gyro_bias
      && E.isfinite local_g && E.isfinite ground_air_pressure then
    some ⟨t, pos_eci, orient.normalized E.sqrt, vel, gyro_bias, local_g,
      ground_air_pressure⟩
  else none

/-- The comma initialiser `(DeltaType() << p, r, v, b, g, a).finished()`: the
blocks laid out one after the other. -/
def DeltaType.finished (p r v b : Vec 3 α) (g a : α) : DeltaType α :=
  ![p 0, p 1, p 2, r 0, r 1, r 2, v 0, v 1, v 2, b 0, b 1, b 2, g, a]

/-- Member `State::operator-`. -/
def operator_minus (E : Helpers α) (self other : State α) : DeltaType α :=
  DeltaType.finished
    (self.pos_eci - other.pos_eci)
    (E.rotvec_from_quat (self.orient * other.orient.conjugate))
    (self.vel - other.vel)
    (self.gyro_bias - other.gyro_bias)
    (self.local_g - other.local_g)
    (self.ground_air_pressure - other.ground_air_pressure)

/-- Member `State::operator+`. -/
def operator_plus (E : Helpers α) (self : State α) (other : DeltaType α) :
    Option (State α) :=
  State.new E
    self.t
    (self.pos_eci + other.segment3 POS_ECI (by decide))
    (E.quat_from_rotvec (other.segment3 ORIENT (by decide)) * self.orient)
    (self.vel + other.segment3 VEL (by decide))
    (self.gyro_bias + other.segment3 GYRO_BIAS (by decide))
    (self.local_g + other ⟨LOCAL_G, by decide⟩)
    (self.ground_air_pressure + other ⟨GROUND_AIR_PRESSURE, by decide⟩)

/-- Member `State::getPosECI`. -/
def getPosECI (self : State α) (body_point : Vec 3 α) : Vec 3 α :=
  self.pos_eci + self.orient._transformVector body_point

/-- Member `State::getVelECI`; `gyro` is the `boost::optional` argument and
`assert(gyro)` fails on `none`. -/
def getVelECI [DecidableEq α] (self : State α) (body_point : Vec 3 α)
    (gyro : Option (Vec 3 α)) : Option (Vec 3 α) :=
  if body_point ≠ 0 then
    match gyro with
    | none => none
    | some g =>
      some (self.vel + self.orient._transformVector ((g - self.gyro_bias).cross body_point))
  else some self.vel

end Operators

end State

/-! ## StateUpdater -/

/-- Template `ManifoldPair<First, Second>`: a pair of manifold values. -/
structure ManifoldPair (A B : Type) where
  first : A
  second : B

/-- Message type `geometry_msgs/Vector3`. -/
structure Vector3 (α : Type) where
  x : α
  y : α
  z : α

/-- The fields of `sensor_msgs::Imu` that `state.h` reads: `header.stamp` in
nanoseconds, the two measured vectors and their covariance arrays of nine
entries. -/
structure Imu (α : Type) where
  header_stamp : Int
  angular_velocity : Vector3 α
  angular_velocity_covariance : Fin 9 → α
  linear_acceleration : Vector3 α
  linear_acceleration_covariance : Fin 9 → α

/-- Typedef `StateUpdater::IMUData`. -/
abbrev IMUData (α : Type) := ManifoldPair (Vec 3 α) (Vec 3 α)

/-- Typedef `StateUpdater::NoiseType`. -/
abbrev NoiseType (α : Type) := Vec 1 α

/-- Typedef `StateUpdater::ExtraType`. -/
abbrev ExtraType (α : Type) := ManifoldPair (IMUData α) (NoiseType α)

/-- Data members of `class StateUpdater`. -/
structure StateUpdater (α : Type) where
  imu : Imu α
  rightSideAccelFrame : Bool

namespace StateUpdater

section Apply

variable {α : Type} [Zero α] [One α] [Add α] [Sub α] [Mul α] [Div α] [Neg α]
  [OfNat α 2] [IntCast α]

/-- Member `StateUpdater::apply`. -/
def apply (E : Helpers α) (self : StateUpdater α) (state : State α)
    (extra : ExtraType α) : Option (State α) :=
  let imudata := extra.first
  let noise := extra.second
  let dt : α := Duration.toSec (self.imu.header_stamp - state.t)
  let angvel_body := imudata.first - state.gyro_bias
  let oldbody_from_newbody := E.quat_from_rotvec (dt • angvel_body)
  let world_from_newbody := state.orient * oldbody_from_newbody
  let accelnograv_accelbody := imudata.second
  let world_from_accelbody :=
    if self.rightSideAccelFrame then world_from_newbody else state.orient
  let accelnograv_world := world_from_accelbody._transformVector accelnograv_accelbody
  let accel_world := accelnograv_world + E.gravity state.pos_eci
  State.new E
    self.imu.header_stamp
    (state.pos_eci + dt • state.vel + (dt * dt / 2) • accel_world)
    world_from_newbody
    (state.vel + dt • accel_world)
    state.gyro_bias
    state.local_g
    (state.ground_air_pressure + E.sqrt dt * noise 0)

end Apply

end StateUpdater

/-! ## The distribution of the extra input -/

/-- Template `GaussianDistribution<T>`: a mean and a covariance. -/
structure GaussianDistribution (M C : Type) where
  mean : M
  cov : C

section Distribution

variable {α : Type} [Zero α] [Mul α] [IntCast α]

/-- Modelled from the spec: `xyz2vec` of `util.h`, which is not among the
sources: the message vector as a `Vec<3>`. -/
def xyz2vec (v : Vector3 α) : Vec 3 α := ![v.x, v.y, v.z]

/-- Eigen `Eigen::Map<const SqMat<3> >(data)`: the nine entries read as a 3x3
matrix in Eigen's default column-major storage order. -/
def Map3 (data : Fin 9 → α) : SqMat 3 α :=
  fun i j => data ⟨i.val + 3 * j.val, by omega⟩

/-- Modelled from the spec: `ManifoldPair::build_cov` of `manifold.h`, which is
not among the sources: the "block-diagonal composition" of the covariances of
the two parts. -/
def build_cov {m n : Nat} (a : SqMat m α) (b : SqMat n α) : SqMat (m + n) α :=
  fun i j =>
    if hi : i.val < m then
      if hj : j.val < m then a ⟨i.val, hi⟩ ⟨j.val, hj⟩ else 0
    else
      if hj : j.val < m then 0 else b ⟨i.val - m, by omega⟩ ⟨j.val - m, by omega⟩

/-- Modelled from the spec: `scalar_matrix` of `util.h`, which is not among the
sources.  The spec reads the argument `5` of the call in
`get_extra_distribution` as a standard deviation that yields "a fixed scalar
variance (value 25, i.e. std-dev 5)", so the model is the 1x1 matrix that holds
the square of its argument. -/
def scalar_matrix (x : α) : SqMat 1 α := fun _ _ => x * x

/-- Member `StateUpdater::get_extra_distribution`. -/
def StateUpdater.get_extra_distribution (self : StateUpdater α) :
    GaussianDistribution (ExtraType α) (SqMat (3 + 3 + 1) α) :=
  ⟨⟨⟨xyz2vec self.imu.angular_velocity, xyz2vec self.imu.linear_acceleration⟩,
      (0 : NoiseType α)⟩,
    build_cov
      (build_cov (Map3 self.imu.angular_velocity_covariance)
        (Map3 self.imu.linear_acceleration_covariance))
      (scalar_matrix (Int.cast 5 : α))⟩

end Distribution

/-! ## Doubles with a non-finite value -/

/-- A `double` up to rounding: an exact value of `β`, or `nan`, which stands for
every non-finite result. -/
inductive WithNaN (β : Type) where
  | fin (x : β)
  | nan
deriving DecidableEq

namespace WithNaN

variable {β : Type}

/-- A binary operation on exact values, NaN as soon as an operand is NaN. -/
def map₂ (f : β → β → β) : WithNaN β → WithNaN β → WithNaN β
  | fin x, fin y => fin (f x y)
  | _, _ => nan

/-- Test for an exact value. -/
def isFin : WithNaN β → Bool
  | fin _ => true
  | nan => false

/-- The exact value, `d` for NaN. -/
def getD (d : β) : WithNaN β → β
  | fin x => x
  | nan => d

instance [Zero β] : Zero (WithNaN β) := ⟨fin 0⟩
instance [One β] : One (WithNaN β) := ⟨fin 1⟩
instance [OfNat β 2] : OfNat (WithNaN β) 2 := ⟨fin 2⟩
instance [IntCast β] : IntCast (WithNaN β) := ⟨fun n => fin (Int.cast n)⟩
instance [Add β] : Add (WithNaN β) := ⟨map₂ (· + ·)⟩
instance [Sub β] : Sub (WithNaN β) := ⟨map₂ (· - ·)⟩
instance [Mul β] : Mul (WithNaN β) := ⟨map₂ (· * ·)⟩

instance [Neg β] : Neg (WithNaN β) :=
  ⟨fun a => match a with
    | fin x => fin (-x)
    | nan => nan⟩

/-- Division: a zero divisor gives a non-finite quotient. -/
instance [Zero β] [DecidableEq β] [Div β] : Div (WithNaN β) :=
  ⟨fun a b => match a, b with
    | fin x, fin y => if y = 0 then nan else fin (x / y)
    | _, _ => nan⟩

end WithNaN

/-- The helpers on doubles with NaN that extend helpers `E` on exact values:
`sqrt` of a negative number is NaN, `isfinite` and `isnan` tell NaN from the
exact values, and the vector functions return the values of `E` on finite
arguments and NaN coefficients otherwise. -/
def Helpers.withNaN {β : Type} [Zero β] [LT β] [DecidableRel (fun (a b : β) => a < b)]
    (E : Helpers β) : Helpers (WithNaN β) where
  sqrt a := match a with
    | .fin x => if x < 0 then .nan else .fin (E.sqrt x)
    | .nan => .nan
  isfinite a := a.isFin
  isnan a := !a.isFin
  quat_from_rotvec v :=
    if (List.finRange 3).all (fun i => (v i).isFin) then
      let q := E.quat_from_rotvec (fun i => (v i).getD 0)
      ⟨.fin q.w, .fin q.x, .fin q.y, .fin q.z⟩
    else ⟨.nan, .nan, .nan, .nan⟩
  rotvec_from_quat q :=
    if q.w.isFin && q.x.isFin && q.y.isFin && q.z.isFin then
      fun i => .fin (E.rotvec_from_quat ⟨q.w.getD 0, q.x.getD 0, q.y.getD 0, q.z.getD 0⟩ i)
    else fun _ => .nan
  gravity v :=
    if (List.finRange 3).all (fun i => (v i).isFin) then
      fun i => .fin (E.gravity (fun k => (v k).getD 0) i)
    else fun _ => .nan

/-! ## Exact values as doubles -/

namespace WithNaN

variable {β : Type}

/-- A vector of exact values as a vector of doubles. -/
def ofVec {n : Nat} (v : Vec n β) : Vec n (WithNaN β) := fun i => fin (v i)

/-- A quaternion of exact values as a quaternion of doubles. -/
def ofQuat (q : Quaternion β) : Quaternion (WithNaN β) :=
  ⟨fin q.w, fin q.x, fin q.y, fin q.z⟩

/-- A State of exact values as a State of doubles. -/
def ofState (s : State β) : State (WithNaN β) :=
  ⟨s.t, ofVec s.pos_eci, ofQuat s.orient, ofVec s.vel, ofVec s.gyro_bias,
    fin s.local_g, fin s.ground_air_pressure⟩

/-- An extra input of exact values as an extra input of doubles. -/
def ofExtra (e : ExtraType β) : ExtraType (WithNaN β) :=
  ⟨⟨ofVec e.first.first, ofVec e.first.second⟩, ofVec e.second⟩

/-- An updater with exact sample values as an updater on doubles. -/
def ofUpdater (u : StateUpdater β) : StateUpdater (WithNaN β) :=
  ⟨⟨u.imu.header_stamp,
      ⟨fin u.imu.angular_velocity.x, fin u.imu.angular_velocity.y,
        fin u.imu.angular_velocity.z⟩,
      ofVec u.imu.angular_velocity_covariance,
      ⟨fin u.imu.linear_acceleration.x, fin u.imu.linear_acceleration.y,
        fin u.imu.linear_acceleration.z⟩,
      ofVec u.imu.linear_acceleration_covariance⟩,
    u.rightSideAccelFrame⟩

end WithNaN

/-! ## The exponential and logarithm maps -/

section ExpLog

variable {α : Type} [Zero α] [One α] [Add α] [Mul α] [Div α] [OfNat α 2] [DecidableEq α]

/-- Modelled from the spec: `quat_from_rotvec` of `util.h`, which is not among
the sources: "the exponential map of the rotation-vector", the unit quaternion
of the rotation by `|r|` about `r`, built from given `sqrt`, `cos` and `sin`. -/
def quat_exp (sqrt cos sin : α → α) (r : Vec 3 α) : Quaternion α :=
  let angle := sqrt r.squaredNorm
  if angle = 0 then Quaternion.Identity
  else
    let s := sin (angle / 2) / angle
    ⟨cos (angle / 2), s * r 0, s * r 1, s * r 2⟩

/-- Modelled from the spec: `rotvec_from_quat` of `util.h`, which is not among
the sources: the "tangent-space logarithm", the rotation vector of angle
`2 arccos w` along the vector part of the quaternion. -/
def quat_log (sqrt arccos : α → α) (q : Quaternion α) : Vec 3 α :=
  let n := sqrt q.vec.squaredNorm
  if n = 0 then ![2 * arccos q.w, 0, 0]
  else
    let s := 2 * arccos q.w / n
    ![s * q.x, s * q.y, s * q.z]

/-- Helpers in exact arithmetic: every value is finite, and the rotation maps
are the exponential and the logarithm built from the given elementary
functions. -/
def Helpers.exact (sqrt cos sin arccos : α → α) (gravity : Vec 3 α → Vec 3 α) :
    Helpers α where
  sqrt := sqrt
  isfinite _ := true
  isnan _ := false
  quat_from_rotvec := quat_exp sqrt cos sin
  rotvec_from_quat := quat_log sqrt arccos
  gravity := gravity

end ExpLog

/-! ## Sample inputs -/

section Scenario

variable {α : Type} [Zero α] [One α] [Neg α] [OfScientific α]

/-- The prior State of the concrete scenario of the spec: at `t = 0`, at the
origin, at rest, identity orientation, no gyro bias, `local_g = 9.8` and
`ground_air_pressure = 101325`. -/
def scenario_state : State α :=
  ⟨0, 0, Quaternion.Identity, 0, 0, 9.8, 101325.0⟩

/-- The State of the concrete scenario stamped `t = 2 s`, one second after the
sample of the scenario. -/
def late_state : State α :=
  ⟨2000000000, 0, Quaternion.Identity, 0, 0, 9.8, 101325.0⟩

/-- The gravity model of the concrete scenario: `(0, 0, -9.8)` everywhere. -/
def scenario_gravity : Vec 3 α → Vec 3 α := fun _ => ![0, 0, -9.8]

/-- The updater of the concrete scenario: a sample stamped `t = 1 s` that
measured no angular velocity and the specific force `(0, 0, 9.8)`. -/
def scenario_updater (flag : Bool) : StateUpdater α :=
  ⟨⟨1000000000, ⟨0, 0, 0⟩, 0, ⟨0, 0, 9.8⟩, 0⟩, flag⟩

/-- The extra input of the concrete scenario: no angular velocity, specific
force `(0, 0, 9.8)`, no noise. -/
def scenario_extra : ExtraType α := ⟨⟨0, ![0, 0, 9.8]⟩, 0⟩

/-- An extra input with angular velocity `(1, 0, 0)`, no specific force and no
noise. -/
def spin_extra : ExtraType α := ⟨⟨![1, 0, 0], 0⟩, 0⟩

/-- An extra input with angular velocity `(1, 0, 0)`, specific force `(0, 1, 0)`
and no noise. -/
def spin_force_extra : ExtraType α := ⟨⟨![1, 0, 0], ![0, 1, 0]⟩, 0⟩

/-- The State of the concrete scenario with the unit orientation
`(0.6, 0.8, 0, 0)`, a rotation about the x axis by less than a half turn. -/
def tilted_state : State α :=
  ⟨0, 0, ⟨0.6, 0.8, 0, 0⟩, 0, 0, 9.8, 101325.0⟩

end Scenario

/-- A State turned half a turn about the x axis. -/
def sample_state : State ℝ :=
  ⟨0, ![1, 2, 3], ⟨0, 1, 0, 0⟩, ![4, 5, 6], ![0, 0, 0], 10, 101325⟩

/-- A State at another place, with the identity orientation. -/
def sample_state2 : State ℝ :=
  ⟨7, ![3, 2, 1], Quaternion.Identity, ![1, 1, 1], ![1, 0, 0], 9, 100000⟩

/-- A State whose stored orientation `(2, 0, 0, 0)` is not normalised. -/
def sample_state3 : State ℝ :=
  ⟨0, ![1, 2, 3], ⟨2, 0, 0, 0⟩, ![4, 5, 6], ![0, 0, 0], 10, 101325⟩

/-- A delta whose rotation block is `(1, 0, 0)`. -/
def sample_delta : State.DeltaType ℝ := ![1, 1, 1, 1, 0, 0, 2, 2, 2, 0, 0, 0, 1, 5]

/-- A fair coin read as a noise value of variance 25: `5` or `-5`. -/
def coin (b : Bool) : ℝ := if b then 5 else -5

/-- Two independent coin noises on pairs of coin flips, and no noise after the
second update. -/
def coin_noise : Nat → Bool × Bool → ℝ
  | 0 => fun ω => coin ω.1
  | 1 => fun ω => coin ω.2
  | _ => fun _ => 0

/-- Updaters for samples stamped `1 s`, `2 s`, `3 s`, ... that measured no
angular velocity and no specific force. -/
def walk_updater (k : Nat) : StateUpdater ℝ :=
  ⟨⟨(Int.ofNat k + 1) * 1000000000, ⟨0, 0, 0⟩, 0, ⟨0, 0, 0⟩, 0⟩, false⟩

/-! ## Repeated updates -/

section Repeated

variable {α : Type} [Zero α] [One α] [Add α] [Sub α] [Mul α] [Div α] [Neg α]
  [OfNat α 2] [IntCast α]

/-- The extra input of an updater with every entry at the mean of
`get_extra_distribution` except the noise entry, which is `noise`. -/
def StateUpdater.mean_extra (self : StateUpdater α) (noise : α) : ExtraType α :=
  ⟨self.get_extra_distribution.mean.first, fun _ => noise⟩

/-- The State after the first `k` updates of the filter loop: sample `i` is
applied by the updater `u i` with the noise realisation `noise i`, all other
inputs at their mean.  A failed assertion is `none`. -/
def apply_repeated (E : Helpers α) (u : Nat → StateUpdater α) (noise : Nat → α)
    (s0 : State α) : Nat → Option (State α)
  | 0 => some s0
  | k + 1 =>
    (apply_repeated E u noise s0 k).bind
      (fun s => (u k).apply E s ((u k).mean_extra (noise k)))

/-- The time stamp of the State that update `k` starts from: the one of the
initial State, then the stamp of the previous sample. -/
def prior_stamp (u : Nat → StateUpdater α) (t0 : Int) : Nat → Int
  | 0 => t0
  | k + 1 => (u k).imu.header_stamp

end Repeated

/-! ## Doubles with their range -/

/-- A `double` with its range: a finite value, an infinity (`neg` tells whether
it is the negative one) or NaN.  Rounding inside the range is idealised away:
an operation on finite values returns the exact result unless that overflows or
underflows.  The sign of zero is not kept. -/
inductive Double (β : Type) where
  | fin (x : β)
  | inf (neg : Bool)
  | nan
deriving DecidableEq

namespace Double

section Ops

variable {β : Type} [LinearOrderedField β]

/-- The overflow threshold of IEEE 754 binary64 in round-to-nearest: a result of
magnitude `2^1024 - 2^970` or more (half an ulp above `DBL_MAX`) is infinite. -/
def ovf : β := 2 ^ 1024 - 2 ^ 970

/-- The underflow threshold of binary64 in round-to-nearest: a result of
magnitude `2^-1075` or less (half the least subnormal) is zero. -/
def udf : β := 1 / 2 ^ 1075

/-- The double that an exact result `r` becomes: an infinity on overflow, zero on
underflow, `r` otherwise. -/
def round (r : β) : Double β :=
  if ovf ≤ |r| then inf (decide (r < 0))
  else if |r| ≤ udf then fin 0
  else fin r

/-- IEEE addition. -/
def add : Double β → Double β → Double β
  | fin a, fin b => round (a + b)
  | fin _, inf s => inf s
  | inf s, fin _ => inf s
  | inf s, inf t => if s = t then inf s else nan
  | _, _ => nan

/-- IEEE negation. -/
def neg : Double β → Double β
  | fin a => fin (-a)
  | inf s => inf (!s)
  | nan => nan

/-- IEEE multiplication; `0 * ∞` is NaN. -/
def mul : Double β → Double β → Double β
  | fin a, fin b => round (a * b)
  | fin a, inf s => if a = 0 then nan else inf (xor (decide (a < 0)) s)
  | inf s, fin b => if b = 0 then nan else inf (xor s (decide (b < 0)))
  | inf s, inf t => inf (xor s t)
  | _, _ => nan

/-- IEEE division; `0 / 0` and `∞ / ∞` are NaN, `x / 0` is an infinity and
`x / ∞` is zero. -/
def div : Double β → Double β → Double β
  | fin a, fin b =>
    if b = 0 then (if a = 0 then nan else inf (decide (a < 0))) else round (a / b)
  | fin _, inf _ => fin 0
  | inf s, fin b => inf (xor s (decide (b < 0)))
  | _, _ => nan

/-- Test `std::isfinite`. -/
def isFin : Double β → Bool
  | fin _ => true
  | _ => false

/-- Test `std::isnan`. -/
def isNaN : Double β → Bool
  | nan => true
  | _ => false

/-- The finite value, `d` for an infinity or NaN. -/
def getD (d : β) : Double β → β
  | fin x => x
  | _ => d

instance : Zero (Double β) := ⟨fin 0⟩
instance : One (Double β) := ⟨fin 1⟩
instance : OfNat (Double β) 2 := ⟨fin 2⟩
instance : IntCast (Double β) := ⟨fun n => round (Int.cast n)⟩
instance : Add (Double β) := ⟨add⟩
instance : Neg (Double β) := ⟨neg⟩
instance : Sub (Double β) := ⟨fun a b => add a (neg b)⟩
instance : Mul (Double β) := ⟨mul⟩
instance : Div (Double β) := ⟨div⟩

/-- A finite double of magnitude at most `2^n`. -/
def Bnd (n : Nat) (x : Double β) : Prop := ∃ r, x = fin r ∧ |r| ≤ 2 ^ n

/-- A vector of exact values as a vector of doubles. -/
def ofVec {n : Nat} (v : Vec n β) : Vec n (Double β) := fun i => fin (v i)

/-- A quaternion of exact values as a quaternion of doubles. -/
def ofQuat (q : Quaternion β) : Quaternion (Double β) :=
  ⟨fin q.w, fin q.x, fin q.y, fin q.z⟩

/-- A State of exact values as a State of doubles. -/
def ofState (s : State β) : State (Double β) :=
  ⟨s.t, ofVec s.pos_eci, ofQuat s.orient, ofVec s.vel, ofVec s.gyro_bias,
    fin s.local_g, fin s.ground_air_pressure⟩

/-- An extra input of exact values as an extra input of doubles. -/
def ofExtra (e : ExtraType β) : ExtraType (Double β) :=
  ⟨⟨ofVec e.first.first, ofVec e.first.second⟩, ofVec e.second⟩

/-- An updater with exact sample values as an updater on doubles. -/
def ofUpdater (u : StateUpdater β) : StateUpdater (Double β) :=
  ⟨⟨u.imu.header_stamp,
      ⟨fin u.imu.angular_velocity.x, fin u.imu.angular_velocity.y,
        fin u.imu.angular_velocity.z⟩,
      ofVec u.imu.angular_velocity_covariance,
      ⟨fin u.imu.linear_acceleration.x, fin u.imu.linear_acceleration.y,
        fin u.imu.linear_acceleration.z⟩,
      ofVec u.imu.linear_acceleration_covariance⟩,
    u.rightSideAccelFrame⟩

/-- Every entry of a vector of doubles is finite. -/
def VFin {n : Nat} (v : Vec n (Double β)) : Prop := ∀ i, (v i).isFin = true

/-- Every entry of a vector of doubles is finite, of magnitude at most `2^k`. -/
def VBnd {n : Nat} (k : Nat) (v : Vec n (Double β)) : Prop := ∀ i, Bnd k (v i)

/-- Every coefficient of a quaternion of doubles is finite, of magnitude at most
`2^k`. -/
def QBnd (k : Nat) (q : Quaternion (Double β)) : Prop :=
  Bnd k q.w ∧ Bnd k q.x ∧ Bnd k q.y ∧ Bnd k q.z

end Ops

end Double

/-- The helpers on doubles with their range that extend helpers `E` on exact
values: `sqrt` of a negative number or of `-∞` is NaN and `sqrt(+∞) = +∞`;
`isfinite` and `isnan` are the tests of the C library; the vector functions
return the values of `E`, as doubles, on finite arguments and NaN coefficients
otherwise. -/
def Helpers.double {β : Type} [LinearOrderedField β] (E : Helpers β) :
    Helpers (Double β) where
  sqrt a := match a with
    | .fin x => if x < 0 then .nan else Double.round (E.sqrt x)
    | .inf s => if s then .nan else .inf false
    | .nan => .nan
  isfinite a := a.isFin
  isnan a := a.isNaN
  quat_from_rotvec v :=
    if (List.finRange 3).all (fun i => (v i).isFin) then
      let q := E.quat_from_rotvec (fun i => (v i).getD 0)
      ⟨Double.round q.w, Double.round q.x, Double.round q.y, Double.round q.z⟩
    else ⟨.nan, .nan, .nan, .nan⟩
  rotvec_from_quat q :=
    if q.w.isFin && q.x.isFin && q.y.isFin && q.z.isFin then
      fun i => Double.round
        (E.rotvec_from_quat ⟨q.w.getD 0, q.x.getD 0, q.y.getD 0, q.z.getD 0⟩ i)
    else fun _ => .nan
  gravity v :=
    if (List.finRange 3).all (fun i => (v i).isFin) then
      fun i => Double.round (E.gravity (fun k => (v k).getD 0) i)
    else fun _ => .nan

/-- A quaternion whose squared norm neither overflows nor underflows: not zero,
and every coefficient is zero or of magnitude between `2^-500` and `2^500`. -/
def Quaternion.InRange (q : Quaternion ℝ) : Prop :=
  q ≠ ⟨0, 0, 0, 0⟩
  ∧ ∀ c ∈ [q.w, q.x, q.y, q.z], c = 0 ∨ (1 / 2 ^ 500 ≤ |c| ∧ |c| ≤ 2 ^ 500)

/-- A quaternion of doubles with finite coefficients whose squared norm neither
overflows nor underflows. -/
def Double.QInRange (q : Quaternion (Double ℝ)) : Prop :=
  ∃ q0 : Quaternion ℝ, q = Double.ofQuat q0 ∧ q0.InRange

/-- The inputs of `apply` are moderate: the duration is one that `ros::Duration`
can hold (below `2^62` nanoseconds), and every entry of the State and of the
extra input, and every entry of the gravity at the position of the State, has a
magnitude of at most `2^100`. -/
def StateUpdater.Moderate (E : Helpers ℝ) (stamp : Int) (state : State ℝ)
    (extra : ExtraType ℝ) : Prop :=
  |stamp - state.t| ≤ 2 ^ 62
  ∧ (∀ i, |state.pos_eci i| ≤ 2 ^ 100)
  ∧ (∀ c ∈ [state.orient.w, state.orient.x, state.orient.y, state.orient.z],
      |c| ≤ 2 ^ 100)
  ∧ (∀ i, |state.vel i| ≤ 2 ^ 100)
  ∧ (∀ i, |state.gyro_bias i| ≤ 2 ^ 100)
  ∧ |state.ground_air_pressure| ≤ 2 ^ 100
  ∧ (∀ i, |extra.first.first i| ≤ 2 ^ 100)
  ∧ (∀ i, |extra.first.second i| ≤ 2 ^ 100)
  ∧ |extra.second 0| ≤ 2 ^ 100
  ∧ (∀ i, |E.gravity state.pos_eci i| ≤ 2 ^ 100)

section Heavy

variable {α : Type} [Zero α] [One α] [OfScientific α]

/-- A State at `t = 0` with every entry finite and the ground air pressure
`1e308`. -/
def heavy_state : State α :=
  ⟨0, 0, Quaternion.Identity, 0, 0, 9.8, 1e308⟩

/-- A sample stamped `t = 4 s` that measured nothing. -/
def heavy_updater : StateUpdater α :=
  ⟨⟨4000000000, ⟨0, 0, 0⟩, 0, ⟨0, 0, 0⟩, 0⟩, false⟩

/-- An extra input with no angular velocity, no specific force and the noise
`1e308`. -/
def heavy_extra : ExtraType α := ⟨⟨0, 0⟩, fun _ => 1e308⟩

/-- The finite quaternion `(1e200, 0, 0, 0)`, whose squared norm overflows. -/
def heavy_quaternion : Quaternion α := ⟨1e200, 0, 0, 0⟩

end Heavy

/-- Exact helpers over the reals: no value is NaN or infinite, `sqrt` is the
square root, `quat_from_rotvec` is an exponential map (identity at zero, unit
values) and `rotvec_from_quat` a logarithm for it: it inverts the exponential on
rotation vectors shorter than `π` and the exponential inverts it on unit
quaternions. -/
structure Helpers.Exact (E : Helpers ℝ) : Prop where
  finite : ∀ x, E.isfinite x = true ∧ E.isnan x = false
  sqrt_nonneg : ∀ x, 0 ≤ x → 0 ≤ E.sqrt x
  sqrt_sq : ∀ x, 0 ≤ x → E.sqrt x * E.sqrt x = x
  exp_zero : E.quat_from_rotvec 0 = Quaternion.Identity
  exp_unit : ∀ r, (E.quat_from_rotvec r).squaredNorm = 1
  log_exp : ∀ r, r.squaredNorm < Real.pi ^ 2 →
    E.rotvec_from_quat (E.quat_from_rotvec r) = r
  exp_log : ∀ q, q.squaredNorm = 1 → E.quat_from_rotvec (E.rotvec_from_quat q) = q

/-! ## Quaternion algebra over the reals -/

theorem Quaternion.mul_eq {α : Type} [Add α] [Sub α] [Mul α] (a b : Quaternion α) :
    a * b = ⟨a.w * b.w - a.x * b.x - a.y * b.y - a.z * b.z,
      a.w * b.x + a.x * b.w + a.y * b.z - a.z * b.y,
      a.w * b.y + a.y * b.w + a.z * b.x - a.x * b.z,
      a.w * b.z + a.z * b.w + a.x * b.y - a.y * b.x⟩ := rfl

theorem Quaternion.squaredNorm_mul (a b : Quaternion ℝ) :
    (a * b).squaredNorm = a.squaredNorm * b.squaredNorm := by
  simp only [Quaternion.mul_eq, Quaternion.squaredNorm]
  ring

theorem Quaternion.mul_conjugate_cancel (a b : Quaternion ℝ) (hb : b.squaredNorm = 1) :
    a * b * b.conjugate = a := by
  simp only [Quaternion.squaredNorm] at hb
  ext <;> simp only [Quaternion.mul_eq, Quaternion.conjugate]
  · linear_combination a.w * hb
  · linear_combination a.x * hb
  · linear_combination a.y * hb
  · linear_combination a.z * hb

theorem Quaternion.conjugate_mul_cancel (a b : Quaternion ℝ) (hb : b.squaredNorm = 1) :
    a * b.conjugate * b = a := by
  simp only [Quaternion.squaredNorm] at hb
  ext <;> simp only [Quaternion.mul_eq, Quaternion.conjugate]
  · linear_combination a.w * hb
  · linear_combination a.x * hb
  · linear_combination a.y * hb
  · linear_combination a.z * hb

theorem Quaternion.squaredNorm_conjugate (a : Quaternion ℝ) :
    a.conjugate.squaredNorm = a.squaredNorm := by
  simp only [Quaternion.conjugate, Quaternion.squaredNorm]
  ring

theorem Quaternion.self_mul_conjugate (a : Quaternion ℝ) (ha : a.squaredNorm = 1) :
    a * a.conjugate = Quaternion.Identity := by
  simp only [Quaternion.squaredNorm] at ha
  ext <;> simp only [Quaternion.mul_eq, Quaternion.conjugate, Quaternion.Identity]
  · linear_combination ha
  · ring
  · ring
  · ring

theorem Quaternion.Identity_mul (a : Quaternion ℝ) : Quaternion.Identity * a = a := by
  ext <;> simp [Quaternion.mul_eq, Quaternion.Identity]

theorem Quaternion.mul_Identity (a : Quaternion ℝ) : a * Quaternion.Identity = a := by
  ext <;> simp [Quaternion.mul_eq, Quaternion.Identity]

theorem Helpers.Exact.sqrt_one {E : Helpers ℝ} (hE : E.Exact) : E.sqrt 1 = 1 := by
  have h1 := hE.sqrt_nonneg 1 zero_le_one
  have h2 := hE.sqrt_sq 1 zero_le_one
  nlinarith

theorem Quaternion.normalized_of_unit {E : Helpers ℝ} (hE : E.Exact) (a : Quaternion ℝ)
    (ha : a.squaredNorm = 1) : a.normalized E.sqrt = a := by
  simp [Quaternion.normalized, ha, hE.sqrt_one]

theorem assert_none_nan_exact {E : Helpers ℝ} (hE : E.Exact) {n : Nat} (v : Vec n ℝ) :
    assert_none_nan E v = true := by
  simp [assert_none_nan, (hE.finite _).2]

theorem State.new_exact {E : Helpers ℝ} (hE : E.Exact) (t : Int) (p : Vec 3 ℝ)
    (q : Quaternion ℝ) (v b : Vec 3 ℝ) (g a : ℝ) :
    State.new E t p q v b g a = some ⟨t, p, q.normalized E.sqrt, v, b, g, a⟩ := by
  simp [State.new, assert_none_nan_exact hE, (hE.finite _).1]

/-! ## The real exponential and logarithm are exact helpers -/

theorem Vec.squaredNorm_nonneg (r : Vec 3 ℝ) : 0 ≤ r.squaredNorm := by
  simp only [Vec.squaredNorm]
  nlinarith [mul_self_nonneg (r 0), mul_self_nonneg (r 1), mul_self_nonneg (r 2)]

theorem Vec.eq_zero_of_squaredNorm (r : Vec 3 ℝ) (h : r.squaredNorm = 0) : r = 0 := by
  simp only [Vec.squaredNorm] at h
  have h0 : r 0 = 0 := by
    nlinarith [mul_self_nonneg (r 0), mul_self_nonneg (r 1), mul_self_nonneg (r 2)]
  have h1 : r 1 = 0 := by
    nlinarith [mul_self_nonneg (r 0), mul_self_nonneg (r 1), mul_self_nonneg (r 2)]
  have h2 : r 2 = 0 := by
    nlinarith [mul_self_nonneg (r 0), mul_self_nonneg (r 1), mul_self_nonneg (r 2)]
  funext i
  fin_cases i
  · exact h0
  · exact h1
  · exact h2

theorem quat_exp_unit (r : Vec 3 ℝ) :
    (quat_exp Real.sqrt Real.cos Real.sin r).squaredNorm = 1 := by
  unfold quat_exp
  simp only
  split_ifs with h
  · simp [Quaternion.Identity, Quaternion.squaredNorm]
  · have hsn : r 0 * r 0 + r 1 * r 1 + r 2 * r 2
        = Real.sqrt r.squaredNorm * Real.sqrt r.squaredNorm := by
      rw [Real.mul_self_sqrt (Vec.squaredNorm_nonneg r)]
      rfl
    have hcs := Real.sin_sq_add_cos_sq (Real.sqrt r.squaredNorm / 2)
    generalize Real.sqrt r.squaredNorm = θ at *
    simp only [Quaternion.squaredNorm]
    field_simp
    linear_combination (Real.sin (θ / 2)) ^ 2 * hsn + θ ^ 2 * hcs

theorem quat_log_exp (r : Vec 3 ℝ) (hr : r.squaredNorm < Real.pi ^ 2) :
    quat_log Real.sqrt Real.arccos (quat_exp Real.sqrt Real.cos Real.sin r) = r := by
  unfold quat_exp
  simp only
  split_ifs with h
  · have hr0 : r = 0 := by
      apply Vec.eq_zero_of_squaredNorm
      exact (Real.sqrt_eq_zero (Vec.squaredNorm_nonneg r)).mp h
    subst hr0
    simp [quat_log, Quaternion.Identity, Quaternion.vec, Vec.squaredNorm]
  · have hnn := Vec.squaredNorm_nonneg r
    have hθpos : 0 < Real.sqrt r.squaredNorm :=
      lt_of_le_of_ne (Real.sqrt_nonneg _) (Ne.symm h)
    have hθlt : Real.sqrt r.squaredNorm < Real.pi := by
      rw [Real.sqrt_lt' Real.pi_pos]
      exact hr
    have hsn : r 0 * r 0 + r 1 * r 1 + r 2 * r 2
        = Real.sqrt r.squaredNorm * Real.sqrt r.squaredNorm := by
      rw [Real.mul_self_sqrt hnn]
      rfl
    generalize Real.sqrt r.squaredNorm = θ at *
    have hsin : 0 < Real.sin (θ / 2) :=
      Real.sin_pos_of_pos_of_lt_pi (by linarith) (by linarith)
    have harc : Real.arccos (Real.cos (θ / 2)) = θ / 2 :=
      Real.arccos_cos (by linarith) (by linarith)
    have hvec : (Quaternion.vec (⟨Real.cos (θ / 2), Real.sin (θ / 2) / θ * r 0,
        Real.sin (θ / 2) / θ * r 1, Real.sin (θ / 2) / θ * r 2⟩ : Quaternion ℝ)).squaredNorm
        = Real.sin (θ / 2) * Real.sin (θ / 2) := by
      simp only [Quaternion.vec, Vec.squaredNorm, Matrix.cons_val_zero, Matrix.cons_val_one,
        Matrix.head_cons, Matrix.cons_val_two, Matrix.tail_cons]
      field_simp
      linear_combination (Real.sin (θ / 2)) ^ 2 * hsn
    simp only [quat_log, hvec, Real.sqrt_mul_self hsin.le, hsin.ne', if_false, harc]
    funext i
    fin_cases i <;> simp <;> field_simp <;> ring

theorem quat_exp_log (q : Quaternion ℝ) (hq : q.squaredNorm = 1) :
    quat_exp Real.sqrt Real.cos Real.sin (quat_log Real.sqrt Real.arccos q) = q := by
  have hm : q.vec.squaredNorm = 1 - q.w ^ 2 := by
    simp only [Quaternion.squaredNorm] at hq
    simp only [Quaternion.vec, Vec.squaredNorm, Matrix.cons_val_zero, Matrix.cons_val_one,
      Matrix.head_cons, Matrix.cons_val_two, Matrix.tail_cons]
    linear_combination hq
  have hmnn := Vec.squaredNorm_nonneg q.vec
  have hw1 : -1 ≤ q.w := by nlinarith
  have hw2 : q.w ≤ 1 := by nlinarith
  have hcos := Real.cos_arccos hw1 hw2
  have hsin : Real.sin (Real.arccos q.w) = Real.sqrt q.vec.squaredNorm := by
    rw [Real.sin_arccos, hm]
  have hφ := Real.arccos_nonneg q.w
  unfold quat_log
  simp only
  split_ifs with h
  · -- the vector part vanishes
    have hv := Vec.eq_zero_of_squaredNorm q.vec
      ((Real.sqrt_eq_zero hmnn).mp h)
    have hx : q.x = 0 := congrFun hv 0
    have hy : q.y = 0 := congrFun hv 1
    have hz : q.z = 0 := congrFun hv 2
    have hsn : Vec.squaredNorm ![2 * Real.arccos q.w, 0, 0]
        = (2 * Real.arccos q.w) * (2 * Real.arccos q.w) := by
      simp [Vec.squaredNorm]
    have hang : Real.sqrt (Vec.squaredNorm ![2 * Real.arccos q.w, 0, 0])
        = 2 * Real.arccos q.w := by
      rw [hsn, Real.sqrt_mul_self (by linarith)]
    unfold quat_exp
    simp only [hang]
    split_ifs with h0
    · have hφ0 : Real.arccos q.w = 0 := by linarith
      rw [hφ0, Real.cos_zero] at hcos
      ext <;> simp [Quaternion.Identity, hx, hy, hz, hcos]
    · have e : 2 * Real.arccos q.w / 2 = Real.arccos q.w := by ring
      rw [e, hcos, hsin, h]
      ext <;> simp [hx, hy, hz]
  · have hnpos : 0 < Real.sqrt q.vec.squaredNorm :=
      lt_of_le_of_ne (Real.sqrt_nonneg _) (Ne.symm h)
    have hnsq := Real.mul_self_sqrt hmnn
    have hφne : Real.arccos q.w ≠ 0 := by
      intro h0
      rw [h0, Real.sin_zero] at hsin
      exact h hsin.symm
    have hφpos : 0 < Real.arccos q.w := lt_of_le_of_ne hφ (Ne.symm hφne)
    have hvsn : q.vec.squaredNorm = q.x * q.x + q.y * q.y + q.z * q.z := rfl
    generalize Real.sqrt q.vec.squaredNorm = n at *
    have hsn : Vec.squaredNorm ![2 * Real.arccos q.w / n * q.x, 2 * Real.arccos q.w / n * q.y,
        2 * Real.arccos q.w / n * q.z]
        = (2 * Real.arccos q.w) * (2 * Real.arccos q.w) := by
      simp only [Vec.squaredNorm, Matrix.cons_val_zero, Matrix.cons_val_one,
        Matrix.head_cons, Matrix.cons_val_two, Matrix.tail_cons]
      field_simp
      rw [hvsn] at hnsq
      linear_combination (-(4 * Real.arccos q.w ^ 2)) * hnsq
    unfold quat_exp
    simp only [hsn, Real.sqrt_mul_self (by linarith : (0:ℝ) ≤ 2 * Real.arccos q.w)]
    have h2 : 2 * Real.arccos q.w ≠ 0 := by positivity
    rw [if_neg h2]
    have e : 2 * Real.arccos q.w / 2 = Real.arccos q.w := by ring
    rw [e, hcos, hsin]
    ext <;> simp <;> field_simp <;> ring

/-- The square root, cosine, sine and arc cosine of the reals give exact
helpers, whatever the gravity model. -/
theorem Helpers.exact_real (g : Vec 3 ℝ → Vec 3 ℝ) :
    (Helpers.exact Real.sqrt Real.cos Real.sin Real.arccos g).Exact where
  finite _ := ⟨rfl, rfl⟩
  sqrt_nonneg x _ := Real.sqrt_nonneg x
  sqrt_sq x hx := Real.mul_self_sqrt hx
  exp_zero := by
    simp [Helpers.exact, quat_exp, Vec.squaredNorm]
  exp_unit := quat_exp_unit
  log_exp := quat_log_exp
  exp_log := quat_exp_log

/-! ## States in exact arithmetic -/

theorem State.DeltaType.finished_segments (D : State.DeltaType ℝ) :
    State.DeltaType.finished
      (D.segment3 State.POS_ECI (by decide)) (D.segment3 State.ORIENT (by decide))
      (D.segment3 State.VEL (by decide)) (D.segment3 State.GYRO_BIAS (by decide))
      (D ⟨State.LOCAL_G, by decide⟩) (D ⟨State.GROUND_AIR_PRESSURE, by decide⟩) = D := by
  funext i
  fin_cases i <;> rfl

theorem State.operator_plus_exact {E : Helpers ℝ} (hE : E.Exact) (S : State ℝ)
    (D : State.DeltaType ℝ) (hS : S.orient.squaredNorm = 1) :
    S.operator_plus E D = some
      ⟨S.t, S.pos_eci + D.segment3 State.POS_ECI (by decide),
        E.quat_from_rotvec (D.segment3 State.ORIENT (by decide)) * S.orient,
        S.vel + D.segment3 State.VEL (by decide),
        S.gyro_bias + D.segment3 State.GYRO_BIAS (by decide),
        S.local_g + D ⟨State.LOCAL_G, by decide⟩,
        S.ground_air_pressure + D ⟨State.GROUND_AIR_PRESSURE, by decide⟩⟩ := by
  have hu : (E.quat_from_rotvec (D.segment3 State.ORIENT (by decide)) * S.orient).squaredNorm
      = 1 := by
    rw [Quaternion.squaredNorm_mul, hE.exp_unit, hS, one_mul]
  rw [State.operator_plus, State.new_exact hE, Quaternion.normalized_of_unit hE _ hu]

theorem State.DeltaType.segment3_finished (p r v b : Vec 3 ℝ) (g a : ℝ) :
    (State.DeltaType.finished p r v b g a).segment3 State.POS_ECI (by decide) = p
    ∧ (State.DeltaType.finished p r v b g a).segment3 State.ORIENT (by decide) = r
    ∧ (State.DeltaType.finished p r v b g a).segment3 State.VEL (by decide) = v
    ∧ (State.DeltaType.finished p r v b g a).segment3 State.GYRO_BIAS (by decide) = b
    ∧ State.DeltaType.finished p r v b g a ⟨State.LOCAL_G, by decide⟩ = g
    ∧ State.DeltaType.finished p r v b g a ⟨State.GROUND_AIR_PRESSURE, by decide⟩ = a := by
  refine ⟨?_, ?_, ?_, ?_, rfl, rfl⟩ <;> (funext i; fin_cases i <;> rfl)

theorem Quaternion.squaredNorm_pos (a : Quaternion ℝ) (ha : a.squaredNorm ≠ 0) :
    0 < a.squaredNorm := by
  have h : 0 ≤ a.squaredNorm := by
    simp only [Quaternion.squaredNorm]
    nlinarith [mul_self_nonneg a.x, mul_self_nonneg a.y, mul_self_nonneg a.z,
      mul_self_nonneg a.w]
  exact lt_of_le_of_ne h (Ne.symm ha)

theorem Quaternion.squaredNorm_normalized {E : Helpers ℝ} (hE : E.Exact) (a : Quaternion ℝ)
    (ha : a.squaredNorm ≠ 0) : (a.normalized E.sqrt).squaredNorm = 1 := by
  have hpos := Quaternion.squaredNorm_pos a ha
  have hsq := hE.sqrt_sq _ hpos.le
  have hn : E.sqrt a.squaredNorm ≠ 0 := by
    intro h0
    rw [h0] at hsq
    simp at hsq
    exact ha hsq.symm
  have key : (a.normalized E.sqrt).squaredNorm
      = a.squaredNorm / (E.sqrt a.squaredNorm * E.sqrt a.squaredNorm) := by
    simp only [Quaternion.normalized, Quaternion.squaredNorm]
    field_simp
  rw [key, hsq, div_self ha]

theorem Quaternion.squaredNorm_ne_zero (q : Quaternion ℝ) (hq : q ≠ ⟨0, 0, 0, 0⟩) :
    q.squaredNorm ≠ 0 := by
  intro h
  apply hq
  simp only [Quaternion.squaredNorm] at h
  have hx : q.x = 0 := by
    nlinarith [mul_self_nonneg q.x, mul_self_nonneg q.y, mul_self_nonneg q.z, mul_self_nonneg q.w]
  have hy : q.y = 0 := by
    nlinarith [mul_self_nonneg q.x, mul_self_nonneg q.y, mul_self_nonneg q.z, mul_self_nonneg q.w]
  have hz : q.z = 0 := by
    nlinarith [mul_self_nonneg q.x, mul_self_nonneg q.y, mul_self_nonneg q.z, mul_self_nonneg q.w]
  have hw : q.w = 0 := by
    nlinarith [mul_self_nonneg q.x, mul_self_nonneg q.y, mul_self_nonneg q.z, mul_self_nonneg q.w]
  ext <;> assumption

theorem Quaternion.transformVector_zero (q : Quaternion ℝ) : q._transformVector 0 = 0 := by
  funext i
  fin_cases i <;> simp [Quaternion._transformVector, Quaternion.vec, Vec.cross]

theorem scenario_increment :
    (Helpers.exact Real.sqrt Real.cos Real.sin Real.arccos
        (fun _ => (0 : Vec 3 ℝ))).quat_from_rotvec
      ((Duration.toSec ((scenario_updater true : StateUpdater ℝ).imu.header_stamp
          - (scenario_state : State ℝ).t) : ℝ)
        • ((spin_extra : ExtraType ℝ).first.first - (scenario_state : State ℝ).gyro_bias))
      = ⟨Real.cos (1 / 2), Real.sin (1 / 2), 0, 0⟩ := by
  have hdt : (Duration.toSec ((scenario_updater true : StateUpdater ℝ).imu.header_stamp
      - (scenario_state : State ℝ).t) : ℝ) = 1 := by
    simp [Duration.toSec, scenario_updater, scenario_state]
  have hv : (1 : ℝ)
      • ((spin_extra : ExtraType ℝ).first.first - (scenario_state : State ℝ).gyro_bias)
      = ![1, 0, 0] := by
    simp [spin_extra, scenario_state]
  rw [hdt, hv]
  simp [Helpers.exact, quat_exp, Vec.squaredNorm]

theorem sin_half_pos : 0 < Real.sin (1 / 2) :=
  Real.sin_pos_of_pos_of_lt_pi (by norm_num) (by linarith [Real.pi_gt_three])

theorem StateUpdater.apply_exact {E : Helpers ℝ} (hE : E.Exact) (u : StateUpdater ℝ)
    (state : State ℝ) (extra : ExtraType ℝ) :
    u.apply E state extra = some
      ⟨u.imu.header_stamp,
        state.pos_eci + (Duration.toSec (u.imu.header_stamp - state.t) : ℝ) • state.vel
          + ((Duration.toSec (u.imu.header_stamp - state.t) : ℝ)
              * Duration.toSec (u.imu.header_stamp - state.t) / 2)
            • ((if u.rightSideAccelFrame then
                  state.orient * E.quat_from_rotvec
                    ((Duration.toSec (u.imu.header_stamp - state.t) : ℝ)
                      • (extra.first.first - state.gyro_bias))
                else state.orient)._transformVector extra.first.second
                + E.gravity state.pos_eci),
        (state.orient * E.quat_from_rotvec
          ((Duration.toSec (u.imu.header_stamp - state.t) : ℝ)
            • (extra.first.first - state.gyro_bias))).normalized E.sqrt,
        state.vel + (Duration.toSec (u.imu.header_stamp - state.t) : ℝ)
            • ((if u.rightSideAccelFrame then
                  state.orient * E.quat_from_rotvec
                    ((Duration.toSec (u.imu.header_stamp - state.t) : ℝ)
                      • (extra.first.first - state.gyro_bias))
                else state.orient)._transformVector extra.first.second
                + E.gravity state.pos_eci),
        state.gyro_bias, state.local_g,
        state.ground_air_pressure
          + E.sqrt (Duration.toSec (u.imu.header_stamp - state.t)) * extra.second 0⟩ := by
  simp only [StateUpdater.apply, State.new_exact hE]

/-! ## Doubles with a non-finite value: arithmetic on exact values -/

namespace WithNaN

section Lemmas

variable {β : Type} [LinearOrderedField β]

@[simp]
theorem fin_add (a b : β) : (fin a + fin b : WithNaN β) = fin (a + b) := rfl
@[simp]
theorem fin_sub (a b : β) : (fin a - fin b : WithNaN β) = fin (a - b) := rfl
@[simp]
theorem fin_mul (a b : β) : (fin a * fin b : WithNaN β) = fin (a * b) := rfl
@[simp]
theorem nan_mul (a : WithNaN β) : (nan * a : WithNaN β) = nan := rfl
@[simp]
theorem add_nan (a : WithNaN β) : (a + nan : WithNaN β) = nan := by
  cases a <;> rfl

theorem fin_div (a b : β) (hb : b ≠ 0) : (fin a / fin b : WithNaN β) = fin (a / b) := by
  show (if b = 0 then nan else fin (a / b)) = fin (a / b)
  rw [if_neg hb]

theorem toSec_fin (d : Int) :
    (Duration.toSec d : WithNaN β) = fin (Duration.toSec d) := by
  have h : ((1000000000 : Int) : β) ≠ 0 := by norm_num
  exact fin_div _ _ h

theorem ofVec_add {n : Nat} (a b : Vec n β) : ofVec a + ofVec b = ofVec (a + b) := rfl
theorem ofVec_sub {n : Nat} (a b : Vec n β) : ofVec a - ofVec b = ofVec (a - b) := rfl
theorem fin_smul_ofVec {n : Nat} (c : β) (a : Vec n β) :
    (fin c : WithNaN β) • ofVec a = ofVec (c • a) := rfl

theorem ofQuat_mul (a b : Quaternion β) : ofQuat a * ofQuat b = ofQuat (a * b) := rfl

theorem ofQuat_transformVector (q : Quaternion β) (v : Vec 3 β) :
    (ofQuat q)._transformVector (ofVec v) = ofVec (q._transformVector v) := by
  funext i
  fin_cases i <;> rfl

theorem withNaN_quat_from_rotvec (E : Helpers β) (r : Vec 3 β) :
    E.withNaN.quat_from_rotvec (ofVec r) = ofQuat (E.quat_from_rotvec r) := by
  simp [Helpers.withNaN, ofVec, ofQuat, isFin, getD]

theorem withNaN_gravity (E : Helpers β) (r : Vec 3 β) :
    E.withNaN.gravity (ofVec r) = ofVec (E.gravity r) := by
  simp [Helpers.withNaN, ofVec, isFin, getD]
  rfl

theorem withNaN_sqrt (E : Helpers β) (x : β) :
    E.withNaN.sqrt (fin x) = if x < 0 then nan else fin (E.sqrt x) := rfl

theorem assert_none_nan_ofVec (E : Helpers β) {n : Nat} (v : Vec n β) :
    assert_none_nan E.withNaN (ofVec v) = true := by
  simp [assert_none_nan, Helpers.withNaN, ofVec, isFin]

theorem assert_none_nan_ofQuat (E : Helpers β) (q : Quaternion β) :
    assert_none_nan E.withNaN (ofQuat q).coeffs = true := by
  have h : (ofQuat q).coeffs = ofVec q.coeffs := by
    funext i
    fin_cases i <;> rfl
  rw [h]
  exact assert_none_nan_ofVec E _

theorem new_of_finite (E : Helpers β) (t : Int) (p : Vec 3 β) (q : Quaternion β)
    (v b : Vec 3 β) (g a : β) :
    State.new E.withNaN t (ofVec p) (ofQuat q) (ofVec v) (ofVec b) (fin g) (fin a)
      = some ⟨t, ofVec p, (ofQuat q).normalized E.withNaN.sqrt, ofVec v, ofVec b,
          fin g, fin a⟩ := by
  have hf : ∀ x : β, E.withNaN.isfinite (fin x) = true := fun _ => rfl
  simp [State.new, assert_none_nan_ofVec, assert_none_nan_ofQuat, hf]

end Lemmas

section ApplyFinite

variable {β : Type} [LinearOrderedField β]

theorem apply_of_finite (E : Helpers β) (u : StateUpdater (WithNaN β)) (state : State β)
    (extra : ExtraType β) :
    u.apply E.withNaN (ofState state) (ofExtra extra)
      = State.new E.withNaN u.imu.header_stamp
          (ofVec (state.pos_eci
            + (Duration.toSec (u.imu.header_stamp - state.t) : β) • state.vel
            + ((Duration.toSec (u.imu.header_stamp - state.t) : β)
                * Duration.toSec (u.imu.header_stamp - state.t) / 2)
              • ((if u.rightSideAccelFrame then
                    state.orient * E.quat_from_rotvec
                      ((Duration.toSec (u.imu.header_stamp - state.t) : β)
                        • (extra.first.first - state.gyro_bias))
                  else state.orient)._transformVector extra.first.second
                  + E.gravity state.pos_eci)))
          (ofQuat (state.orient * E.quat_from_rotvec
            ((Duration.toSec (u.imu.header_stamp - state.t) : β)
              • (extra.first.first - state.gyro_bias))))
          (ofVec (state.vel + (Duration.toSec (u.imu.header_stamp - state.t) : β)
              • ((if u.rightSideAccelFrame then
                    state.orient * E.quat_from_rotvec
                      ((Duration.toSec (u.imu.header_stamp - state.t) : β)
                        • (extra.first.first - state.gyro_bias))
                  else state.orient)._transformVector extra.first.second
                  + E.gravity state.pos_eci)))
          (ofVec state.gyro_bias) (fin state.local_g)
          (fin state.ground_air_pressure
            + E.withNaN.sqrt (fin (Duration.toSec (u.imu.header_stamp - state.t)))
              * fin (extra.second 0)) := by
  have h2 : (2 : WithNaN β) = fin 2 := rfl
  have h2ne : (2 : β) ≠ 0 := two_ne_zero
  simp only [StateUpdater.apply, ofState, ofExtra, toSec_fin, ofVec_sub, fin_smul_ofVec,
    withNaN_quat_from_rotvec, ofQuat_mul, withNaN_gravity, fin_mul, h2, fin_div _ _ h2ne]
  cases u.rightSideAccelFrame <;>
    simp only [Bool.false_eq_true, if_false, if_true, ofQuat_transformVector, ofVec_add,
      fin_smul_ofVec] <;> rfl

end ApplyFinite

end WithNaN

theorem WithNaN.apply_isSome_iff {β : Type} [LinearOrderedField β] (E : Helpers β)
    (u : StateUpdater (WithNaN β)) (state : State β) (extra : ExtraType β) :
    (∃ S, u.apply E.withNaN (WithNaN.ofState state) (WithNaN.ofExtra extra) = some S)
      ↔ state.t ≤ u.imu.header_stamp := by
  rw [WithNaN.apply_of_finite E u state extra]
  generalize (state.pos_eci
            + (Duration.toSec (u.imu.header_stamp - state.t) : β) • state.vel
            + ((Duration.toSec (u.imu.header_stamp - state.t) : β)
                * Duration.toSec (u.imu.header_stamp - state.t) / 2)
              • ((if u.rightSideAccelFrame then
                    state.orient * E.quat_from_rotvec
                      ((Duration.toSec (u.imu.header_stamp - state.t) : β)
                        • (extra.first.first - state.gyro_bias))
                  else state.orient)._transformVector extra.first.second
                  + E.gravity state.pos_eci)) = p
  generalize (state.vel + (Duration.toSec (u.imu.header_stamp - state.t) : β)
              • ((if u.rightSideAccelFrame then
                    state.orient * E.quat_from_rotvec
                      ((Duration.toSec (u.imu.header_stamp - state.t) : β)
                        • (extra.first.first - state.gyro_bias))
                  else state.orient)._transformVector extra.first.second
                  + E.gravity state.pos_eci)) = v
  generalize (state.orient * E.quat_from_rotvec
            ((Duration.toSec (u.imu.header_stamp - state.t) : β)
              • (extra.first.first - state.gyro_bias))) = q
  have hsec : (Duration.toSec (u.imu.header_stamp - state.t) : β) < 0
      ↔ u.imu.header_stamp < state.t := by
    have h9 : (0 : β) < ((1000000000 : Int) : β) := by norm_num
    rw [Duration.toSec, div_neg_iff]
    constructor
    · rintro (⟨_, h'⟩ | ⟨h', _⟩)
      · exact absurd h9 (not_lt.mpr h'.le)
      · have : u.imu.header_stamp - state.t < 0 := by exact_mod_cast h'
        omega
    · intro hlt
      right
      refine ⟨?_, h9⟩
      have : u.imu.header_stamp - state.t < 0 := by omega
      exact_mod_cast this
  rw [WithNaN.withNaN_sqrt]
  by_cases hlt : u.imu.header_stamp < state.t
  · rw [if_pos (hsec.mpr hlt)]
    have hnone : ∀ x, State.new E.withNaN u.imu.header_stamp (WithNaN.ofVec p)
        (WithNaN.ofQuat q) (WithNaN.ofVec v) (WithNaN.ofVec state.gyro_bias)
        (WithNaN.fin state.local_g) (WithNaN.fin state.ground_air_pressure
          + WithNaN.nan * x) = none := by
      intro x
      have hf : E.withNaN.isfinite WithNaN.nan = false := rfl
      simp [State.new, hf]
    rw [hnone]
    simp
    omega
  · rw [if_neg (fun h' => hlt (hsec.mp h'))]
    simp only [WithNaN.fin_mul, WithNaN.fin_add, WithNaN.new_of_finite]
    simp
    omega

namespace WithNaN

theorem eq_fin_of_isFin {β : Type} (x : WithNaN β) (h : x.isFin = true) :
    ∃ x0, x = fin x0 := by
  cases x with
  | fin x0 => exact ⟨x0, rfl⟩
  | nan => simp [isFin] at h

section Constructor

variable {β : Type} [LinearOrderedField β]

theorem eq_ofVec_of_assert (E : Helpers β) {n : Nat} (v : Vec n (WithNaN β))
    (h : assert_none_nan E.withNaN v = true) : ∃ v0, v = ofVec v0 := by
  have hall : ∀ i, (v i).isFin = true := by
    simpa [assert_none_nan, Helpers.withNaN] using h
  refine ⟨fun i => (v i).getD 0, ?_⟩
  funext i
  obtain ⟨x0, hx⟩ := eq_fin_of_isFin (v i) (hall i)
  simp [ofVec, hx, getD]

theorem eq_ofQuat_of_assert (E : Helpers β) (q : Quaternion (WithNaN β))
    (h : assert_none_nan E.withNaN q.coeffs = true) : ∃ q0, q = ofQuat q0 := by
  obtain ⟨c, hc⟩ := eq_ofVec_of_assert E q.coeffs h
  refine ⟨⟨c 3, c 0, c 1, c 2⟩, ?_⟩
  have h0 := congrFun hc 0
  have h1 := congrFun hc 1
  have h2 := congrFun hc 2
  have h3 := congrFun hc 3
  simp only [Quaternion.coeffs, ofVec, Matrix.cons_val_zero, Matrix.cons_val_one,
    Matrix.head_cons, Matrix.cons_val_two, Matrix.tail_cons, Matrix.cons_val_three] at h0 h1 h2 h3
  ext
  · exact h3
  · exact h0
  · exact h1
  · exact h2

theorem new_eq_some (E : Helpers β) (t : Int) (p : Vec 3 (WithNaN β))
    (q : Quaternion (WithNaN β)) (v b : Vec 3 (WithNaN β)) (g a : WithNaN β)
    (S : State (WithNaN β)) (h : State.new E.withNaN t p q v b g a = some S) :
    ∃ p0 q0 v0 b0 g0 a0, q = ofQuat q0
      ∧ S = ⟨t, ofVec p0, (ofQuat q0).normalized E.withNaN.sqrt, ofVec v0, ofVec b0,
          fin g0, fin a0⟩ := by
  unfold State.new at h
  split at h
  · rename_i hc
    simp only [Bool.and_eq_true] at hc
    obtain ⟨⟨⟨⟨⟨hp, hq⟩, hv⟩, hb⟩, hg⟩, ha⟩ := hc
    obtain ⟨p0, rfl⟩ := eq_ofVec_of_assert E p hp
    obtain ⟨q0, rfl⟩ := eq_ofQuat_of_assert E q hq
    obtain ⟨v0, rfl⟩ := eq_ofVec_of_assert E v hv
    obtain ⟨b0, rfl⟩ := eq_ofVec_of_assert E b hb
    obtain ⟨g0, rfl⟩ := eq_fin_of_isFin g hg
    obtain ⟨a0, rfl⟩ := eq_fin_of_isFin a ha
    refine ⟨p0, q0, v0, b0, g0, a0, rfl, ?_⟩
    exact (Option.some.inj h).symm
  · exact absurd h (by simp)

end Constructor

theorem normalized_ofQuat {E : Helpers ℝ} (hE : E.Exact) (q : Quaternion ℝ)
    (hq : q.squaredNorm ≠ 0) :
    (ofQuat q).normalized E.withNaN.sqrt = ofQuat (q.normalized E.sqrt) := by
  have hpos := Quaternion.squaredNorm_pos q hq
  have hsq := hE.sqrt_sq _ hpos.le
  have hn : E.sqrt q.squaredNorm ≠ 0 := by
    intro h0
    rw [h0] at hsq
    simp at hsq
    exact hq hsq.symm
  have hs : E.withNaN.sqrt (ofQuat q).squaredNorm = fin (E.sqrt q.squaredNorm) := by
    show E.withNaN.sqrt (fin q.squaredNorm) = _
    rw [withNaN_sqrt, if_neg (not_lt.mpr hpos.le)]
  simp only [Quaternion.normalized, hs]
  simp only [ofQuat, fin_div _ _ hn]

theorem ofQuat_squaredNorm (q : Quaternion ℝ) :
    (ofQuat q).squaredNorm = fin q.squaredNorm := rfl

end WithNaN

theorem WithNaN.new_invariant {E : Helpers ℝ} (hE : E.Exact) (t : Int)
    (p : Vec 3 (WithNaN ℝ)) (q : Quaternion (WithNaN ℝ)) (v b : Vec 3 (WithNaN ℝ))
    (g a : WithNaN ℝ) (S : State (WithNaN ℝ)) (hq : q ≠ ⟨0, 0, 0, 0⟩)
    (h : State.new E.withNaN t p q v b g a = some S) :
    ∃ s : State ℝ, S = WithNaN.ofState s ∧ s.orient.squaredNorm = 1 := by
  obtain ⟨p0, q0, v0, b0, g0, a0, rfl, rfl⟩ := WithNaN.new_eq_some E t p q v b g a S h
  have hq0 : q0 ≠ ⟨0, 0, 0, 0⟩ := by
    intro h0
    apply hq
    rw [h0]
    rfl
  have hsn := Quaternion.squaredNorm_ne_zero q0 hq0
  refine ⟨⟨t, p0, q0.normalized E.sqrt, v0, b0, g0, a0⟩, ?_,
    Quaternion.squaredNorm_normalized hE q0 hsn⟩
  rw [WithNaN.normalized_ofQuat hE q0 hsn]
  rfl

theorem WithNaN.apply_ofState {E : Helpers ℝ} (hE : E.Exact) (u : StateUpdater ℝ)
    (state : State ℝ) (extra : ExtraType ℝ)
    (hdt : (0 : ℝ) ≤ Duration.toSec (u.imu.header_stamp - state.t))
    (hq : (state.orient * E.quat_from_rotvec
        ((Duration.toSec (u.imu.header_stamp - state.t) : ℝ)
          • (extra.first.first - state.gyro_bias))).squaredNorm ≠ 0)
    (S : State ℝ) (h : u.apply E state extra = some S) :
    (WithNaN.ofUpdater u).apply E.withNaN (WithNaN.ofState state) (WithNaN.ofExtra extra)
      = some (WithNaN.ofState S) := by
  have hs : (WithNaN.ofUpdater u).imu.header_stamp = u.imu.header_stamp := rfl
  have hf : (WithNaN.ofUpdater u).rightSideAccelFrame = u.rightSideAccelFrame := rfl
  rw [StateUpdater.apply_exact hE] at h
  rw [← Option.some.inj h, WithNaN.apply_of_finite, hs, hf, WithNaN.withNaN_sqrt,
    if_neg (not_lt.mpr hdt), WithNaN.fin_mul, WithNaN.fin_add, WithNaN.new_of_finite,
    WithNaN.normalized_ofQuat hE _ hq]
  rfl

/-! ## Lemmas on updates, repeated updates and variances -/

theorem Duration.toSec_zero : (Duration.toSec 0 : ℝ) = 0 := by
  simp [Duration.toSec]

theorem Helpers.Exact.sqrt_zero {E : Helpers ℝ} (hE : E.Exact) : E.sqrt 0 = 0 := by
  have h := hE.sqrt_sq 0 le_rfl
  exact mul_self_eq_zero.mp h

theorem WithNaN.toSec_not_neg {β : Type} [LinearOrderedField β] (d : Int) (hd : 0 ≤ d) :
    ¬ (Duration.toSec d : β) < 0 := by
  have h9 : (0 : β) < ((1000000000 : Int) : β) := by norm_num
  have hd' : (0 : β) ≤ ((d : Int) : β) := by exact_mod_cast hd
  exact not_lt.mpr (div_nonneg hd' h9.le)

theorem WithNaN.apply_fields {β : Type} [LinearOrderedField β] (E : Helpers β)
    (u : StateUpdater (WithNaN β)) (state : State β) (extra : ExtraType β)
    (hdt : state.t ≤ u.imu.header_stamp) :
    ∃ S, u.apply E.withNaN (WithNaN.ofState state) (WithNaN.ofExtra extra) = some S
      ∧ S.gyro_bias = WithNaN.ofVec state.gyro_bias
      ∧ S.local_g = WithNaN.fin state.local_g
      ∧ S.ground_air_pressure = WithNaN.fin (state.ground_air_pressure
          + E.sqrt (Duration.toSec (u.imu.header_stamp - state.t)) * extra.second 0) := by
  rw [WithNaN.apply_of_finite, WithNaN.withNaN_sqrt,
    if_neg (WithNaN.toSec_not_neg _ (by omega)), WithNaN.fin_mul, WithNaN.fin_add,
    WithNaN.new_of_finite]
  exact ⟨_, rfl, rfl, rfl, rfl⟩

theorem StateUpdater.apply_exact_unit {E : Helpers ℝ} (hE : E.Exact) (u : StateUpdater ℝ)
    (state : State ℝ) (extra : ExtraType ℝ) (hS : state.orient.squaredNorm = 1) :
    ∃ S, u.apply E state extra = some S ∧ S.t = u.imu.header_stamp
      ∧ S.orient.squaredNorm = 1 := by
  have hu : (state.orient * E.quat_from_rotvec
      ((Duration.toSec (u.imu.header_stamp - state.t) : ℝ)
        • (extra.first.first - state.gyro_bias))).squaredNorm = 1 := by
    rw [Quaternion.squaredNorm_mul, hE.exp_unit, hS, one_mul]
  rw [StateUpdater.apply_exact hE, Quaternion.normalized_of_unit hE _ hu]
  exact ⟨_, rfl, rfl, hu⟩

theorem StateUpdater.apply_exact_same_stamp {E : Helpers ℝ} (hE : E.Exact)
    (u : StateUpdater ℝ) (S : State ℝ) (extra : ExtraType ℝ)
    (ht : S.t = u.imu.header_stamp) (hS : S.orient.squaredNorm = 1) :
    u.apply E S extra = some S := by
  rw [StateUpdater.apply_exact hE, ht, sub_self, Duration.toSec_zero]
  simp only [zero_smul, mul_zero, zero_div, add_zero, hE.exp_zero, Quaternion.mul_Identity,
    hE.sqrt_zero, zero_mul, Quaternion.normalized_of_unit hE _ hS]
  rw [← ht]

theorem apply_repeated_pressure {E : Helpers ℝ} (hE : E.Exact) (u : Nat → StateUpdater ℝ)
    (noise : Nat → ℝ) (s0 : State ℝ) (n : Nat) :
    ∃ S, apply_repeated E u noise s0 n = some S
      ∧ S.t = prior_stamp u s0.t n
      ∧ S.ground_air_pressure = s0.ground_air_pressure
          + ∑ i ∈ Finset.range n,
              E.sqrt (Duration.toSec ((u i).imu.header_stamp - prior_stamp u s0.t i))
                * noise i := by
  induction n with
  | zero => exact ⟨s0, rfl, rfl, by simp⟩
  | succ k ih =>
    obtain ⟨S, hS, ht, hp⟩ := ih
    rw [apply_repeated, hS, Option.some_bind, StateUpdater.apply_exact hE]
    refine ⟨_, rfl, rfl, ?_⟩
    show S.ground_air_pressure
        + E.sqrt (Duration.toSec ((u k).imu.header_stamp - S.t)) * noise k = _
    rw [hp, ht, Finset.sum_range_succ, add_assoc]

theorem Duration.toSec_sub (a b : Int) :
    (Duration.toSec (a - b) : ℝ) = Duration.toSec a - Duration.toSec b := by
  simp only [Duration.toSec]
  push_cast
  ring

theorem prior_stamp_elapsed (u : Nat → StateUpdater ℝ) (t0 : Int) (n : Nat) :
    ∑ i ∈ Finset.range n,
        (Duration.toSec ((u i).imu.header_stamp - prior_stamp u t0 i) : ℝ)
      = Duration.toSec (prior_stamp u t0 n - t0) := by
  induction n with
  | zero => simp [prior_stamp, Duration.toSec]
  | succ k ih =>
    rw [Finset.sum_range_succ, ih, Duration.toSec_sub, Duration.toSec_sub,
      Duration.toSec_sub]
    simp only [prior_stamp]
    ring

open MeasureTheory ProbabilityTheory in
theorem variance_const_add {Ω : Type} [MeasurableSpace Ω] (μ : Measure Ω)
    [IsProbabilityMeasure μ] (a : ℝ) (Y : Ω → ℝ) (hY : Integrable Y μ) :
    variance (fun ω => a + Y ω) μ = variance Y μ := by
  have hint : ∫ ω, (a + Y ω) ∂μ = a + ∫ ω, Y ω ∂μ := by
    rw [integral_add (integrable_const a) hY]
    simp
  have hfun : (fun ω => ((‖(a + Y ω) - ∫ ω, (a + Y ω) ∂μ‖₊ : ENNReal)) ^ 2)
      = fun ω => ((‖Y ω - ∫ ω, Y ω ∂μ‖₊ : ENNReal)) ^ 2 := by
    funext ω
    rw [hint]
    congr 3
    ring
  unfold variance evariance
  rw [hfun]

open MeasureTheory ProbabilityTheory in
theorem variance_weighted_sum {Ω : Type} [MeasurableSpace Ω] (μ : Measure Ω)
    [IsProbabilityMeasure μ] (c : Nat → ℝ) (X : Nat → Ω → ℝ) (n : Nat)
    (hL2 : ∀ k < n, Memℒp (X k) 2 μ)
    (hindep : ∀ i < n, ∀ j < n, i ≠ j → IndepFun (X i) (X j) μ) :
    variance (fun ω => ∑ i ∈ Finset.range n, c i * X i ω) μ
      = ∑ i ∈ Finset.range n, c i ^ 2 * variance (X i) μ := by
  have hfun : (fun ω => ∑ i ∈ Finset.range n, c i * X i ω)
      = ∑ i ∈ Finset.range n, fun ω => c i * X i ω := by
    funext ω
    simp
  rw [hfun, IndepFun.variance_sum]
  · refine Finset.sum_congr rfl (fun i _ => ?_)
    exact variance_mul (c i) (X i) μ
  · intro i hi
    exact (hL2 i (Finset.mem_range.mp hi)).const_mul (c i)
  · intro i hi j hj hij
    have h := hindep i (Finset.mem_range.mp hi) j (Finset.mem_range.mp hj) hij
    exact h.comp (measurable_const_mul (c i)) (measurable_const_mul (c j))

theorem cov_noise_entry (u : StateUpdater ℝ) : u.get_extra_distribution.cov 6 6 = 25 := by
  show ((5 : ℤ) : ℝ) * ((5 : ℤ) : ℝ) = 25
  norm_num

theorem Duration.toSec_nonneg (d : Int) (hd : 0 ≤ d) : (0 : ℝ) ≤ Duration.toSec d := by
  have hd' : (0 : ℝ) ≤ ((d : Int) : ℝ) := by exact_mod_cast hd
  exact div_nonneg hd' (by norm_num)

open MeasureTheory ProbabilityTheory in
theorem indepFun_coordinates {A B : Type} [MeasurableSpace A] [MeasurableSpace B]
    (ν1 : Measure A) (ν2 : Measure B) [IsProbabilityMeasure ν1] [IsProbabilityMeasure ν2]
    (f : A → ℝ) (g : B → ℝ) (hf : Measurable f) (hg : Measurable g) :
    IndepFun (fun ω : A × B => f ω.1) (fun ω : A × B => g ω.2) (ν1.prod ν2) := by
  have hf1 : Measurable (fun ω : A × B => f ω.1) := hf.comp measurable_fst
  have hg2 : Measurable (fun ω : A × B => g ω.2) := hg.comp measurable_snd
  rw [indepFun_iff_map_prod_eq_prod_map_map hf1.aemeasurable hg2.aemeasurable]
  have h1 : (ν1.prod ν2).map (fun ω : A × B => f ω.1) = ν1.map f := by
    have : (fun ω : A × B => f ω.1) = f ∘ Prod.fst := rfl
    rw [this, ← Measure.map_map hf measurable_fst, Measure.map_fst_prod]
    simp
  have h2 : (ν1.prod ν2).map (fun ω : A × B => g ω.2) = ν2.map g := by
    have : (fun ω : A × B => g ω.2) = g ∘ Prod.snd := rfl
    rw [this, ← Measure.map_map hg measurable_snd, Measure.map_snd_prod]
    simp
  rw [h1, h2]
  exact (Measure.map_prod_map ν1 ν2 hf hg).symm

open MeasureTheory ProbabilityTheory in
theorem coin_integrals :
    ∫ b, coin b ∂(PMF.uniformOfFintype Bool).toMeasure = 0
    ∧ ∫ b, coin b ^ 2 ∂(PMF.uniformOfFintype Bool).toMeasure = 25 := by
  constructor
  · rw [PMF.integral_eq_sum]
    simp [coin]
  · rw [PMF.integral_eq_sum]
    simp [coin]
    norm_num

open MeasureTheory ProbabilityTheory in
theorem coin_noise_memLp (k : Nat) :
    Memℒp (coin_noise k) 2
      ((PMF.uniformOfFintype Bool).toMeasure.prod (PMF.uniformOfFintype Bool).toMeasure) := by
  refine Memℒp.of_bound (measurable_of_finite _).aestronglyMeasurable 5
    (Filter.Eventually.of_forall (fun ω => ?_))
  match k with
  | 0 => cases h : ω.1 <;> simp [coin_noise, coin, h]
  | 1 => cases h : ω.2 <;> simp [coin_noise, coin, h]
  | _ + 2 => simp [coin_noise]

open MeasureTheory ProbabilityTheory in
theorem coin_prod_integrals (f : Bool → ℝ) :
    ∫ ω : Bool × Bool, f ω.1
        ∂((PMF.uniformOfFintype Bool).toMeasure.prod (PMF.uniformOfFintype Bool).toMeasure)
      = ∫ b, f b ∂(PMF.uniformOfFintype Bool).toMeasure
    ∧ ∫ ω : Bool × Bool, f ω.2
        ∂((PMF.uniformOfFintype Bool).toMeasure.prod (PMF.uniformOfFintype Bool).toMeasure)
      = ∫ b, f b ∂(PMF.uniformOfFintype Bool).toMeasure := by
  constructor
  · have e : ∫ ω : Bool × Bool, f ω.1
        ∂((PMF.uniformOfFintype Bool).toMeasure.prod (PMF.uniformOfFintype Bool).toMeasure)
        = ((PMF.uniformOfFintype Bool).toMeasure Set.univ).toReal
          • ∫ b, f b ∂(PMF.uniformOfFintype Bool).toMeasure := integral_fun_fst f
    rw [e]
    simp
  · have e : ∫ ω : Bool × Bool, f ω.2
        ∂((PMF.uniformOfFintype Bool).toMeasure.prod (PMF.uniformOfFintype Bool).toMeasure)
        = ((PMF.uniformOfFintype Bool).toMeasure Set.univ).toReal
          • ∫ b, f b ∂(PMF.uniformOfFintype Bool).toMeasure := integral_fun_snd f
    rw [e]
    simp

open MeasureTheory ProbabilityTheory in
theorem coin_noise_variance (k : Nat) (hk : k < 2) :
    variance (coin_noise k)
      ((PMF.uniformOfFintype Bool).toMeasure.prod (PMF.uniformOfFintype Bool).toMeasure)
      = 25 := by
  rw [variance_def' (coin_noise_memLp k)]
  interval_cases k
  · have h1 : ∫ ω : Bool × Bool, coin_noise 0 ω
        ∂((PMF.uniformOfFintype Bool).toMeasure.prod (PMF.uniformOfFintype Bool).toMeasure)
        = 0 := (coin_prod_integrals coin).1.trans coin_integrals.1
    have h2 : ∫ ω : Bool × Bool, (coin_noise 0 ^ 2) ω
        ∂((PMF.uniformOfFintype Bool).toMeasure.prod (PMF.uniformOfFintype Bool).toMeasure)
        = 25 := (coin_prod_integrals (fun b => coin b ^ 2)).1.trans coin_integrals.2
    rw [h1, h2]
    norm_num
  · have h1 : ∫ ω : Bool × Bool, coin_noise 1 ω
        ∂((PMF.uniformOfFintype Bool).toMeasure.prod (PMF.uniformOfFintype Bool).toMeasure)
        = 0 := (coin_prod_integrals coin).2.trans coin_integrals.1
    have h2 : ∫ ω : Bool × Bool, (coin_noise 1 ^ 2) ω
        ∂((PMF.uniformOfFintype Bool).toMeasure.prod (PMF.uniformOfFintype Bool).toMeasure)
        = 25 := (coin_prod_integrals (fun b => coin b ^ 2)).2.trans coin_integrals.2
    rw [h1, h2]
    norm_num

open MeasureTheory ProbabilityTheory in
theorem coin_noise_indep (i : Nat) (hi : i < 2) (j : Nat) (hj : j < 2) (hij : i ≠ j) :
    IndepFun (coin_noise i) (coin_noise j)
      ((PMF.uniformOfFintype Bool).toMeasure.prod (PMF.uniformOfFintype Bool).toMeasure) := by
  have h := indepFun_coordinates (PMF.uniformOfFintype Bool).toMeasure
    (PMF.uniformOfFintype Bool).toMeasure coin coin (measurable_of_finite _)
    (measurable_of_finite _)
  interval_cases i <;> interval_cases j
  · exact absurd rfl hij
  · exact h
  · exact h.symm
  · exact absurd rfl hij

theorem walk_updater_stamps (k : Nat) :
    prior_stamp walk_updater sample_state.t k < (walk_updater k).imu.header_stamp := by
  cases k with
  | zero => simp [prior_stamp, walk_updater, sample_state]
  | succ m =>
    simp only [prior_stamp, walk_updater, Int.ofNat_eq_coe]
    push_cast
    omega

theorem quat_log_odd (q : Quaternion ℝ) (hq : q.squaredNorm = 1) (hw : 0 < q.w) :
    quat_log Real.sqrt Real.arccos q.conjugate = -quat_log Real.sqrt Real.arccos q := by
  have hv : q.conjugate.vec.squaredNorm = q.vec.squaredNorm := by
    simp only [Quaternion.conjugate, Quaternion.vec, Vec.squaredNorm, Matrix.cons_val_zero,
      Matrix.cons_val_one, Matrix.head_cons, Matrix.cons_val_two, Matrix.tail_cons]
    ring
  unfold quat_log
  simp only [hv]
  split_ifs with h
  · have hm : q.vec.squaredNorm = 0 :=
      (Real.sqrt_eq_zero (Vec.squaredNorm_nonneg q.vec)).mp h
    have hvec : q.vec.squaredNorm = 1 - q.w ^ 2 := by
      simp only [Quaternion.squaredNorm] at hq
      simp only [Quaternion.vec, Vec.squaredNorm, Matrix.cons_val_zero, Matrix.cons_val_one,
        Matrix.head_cons, Matrix.cons_val_two, Matrix.tail_cons]
      linear_combination hq
    have hw1 : q.w = 1 := by nlinarith
    funext i
    fin_cases i <;> simp [Quaternion.conjugate, hw1]
  · funext i
    fin_cases i <;> simp [Quaternion.conjugate]

/-! ## Doubles with their range: arithmetic -/

namespace Double

section Lemmas

variable {β : Type} [LinearOrderedField β]

theorem pow_lt_ovf {n : Nat} (hn : n ≤ 1023) : (2 : β) ^ n < ovf := by
  have h1 : (2 : β) ^ n ≤ 2 ^ 1023 := pow_le_pow_right₀ (by norm_num) hn
  have h2 : (2 : β) ^ 1023 < ovf := by
    unfold ovf
    norm_num
  exact lt_of_le_of_lt h1 h2

theorem round_exact {r : β} (h1 : |r| < ovf) (h2 : r = 0 ∨ udf < |r|) :
    round r = fin r := by
  unfold round
  rw [if_neg (not_le.mpr h1)]
  rcases h2 with h0 | h2
  · subst h0
    split_ifs <;> rfl
  · rw [if_neg (not_le.mpr h2)]

theorem round_bnd {r : β} {n : Nat} (hn : n ≤ 1023) (h : |r| ≤ 2 ^ n) :
    Bnd n (round r) := by
  unfold round
  rw [if_neg (not_le.mpr (lt_of_le_of_lt h (pow_lt_ovf hn)))]
  split_ifs
  · exact ⟨0, rfl, by rw [abs_zero]; positivity⟩
  · exact ⟨r, rfl, h⟩

theorem add_fin (a b : β) : (fin a + fin b : Double β) = round (a + b) := rfl

theorem sub_fin (a b : β) : (fin a - fin b : Double β) = round (a - b) := by
  show round (a + -b) = _
  rw [sub_eq_add_neg]

theorem mul_fin (a b : β) : (fin a * fin b : Double β) = round (a * b) := rfl

theorem div_fin (a b : β) (hb : b ≠ 0) : (fin a / fin b : Double β) = round (a / b) := by
  show (if b = 0 then _ else round (a / b)) = _
  rw [if_neg hb]

theorem mul_nan_left (a : Double β) : (nan * a : Double β) = nan := rfl

theorem add_nan_right (a : Double β) : (a + nan : Double β) = nan := by
  cases a <;> rfl

theorem Bnd.widen {m n : Nat} {x : Double β} (h : m ≤ n) (hx : Bnd m x) : Bnd n x := by
  obtain ⟨r, rfl, hr⟩ := hx
  exact ⟨r, rfl, hr.trans (pow_le_pow_right₀ (by norm_num) h)⟩

theorem Bnd.finite {n : Nat} {x : Double β} (hx : Bnd n x) : x.isFin = true := by
  obtain ⟨r, rfl, _⟩ := hx
  rfl

theorem Bnd.sum {k : Nat} {x y : Double β} (hx : Bnd k x) (hy : Bnd k y)
    (h : k + 1 ≤ 1023) : Bnd (k + 1) (x + y) := by
  obtain ⟨a, rfl, ha⟩ := hx
  obtain ⟨b, rfl, hb⟩ := hy
  rw [add_fin]
  refine round_bnd h ?_
  calc |a + b| ≤ |a| + |b| := abs_add a b
    _ ≤ 2 ^ k + 2 ^ k := add_le_add ha hb
    _ = 2 ^ (k + 1) := by ring

theorem Bnd.diff {k : Nat} {x y : Double β} (hx : Bnd k x) (hy : Bnd k y)
    (h : k + 1 ≤ 1023) : Bnd (k + 1) (x - y) := by
  obtain ⟨a, rfl, ha⟩ := hx
  obtain ⟨b, rfl, hb⟩ := hy
  rw [sub_fin]
  refine round_bnd h ?_
  calc |a - b| ≤ |a| + |b| := abs_sub a b
    _ ≤ 2 ^ k + 2 ^ k := add_le_add ha hb
    _ = 2 ^ (k + 1) := by ring

theorem Bnd.prod {m n : Nat} {x y : Double β} (hx : Bnd m x) (hy : Bnd n y)
    (h : m + n ≤ 1023) : Bnd (m + n) (x * y) := by
  obtain ⟨a, rfl, ha⟩ := hx
  obtain ⟨b, rfl, hb⟩ := hy
  rw [mul_fin]
  refine round_bnd h ?_
  rw [abs_mul, pow_add]
  exact mul_le_mul ha hb (abs_nonneg b) (by positivity)

theorem Bnd.half {n : Nat} {x : Double β} (hx : Bnd n x) (h : n ≤ 1023) :
    Bnd n (x / 2) := by
  obtain ⟨a, rfl, ha⟩ := hx
  have h2 : (2 : Double β) = fin 2 := rfl
  rw [h2, div_fin _ _ two_ne_zero]
  refine round_bnd h ?_
  rw [abs_div, abs_two]
  exact (div_le_self (abs_nonneg a) (by norm_num)).trans ha

theorem VBnd.vwiden {d m n : Nat} {v : Vec d (Double β)} (h : m ≤ n) (hv : VBnd m v) :
    VBnd n v := fun i => (hv i).widen h

theorem VBnd.vfin {d n : Nat} {v : Vec d (Double β)} (hv : VBnd n v) : VFin v :=
  fun i => (hv i).finite

theorem VBnd.vsum {d k : Nat} {v w : Vec d (Double β)} (hv : VBnd k v) (hw : VBnd k w)
    (h : k + 1 ≤ 1023) : VBnd (k + 1) (v + w) := fun i => (hv i).sum (hw i) h

theorem VBnd.vdiff {d k : Nat} {v w : Vec d (Double β)} (hv : VBnd k v) (hw : VBnd k w)
    (h : k + 1 ≤ 1023) : VBnd (k + 1) (v - w) := fun i => (hv i).diff (hw i) h

theorem VBnd.vscale {d m n : Nat} {c : Double β} {v : Vec d (Double β)} (hc : Bnd m c)
    (hv : VBnd n v) (h : m + n ≤ 1023) : VBnd (m + n) (c • v) :=
  fun i => hc.prod (hv i) h

theorem VBnd.vcross {m n : Nat} {a b : Vec 3 (Double β)} (ha : VBnd m a) (hb : VBnd n b)
    (h : m + n + 1 ≤ 1023) : VBnd (m + n + 1) (a.cross b) := by
  have hm : m + n ≤ 1023 := by omega
  intro i
  fin_cases i
  · exact ((ha 1).prod (hb 2) hm).diff ((ha 2).prod (hb 1) hm) h
  · exact ((ha 2).prod (hb 0) hm).diff ((ha 0).prod (hb 2) hm) h
  · exact ((ha 0).prod (hb 1) hm).diff ((ha 1).prod (hb 0) hm) h

theorem QBnd.vpart {n : Nat} {q : Quaternion (Double β)} (hq : QBnd n q) : VBnd n q.vec := by
  intro i
  fin_cases i
  · exact hq.2.1
  · exact hq.2.2.1
  · exact hq.2.2.2

theorem QBnd.qprod {m n : Nat} {a b : Quaternion (Double β)} (ha : QBnd m a)
    (hb : QBnd n b) (h : m + n + 3 ≤ 1023) : QBnd (m + n + 3) (a * b) := by
  obtain ⟨aw, ax, ay, az⟩ := ha
  obtain ⟨bw, bx, b_y, bz⟩ := hb
  have hm : m + n ≤ 1023 := by omega
  have h1 : m + n + 1 ≤ 1023 := by omega
  have h2 : m + n + 1 + 1 ≤ 1023 := by omega
  have h3 : m + n + 1 + 1 + 1 ≤ 1023 := by omega
  have up1 : ∀ {x : Double β}, Bnd (m + n) x → Bnd (m + n + 1) x :=
    fun hx => hx.widen (by omega)
  have up2 : ∀ {x : Double β}, Bnd (m + n) x → Bnd (m + n + 1 + 1) x :=
    fun hx => hx.widen (by omega)
  refine ⟨?_, ?_, ?_, ?_⟩
  · exact ((((aw.prod bw hm).diff (ax.prod bx hm) h1).diff (up1 (ay.prod b_y hm)) h2).diff
      (up2 (az.prod bz hm)) h3)
  · exact ((((aw.prod bx hm).sum (ax.prod bw hm) h1).sum (up1 (ay.prod bz hm)) h2).diff
      (up2 (az.prod b_y hm)) h3)
  · exact ((((aw.prod b_y hm).sum (ay.prod bw hm) h1).sum (up1 (az.prod bx hm)) h2).diff
      (up2 (ax.prod bz hm)) h3)
  · exact ((((aw.prod bz hm).sum (az.prod bw hm) h1).sum (up1 (ax.prod b_y hm)) h2).diff
      (up2 (ay.prod bx hm)) h3)

theorem transformVector_bnd {m n : Nat} {q : Quaternion (Double β)}
    {v : Vec 3 (Double β)} (hq : QBnd m q) (hv : VBnd n v) (h : 2 * m + n + 4 ≤ 1023) :
    VBnd (2 * m + n + 4) (q._transformVector v) := by
  have huv0 : VBnd (m + n + 1) (q.vec.cross v) := hq.vpart.vcross hv (by omega)
  have huv : VBnd (m + n + 1 + 1) (q.vec.cross v + q.vec.cross v) :=
    huv0.vsum huv0 (by omega)
  have hw : VBnd (m + (m + n + 1 + 1)) (q.w • (q.vec.cross v + q.vec.cross v)) :=
    VBnd.vscale hq.1 huv (by omega)
  have hc : VBnd (m + (m + n + 1 + 1) + 1)
      (q.vec.cross (q.vec.cross v + q.vec.cross v)) := hq.vpart.vcross huv (by omega)
  have h1 : VBnd (2 * m + n + 2 + 1) (v + q.w • (q.vec.cross v + q.vec.cross v)) :=
    (hv.vwiden (by omega)).vsum (hw.vwiden (by omega)) (by omega)
  exact (h1.vwiden (by omega)).vsum (hc.vwiden (by omega)) h

end Lemmas

theorem intCast_eq (n : Int) : ((n : Int) : Double ℝ) = round (n : ℝ) := rfl

theorem udf_lt_one : (udf : ℝ) < 1 / 1000000000 := by
  unfold udf
  apply one_div_lt_one_div_of_lt (by norm_num)
  norm_num

theorem one_le_abs_cast (n : Int) (hn : n ≠ 0) : (1 : ℝ) ≤ |(n : ℝ)| := by
  have h1 : (1 : Int) ≤ |n| := Int.one_le_abs hn
  have h2 : ((1 : Int) : ℝ) ≤ ((|n| : Int) : ℝ) := Int.cast_le.mpr h1
  rwa [Int.cast_one, Int.cast_abs] at h2

theorem intCast_fin (n : Int) (hn : |n| ≤ 2 ^ 62) : ((n : Int) : Double ℝ) = fin (n : ℝ) := by
  rw [intCast_eq]
  have hb : |(n : ℝ)| ≤ 2 ^ 62 := by
    have h2 : ((|n| : Int) : ℝ) ≤ (((2 : Int) ^ 62 : Int) : ℝ) := Int.cast_le.mpr hn
    rw [Int.cast_abs] at h2
    exact h2.trans (by norm_num)
  apply round_exact (lt_of_le_of_lt hb (pow_lt_ovf (by norm_num)))
  by_cases h0 : n = 0
  · left
    rw [h0, Int.cast_zero]
  · right
    have h1 := one_le_abs_cast n h0
    have h3 : (udf : ℝ) < 1 := udf_lt_one.trans (by norm_num)
    linarith

theorem toSec_exact (d : Int) (hd : |d| ≤ 2 ^ 62) :
    (Duration.toSec d : Double ℝ) = fin (Duration.toSec d) := by
  have h9 : ((1000000000 : Int) : ℝ) ≠ 0 := by norm_num
  have hb : |(d : ℝ)| ≤ 2 ^ 62 := by
    have h2 : ((|d| : Int) : ℝ) ≤ (((2 : Int) ^ 62 : Int) : ℝ) := Int.cast_le.mpr hd
    rw [Int.cast_abs] at h2
    exact h2.trans (by norm_num)
  unfold Duration.toSec
  rw [intCast_fin d hd, intCast_fin 1000000000 (by norm_num), div_fin _ _ h9]
  have habs : |(d : ℝ) / ((1000000000 : Int) : ℝ)| = |(d : ℝ)| / 1000000000 := by
    rw [abs_div]
    norm_num
  apply round_exact
  · rw [habs]
    have h1 : |(d : ℝ)| / 1000000000 ≤ 2 ^ 62 :=
      (div_le_self (abs_nonneg _) (by norm_num)).trans hb
    exact lt_of_le_of_lt h1 (pow_lt_ovf (by norm_num))
  · by_cases h0 : d = 0
    · left
      rw [h0, Int.cast_zero, zero_div]
    · right
      rw [habs]
      have h1 := one_le_abs_cast d h0
      have h2 : (1 : ℝ) / 1000000000 ≤ |(d : ℝ)| / 1000000000 :=
        div_le_div_of_nonneg_right h1 (by norm_num)
      exact lt_of_lt_of_le udf_lt_one h2

theorem toSec_abs_le (d : Int) (hd : |d| ≤ 2 ^ 62) :
    |(Duration.toSec d : ℝ)| ≤ 2 ^ 100 := by
  have hb : |(d : ℝ)| ≤ 2 ^ 62 := by
    have h2 : ((|d| : Int) : ℝ) ≤ (((2 : Int) ^ 62 : Int) : ℝ) := Int.cast_le.mpr hd
    rw [Int.cast_abs] at h2
    exact h2.trans (by norm_num)
  unfold Duration.toSec
  rw [abs_div]
  have h9 : |((1000000000 : Int) : ℝ)| = 1000000000 := by norm_num
  rw [h9]
  exact ((div_le_self (abs_nonneg _) (by norm_num)).trans hb).trans (by norm_num)

theorem sqrt_fin_neg (E : Helpers ℝ) (x : ℝ) (hx : x < 0) :
    E.double.sqrt (fin x) = nan := by
  show (if x < 0 then nan else round (E.sqrt x)) = nan
  rw [if_pos hx]

theorem sqrt_round_neg (E : Helpers ℝ) (r : ℝ) (hr : r < 0) (hu : udf < |r|) :
    E.double.sqrt (round r) = nan := by
  unfold round
  split_ifs with h1 h2
  · simp only [hr, decide_True]
    rfl
  · exact absurd h2 (not_le.mpr hu)
  · exact sqrt_fin_neg E r hr

theorem sqrt_toSec_neg (E : Helpers ℝ) (d : Int) (hd : d < 0) :
    E.double.sqrt (Duration.toSec d) = nan := by
  have hd0 : d ≠ 0 := by omega
  have hneg : (d : ℝ) < 0 := by exact_mod_cast hd
  have h1 := one_le_abs_cast d hd0
  have h9 : ((1000000000 : Int) : ℝ) ≠ 0 := by norm_num
  have hu1 : (udf : ℝ) < 1 := udf_lt_one.trans (by norm_num)
  unfold Duration.toSec
  rw [intCast_eq d, intCast_fin 1000000000 (by norm_num)]
  unfold round
  split_ifs with ha hb
  · simp only [hneg, decide_True]
    have h0 : ¬ ((1000000000 : Int) : ℝ) < 0 := by norm_num
    show E.double.sqrt (inf (xor true (decide (((1000000000 : Int) : ℝ) < 0)))) = nan
    simp only [h0, decide_False, Bool.xor_false]
    rfl
  · exact absurd hb (not_le.mpr (by linarith))
  · rw [div_fin _ _ h9]
    apply sqrt_round_neg
    · exact div_neg_of_neg_of_pos hneg (by norm_num)
    · have habs : |(d : ℝ) / ((1000000000 : Int) : ℝ)| = |(d : ℝ)| / 1000000000 := by
        rw [abs_div]
        norm_num
      rw [habs]
      have h2 : (1 : ℝ) / 1000000000 ≤ |(d : ℝ)| / 1000000000 :=
        div_le_div_of_nonneg_right h1 (by norm_num)
      exact lt_of_lt_of_le udf_lt_one h2

theorem new_pressure_nan (E : Helpers ℝ) (t : Int) (p : Vec 3 (Double ℝ))
    (q : Quaternion (Double ℝ)) (v b : Vec 3 (Double ℝ)) (g : Double ℝ) :
    State.new E.double t p q v b g nan = none := by
  have hf : E.double.isfinite nan = false := rfl
  simp [State.new, hf]

theorem new_pressure_inf (E : Helpers ℝ) (t : Int) (p : Vec 3 (Double ℝ))
    (q : Quaternion (Double ℝ)) (v b : Vec 3 (Double ℝ)) (g : Double ℝ) (s : Bool) :
    State.new E.double t p q v b g (inf s) = none := by
  have hf : E.double.isfinite (inf s) = false := rfl
  simp [State.new, hf]

theorem apply_neg (E : Helpers ℝ) (u : StateUpdater (Double ℝ)) (state : State (Double ℝ))
    (extra : ExtraType (Double ℝ)) (h : u.imu.header_stamp < state.t) :
    u.apply E.double state extra = none := by
  have hs := sqrt_toSec_neg E (u.imu.header_stamp - state.t) (by omega)
  simp only [StateUpdater.apply, hs, mul_nan_left, add_nan_right, new_pressure_nan]

theorem isNaN_of_isFin {x : Double ℝ} (h : x.isFin = true) : x.isNaN = false := by
  cases x <;> simp_all [isFin, isNaN]

theorem assert_none_nan_of_vfin (E : Helpers ℝ) {n : Nat} (v : Vec n (Double ℝ))
    (hv : VFin v) : assert_none_nan E.double v = true := by
  simp only [assert_none_nan, List.all_eq_true, Bool.not_eq_true']
  intro i _
  exact isNaN_of_isFin (hv i)

theorem ofVec_vfin {n : Nat} (v : Vec n ℝ) : VFin (ofVec v) := fun _ => rfl

theorem ofVec_vbnd {n k : Nat} (v : Vec n ℝ) (h : ∀ i, |v i| ≤ 2 ^ k) : VBnd k (ofVec v) :=
  fun i => ⟨v i, rfl, h i⟩

theorem QBnd.coeffs_vfin {n : Nat} {q : Quaternion (Double ℝ)} (hq : QBnd n q) :
    VFin q.coeffs := by
  intro i
  fin_cases i
  · exact hq.2.1.finite
  · exact hq.2.2.1.finite
  · exact hq.2.2.2.finite
  · exact hq.1.finite

theorem new_isSome (E : Helpers ℝ) (t : Int) {p : Vec 3 (Double ℝ)}
    {q : Quaternion (Double ℝ)} {v b : Vec 3 (Double ℝ)} {g a : Double ℝ}
    (hp : VFin p) (hq : VFin q.coeffs) (hv : VFin v) (hb : VFin b)
    (hg : g.isFin = true) (ha : a.isFin = true) :
    State.new E.double t p q v b g a
      = some ⟨t, p, q.normalized E.double.sqrt, v, b, g, a⟩ := by
  have hg1 : E.double.isfinite g = true := hg
  have ha1 : E.double.isfinite a = true := ha
  simp [State.new, assert_none_nan_of_vfin, hp, hq, hv, hb, hg1, ha1]

theorem sqrt_bnd {E : Helpers ℝ} (hE : E.Exact) {x : ℝ} {n : Nat} (hx0 : 0 ≤ x)
    (hx : x ≤ 2 ^ n) (hn : n ≤ 1023) : Bnd n (E.double.sqrt (fin x)) := by
  show Bnd n (if x < 0 then nan else round (E.sqrt x))
  rw [if_neg (not_lt.mpr hx0)]
  apply round_bnd hn
  have hs0 := hE.sqrt_nonneg x hx0
  have hsq := hE.sqrt_sq x hx0
  rw [abs_of_nonneg hs0]
  by_contra hlt
  push_neg at hlt
  have h1 : (1 : ℝ) ≤ 2 ^ n := one_le_pow₀ (by norm_num)
  have h2 : (2 : ℝ) ^ n * 2 ^ n < E.sqrt x * E.sqrt x :=
    mul_lt_mul'' hlt hlt (by positivity) (by positivity)
  have h3 : (2 : ℝ) ^ n ≤ 2 ^ n * 2 ^ n := le_mul_of_one_le_right (by positivity) h1
  linarith

theorem abs_le_one_of_unit (q : Quaternion ℝ) (hq : q.squaredNorm = 1) :
    |q.w| ≤ 1 ∧ |q.x| ≤ 1 ∧ |q.y| ≤ 1 ∧ |q.z| ≤ 1 := by
  simp only [Quaternion.squaredNorm] at hq
  refine ⟨?_, ?_, ?_, ?_⟩ <;> rw [abs_le_one_iff_mul_self_le_one] <;>
    nlinarith [mul_self_nonneg q.w, mul_self_nonneg q.x, mul_self_nonneg q.y,
      mul_self_nonneg q.z]

theorem all_isFin_of_vfin {v : Vec 3 (Double ℝ)} (hv : VFin v) :
    (List.finRange 3).all (fun i => (v i).isFin) = true := by
  simp only [List.all_eq_true]
  intro i _
  exact hv i

theorem quat_from_rotvec_bnd {E : Helpers ℝ} (hE : E.Exact) {v : Vec 3 (Double ℝ)}
    (hv : VFin v) : QBnd 0 (E.double.quat_from_rotvec v) := by
  have h := abs_le_one_of_unit _ (hE.exp_unit (fun i => (v i).getD 0))
  have hq : E.double.quat_from_rotvec v
      = ⟨round (E.quat_from_rotvec (fun i => (v i).getD 0)).w,
          round (E.quat_from_rotvec (fun i => (v i).getD 0)).x,
          round (E.quat_from_rotvec (fun i => (v i).getD 0)).y,
          round (E.quat_from_rotvec (fun i => (v i).getD 0)).z⟩ := by
    show (if (List.finRange 3).all (fun i => (v i).isFin) = true then _ else _) = _
    rw [if_pos (all_isFin_of_vfin hv)]
  rw [hq]
  have h1 : ∀ c : ℝ, |c| ≤ 1 → Bnd 0 (round c) := fun c hc =>
    round_bnd (by norm_num) (by simpa using hc)
  exact ⟨h1 _ h.1, h1 _ h.2.1, h1 _ h.2.2.1, h1 _ h.2.2.2⟩

theorem gravity_bnd (E : Helpers ℝ) (p : Vec 3 ℝ) {n : Nat} (hn : n ≤ 1023)
    (h : ∀ i, |E.gravity p i| ≤ 2 ^ n) : VBnd n (E.double.gravity (ofVec p)) := by
  have hg : E.double.gravity (ofVec p) = fun i => round (E.gravity p i) := by
    simp only [Helpers.double, all_isFin_of_vfin (ofVec_vfin p), if_true]
    rfl
  rw [hg]
  exact fun i => round_bnd hn (h i)

theorem apply_moderate {E : Helpers ℝ} (hE : E.Exact) (u : StateUpdater (Double ℝ))
    (state : State ℝ) (extra : ExtraType ℝ)
    (hM : StateUpdater.Moderate E u.imu.header_stamp state extra)
    (hdt : state.t ≤ u.imu.header_stamp) :
    ∃ S, u.apply E.double (ofState state) (ofExtra extra) = some S
      ∧ VFin S.pos_eci ∧ VFin S.vel ∧ VFin S.gyro_bias := by
  obtain ⟨hd, hpos, hq, hvel, hbias, hpr, hang, hacc, hnoise, hgrav⟩ := hM
  have hsec0 : (0 : ℝ) ≤ Duration.toSec (u.imu.header_stamp - state.t) := by
    unfold Duration.toSec
    apply div_nonneg _ (by norm_num)
    have : (0 : Int) ≤ u.imu.header_stamp - state.t := by omega
    exact_mod_cast this
  have hsec := toSec_abs_le _ hd
  have bdt : Bnd 100 (Duration.toSec (u.imu.header_stamp - state.t) : Double ℝ) := by
    rw [toSec_exact _ hd]
    exact ⟨_, rfl, hsec⟩
  have bpos : VBnd 100 (ofVec state.pos_eci) := ofVec_vbnd _ hpos
  have bvel : VBnd 100 (ofVec state.vel) := ofVec_vbnd _ hvel
  have bbias : VBnd 100 (ofVec state.gyro_bias) := ofVec_vbnd _ hbias
  have bang : VBnd 100 (ofVec extra.first.first) := ofVec_vbnd _ hang
  have bacc : VBnd 100 (ofVec extra.first.second) := ofVec_vbnd _ hacc
  have bq : QBnd 100 (ofQuat state.orient) :=
    ⟨⟨_, rfl, hq _ (by simp)⟩, ⟨_, rfl, hq _ (by simp)⟩, ⟨_, rfl, hq _ (by simp)⟩,
      ⟨_, rfl, hq _ (by simp)⟩⟩
  have brot := VBnd.vscale bdt (bang.vdiff bbias (by norm_num)) (by norm_num)
  have binc := quat_from_rotvec_bnd hE brot.vfin
  have bnew := QBnd.qprod bq binc (by norm_num)
  have bframe : QBnd 103 (if u.rightSideAccelFrame then
      ofQuat state.orient * E.double.quat_from_rotvec
        ((Duration.toSec (u.imu.header_stamp - state.t) : Double ℝ)
          • (ofVec extra.first.first - ofVec state.gyro_bias))
      else ofQuat state.orient) := by
    split_ifs
    · exact bnew
    · exact ⟨bq.1.widen (by norm_num), bq.2.1.widen (by norm_num),
        bq.2.2.1.widen (by norm_num), bq.2.2.2.widen (by norm_num)⟩
  have bforce := transformVector_bnd bframe bacc (by norm_num)
  have bgrav := gravity_bnd E state.pos_eci (by norm_num) hgrav
  have baccel := bforce.vsum (bgrav.vwiden (by norm_num)) (by norm_num)
  have bhalf := (bdt.prod bdt (by norm_num)).half (by norm_num)
  have bp := ((bpos.vwiden (by norm_num)).vsum (VBnd.vscale bdt bvel (by norm_num))
    (by norm_num : 200 + 1 ≤ 1023)).vwiden (by norm_num : 200 + 1 ≤ 100 + 100 + 311)
  have bp2 := bp.vsum (VBnd.vscale bhalf baccel (by norm_num)) (by norm_num)
  have bv := (bvel.vwiden (by norm_num : 100 ≤ 100 + 311)).vsum
    (VBnd.vscale bdt baccel (by norm_num)) (by norm_num)
  have bsqrt : Bnd 100 (E.double.sqrt
      (Duration.toSec (u.imu.header_stamp - state.t) : Double ℝ)) := by
    rw [toSec_exact _ hd]
    exact sqrt_bnd hE hsec0 ((le_abs_self _).trans hsec) (by norm_num)
  have bnoise : Bnd 100 (ofVec extra.second 0) := ⟨_, rfl, hnoise⟩
  have bpress0 : Bnd 200 (fin state.ground_air_pressure : Double ℝ) :=
    ⟨_, rfl, hpr.trans (by norm_num)⟩
  have bpress := bpress0.sum (bsqrt.prod bnoise (by norm_num)) (by norm_num)
  exact ⟨_, new_isSome E _ bp2.vfin bnew.coeffs_vfin bv.vfin bbias.vfin rfl bpress.finite,
    bp2.vfin, bv.vfin, bbias.vfin⟩

theorem apply_isSome {E : Helpers ℝ} (hE : E.Exact) (u : StateUpdater (Double ℝ))
    (state : State ℝ) (extra : ExtraType ℝ)
    (hM : StateUpdater.Moderate E u.imu.header_stamp state extra)
    (hdt : state.t ≤ u.imu.header_stamp) :
    ∃ S, u.apply E.double (ofState state) (ofExtra extra) = some S := by
  obtain ⟨S, hS, _⟩ := apply_moderate hE u state extra hM hdt
  exact ⟨S, hS⟩

theorem ovf_pos : (0 : ℝ) < ovf := lt_trans (by positivity) (pow_lt_ovf (Nat.zero_le 1023))

theorem round_zero : round (0 : ℝ) = fin 0 :=
  round_exact (by rw [abs_zero]; exact ovf_pos) (Or.inl rfl)

theorem round_mid {r : ℝ} {k : Nat} (hk : k ≤ 1023)
    (h : r = 0 ∨ (1 / 2 ^ 1010 ≤ r ∧ r ≤ 2 ^ k)) : round r = fin r := by
  rcases h with h0 | ⟨h1, h2⟩
  · rw [h0]
    exact round_zero
  · have hpos : 0 < r := lt_of_lt_of_le (by positivity) h1
    apply round_exact
    · rw [abs_of_pos hpos]
      exact lt_of_le_of_lt h2 (pow_lt_ovf hk)
    · right
      rw [abs_of_pos hpos]
      refine lt_of_lt_of_le ?_ h1
      unfold udf
      exact one_div_lt_one_div_of_lt (by positivity)
        (pow_lt_pow_right₀ (by norm_num) (by norm_num))

theorem sq_mid (c : ℝ) (h : c = 0 ∨ (1 / 2 ^ 500 ≤ |c| ∧ |c| ≤ 2 ^ 500)) :
    c * c = 0 ∨ (1 / 2 ^ 1010 ≤ c * c ∧ c * c ≤ 2 ^ 1000) := by
  rcases h with h0 | ⟨h1, h2⟩
  · left
    rw [h0, mul_zero]
  · right
    rw [← abs_mul_abs_self c]
    constructor
    · have h3 : (1 : ℝ) / 2 ^ 500 * (1 / 2 ^ 500) ≤ |c| * |c| :=
        mul_le_mul h1 h1 (by positivity) (abs_nonneg c)
      refine le_trans ?_ h3
      rw [div_mul_div_comm, one_mul, ← pow_add]
      exact one_div_le_one_div_of_le (by positivity)
        (pow_le_pow_right₀ (by norm_num) (by norm_num))
    · have h3 : |c| * |c| ≤ 2 ^ 500 * 2 ^ 500 :=
        mul_le_mul h2 h2 (abs_nonneg c) (by positivity)
      refine le_trans h3 ?_
      rw [← pow_add]

theorem add_mid {a b : ℝ} {k : Nat} (ha : a = 0 ∨ (1 / 2 ^ 1010 ≤ a ∧ a ≤ 2 ^ k))
    (hb : b = 0 ∨ (1 / 2 ^ 1010 ≤ b ∧ b ≤ 2 ^ 1000)) (hk : 1000 ≤ k) :
    a + b = 0 ∨ (1 / 2 ^ 1010 ≤ a + b ∧ a + b ≤ 2 ^ (k + 1)) := by
  have hpow : (2 : ℝ) ^ 1000 ≤ 2 ^ k := pow_le_pow_right₀ (by norm_num) hk
  have h2k : (2 : ℝ) ^ (k + 1) = 2 ^ k + 2 ^ k := by ring
  have hpos : (0 : ℝ) < 1 / 2 ^ 1010 := by positivity
  have hk0 : (0 : ℝ) < 2 ^ k := by positivity
  rcases ha with ha0 | ⟨ha1, ha2⟩ <;> rcases hb with hb0 | ⟨hb1, hb2⟩
  · left
    rw [ha0, hb0, add_zero]
  · right
    rw [ha0, zero_add, h2k]
    exact ⟨hb1, by linarith⟩
  · right
    rw [hb0, add_zero, h2k]
    exact ⟨ha1, by linarith⟩
  · right
    rw [h2k]
    exact ⟨by linarith, by linarith⟩

theorem squaredNorm_ofQuat (q : Quaternion ℝ) (h : q.InRange) :
    (ofQuat q).squaredNorm = fin q.squaredNorm
      ∧ (q.squaredNorm = 0
        ∨ (1 / 2 ^ 1010 ≤ q.squaredNorm ∧ q.squaredNorm ≤ 2 ^ 1003)) := by
  obtain ⟨_, hc⟩ := h
  have hw := sq_mid q.w (hc _ (by simp))
  have hx := sq_mid q.x (hc _ (by simp))
  have hy := sq_mid q.y (hc _ (by simp))
  have hz := sq_mid q.z (hc _ (by simp))
  have h1 := add_mid hx hy (le_refl 1000)
  have h2 := add_mid h1 hz (by norm_num)
  have h3 := add_mid h2 hw (by norm_num)
  refine ⟨?_, h3⟩
  show fin q.x * fin q.x + fin q.y * fin q.y + fin q.z * fin q.z + fin q.w * fin q.w
    = fin (q.x * q.x + q.y * q.y + q.z * q.z + q.w * q.w)
  rw [mul_fin, mul_fin, mul_fin, mul_fin, round_mid (by norm_num) hx,
    round_mid (by norm_num) hy, round_mid (by norm_num) hz, round_mid (by norm_num) hw,
    add_fin, round_mid (by norm_num) h1, add_fin, round_mid (by norm_num) h2, add_fin,
    round_mid (by norm_num) h3]

theorem sqrt_mid {E : Helpers ℝ} (hE : E.Exact) {z : ℝ} (h1 : 1 / 2 ^ 1010 ≤ z)
    (h2 : z ≤ 2 ^ 1003) :
    E.double.sqrt (fin z) = fin (E.sqrt z) ∧ 1 / 2 ^ 505 ≤ E.sqrt z
      ∧ E.sqrt z ≤ 2 ^ 502 := by
  have hz0 : 0 ≤ z := le_trans (by positivity) h1
  have hs0 := hE.sqrt_nonneg z hz0
  have hsq := hE.sqrt_sq z hz0
  have hlo : (1 : ℝ) / 2 ^ 505 ≤ E.sqrt z := by
    by_contra hlt
    push_neg at hlt
    have h3 : E.sqrt z * E.sqrt z < 1 / 2 ^ 505 * (1 / 2 ^ 505) :=
      mul_lt_mul'' hlt hlt hs0 hs0
    have h4 : (1 : ℝ) / 2 ^ 505 * (1 / 2 ^ 505) = 1 / 2 ^ 1010 := by
      rw [div_mul_div_comm, one_mul, ← pow_add]
    linarith
  have hhi : E.sqrt z ≤ 2 ^ 502 := by
    by_contra hlt
    push_neg at hlt
    have h3 : (2 : ℝ) ^ 502 * 2 ^ 502 < E.sqrt z * E.sqrt z :=
      mul_lt_mul'' hlt hlt (by positivity) (by positivity)
    have h4 : (2 : ℝ) ^ 502 * 2 ^ 502 = 2 ^ 1004 := by rw [← pow_add]
    have h5 : (2 : ℝ) ^ 1003 ≤ 2 ^ 1004 := pow_le_pow_right₀ (by norm_num) (by norm_num)
    linarith
  refine ⟨?_, hlo, hhi⟩
  show (if z < 0 then nan else round (E.sqrt z)) = _
  rw [if_neg (not_lt.mpr hz0)]
  have hpos : 0 < E.sqrt z := lt_of_lt_of_le (by positivity) hlo
  apply round_exact
  · rw [abs_of_pos hpos]
    exact lt_of_le_of_lt hhi (pow_lt_ovf (by norm_num))
  · right
    rw [abs_of_pos hpos]
    refine lt_of_lt_of_le ?_ hlo
    unfold udf
    exact one_div_lt_one_div_of_lt (by positivity)
      (pow_lt_pow_right₀ (by norm_num) (by norm_num))

theorem div_mid {c n : ℝ} (hc : c = 0 ∨ (1 / 2 ^ 500 ≤ |c| ∧ |c| ≤ 2 ^ 500))
    (h1 : 1 / 2 ^ 505 ≤ n) (h2 : n ≤ 2 ^ 502) : (fin c / fin n : Double ℝ) = fin (c / n) := by
  have hn : 0 < n := lt_of_lt_of_le (by positivity) h1
  rw [div_fin _ _ hn.ne']
  rcases hc with h0 | ⟨hc1, hc2⟩
  · rw [h0, zero_div]
    exact round_zero
  · have habs : |c / n| = |c| / n := by rw [abs_div, abs_of_pos hn]
    apply round_exact
    · rw [habs]
      have h3 : |c| / n ≤ 2 ^ 500 / (1 / 2 ^ 505) :=
        div_le_div₀ (by positivity) hc2 (by positivity) h1
      have h4 : (2 : ℝ) ^ 500 / (1 / 2 ^ 505) = 2 ^ 1005 := by
        rw [div_div_eq_mul_div, div_one, ← pow_add]
      rw [h4] at h3
      exact lt_of_le_of_lt h3 (pow_lt_ovf (by norm_num))
    · right
      rw [habs]
      have h3 : (1 : ℝ) / 2 ^ 500 / 2 ^ 502 ≤ |c| / n :=
        div_le_div₀ (abs_nonneg c) hc1 hn h2
      have h4 : (1 : ℝ) / 2 ^ 500 / 2 ^ 502 = 1 / 2 ^ 1002 := by
        rw [div_div, ← pow_add]
      rw [h4] at h3
      refine lt_of_lt_of_le ?_ h3
      unfold udf
      exact one_div_lt_one_div_of_lt (by positivity)
        (pow_lt_pow_right₀ (by norm_num) (by norm_num))

theorem normalized_inRange {E : Helpers ℝ} (hE : E.Exact) (q : Quaternion ℝ)
    (h : q.InRange) :
    (ofQuat q).normalized E.double.sqrt = ofQuat (q.normalized E.sqrt) := by
  obtain ⟨hsn, hmid⟩ := squaredNorm_ofQuat q h
  have hne := Quaternion.squaredNorm_ne_zero q h.1
  rcases hmid with h0 | ⟨h1, h2⟩
  · exact absurd h0 hne
  · obtain ⟨hs, hlo, hhi⟩ := sqrt_mid hE h1 h2
    have hc := h.2
    simp only [Quaternion.normalized, hsn, hs]
    simp only [ofQuat, div_mid (hc q.w (by simp)) hlo hhi, div_mid (hc q.x (by simp)) hlo hhi,
      div_mid (hc q.y (by simp)) hlo hhi, div_mid (hc q.z (by simp)) hlo hhi]

theorem fin_of_isFin (x : Double ℝ) (h : x.isFin = true) : ∃ x0, x = fin x0 := by
  cases x with
  | fin x0 => exact ⟨x0, rfl⟩
  | inf s => simp [isFin] at h
  | nan => simp [isFin] at h

theorem eq_ofVec_of_vfin {n : Nat} (v : Vec n (Double ℝ)) (h : VFin v) :
    ∃ v0, v = ofVec v0 := by
  refine ⟨fun i => (v i).getD 0, ?_⟩
  funext i
  obtain ⟨x0, hx⟩ := fin_of_isFin (v i) (h i)
  simp [ofVec, hx, getD]

theorem ofQuat_coeffs_vfin (q : Quaternion ℝ) : VFin (ofQuat q).coeffs := by
  intro i
  fin_cases i <;> rfl

theorem new_inRange {E : Helpers ℝ} (hE : E.Exact) (t : Int) (p : Vec 3 (Double ℝ))
    (q : Quaternion (Double ℝ)) (v b : Vec 3 (Double ℝ)) (g a : Double ℝ)
    (hp : VFin p) (hq : QInRange q) (hv : VFin v) (hb : VFin b)
    (hg : g.isFin = true) (ha : a.isFin = true) :
    ∃ s : State ℝ, State.new E.double t p q v b g a = some (ofState s)
      ∧ s.orient.squaredNorm = 1 := by
  obtain ⟨q0, rfl, hq0⟩ := hq
  obtain ⟨p0, rfl⟩ := eq_ofVec_of_vfin p hp
  obtain ⟨v0, rfl⟩ := eq_ofVec_of_vfin v hv
  obtain ⟨b0, rfl⟩ := eq_ofVec_of_vfin b hb
  obtain ⟨g0, rfl⟩ := fin_of_isFin g hg
  obtain ⟨a0, rfl⟩ := fin_of_isFin a ha
  refine ⟨⟨t, p0, q0.normalized E.sqrt, v0, b0, g0, a0⟩, ?_,
    Quaternion.squaredNorm_normalized hE q0 (Quaternion.squaredNorm_ne_zero q0 hq0.1)⟩
  rw [new_isSome E t hp (ofQuat_coeffs_vfin q0) hv hb hg ha, normalized_inRange hE q0 hq0]
  rfl

theorem round_overflow {r : ℝ} (h : ovf ≤ r) : round r = inf false := by
  have hpos : 0 < r := lt_of_lt_of_le ovf_pos h
  unfold round
  rw [if_pos (by rwa [abs_of_pos hpos])]
  simp [not_lt.mpr hpos.le]

theorem heavy_quaternion_normalized (E : Helpers ℝ) :
    (ofQuat (heavy_quaternion : Quaternion ℝ)).normalized E.double.sqrt
      = ofQuat ⟨0, 0, 0, 0⟩ := by
  have hbig : (ovf : ℝ) ≤ 1e200 * 1e200 := by
    unfold ovf
    norm_num
  have hsn : (ofQuat (heavy_quaternion : Quaternion ℝ)).squaredNorm = inf false := by
    show fin (0 : ℝ) * fin 0 + fin 0 * fin 0 + fin 0 * fin 0 + fin 1e200 * fin 1e200 = _
    rw [mul_fin, mul_fin, mul_zero, round_zero, add_fin, add_zero, round_zero, add_fin,
      add_zero, round_zero, round_overflow hbig]
    rfl
  simp only [Quaternion.normalized, hsn]
  rfl

theorem sqrt_four {E : Helpers ℝ} (hE : E.Exact) : E.sqrt 4 = 2 := by
  have h0 := hE.sqrt_nonneg 4 (by norm_num)
  have h1 := hE.sqrt_sq 4 (by norm_num)
  nlinarith

theorem heavy_apply {E : Helpers ℝ} (hE : E.Exact) :
    (ofUpdater (heavy_updater : StateUpdater ℝ)).apply E.double (ofState heavy_state)
      (ofExtra heavy_extra) = none := by
  have hsec : (Duration.toSec (4000000000 - 0) : Double ℝ) = fin 4 := by
    rw [toSec_exact _ (by norm_num)]
    congr 1
    unfold Duration.toSec
    norm_num
  have hbig : (ovf : ℝ) ≤ 2 * 1e308 := by
    unfold ovf
    norm_num
  have hsqrt : E.double.sqrt (fin 4) = fin 2 := by
    show (if (4 : ℝ) < 0 then nan else round (E.sqrt 4)) = _
    rw [if_neg (by norm_num), sqrt_four hE]
    exact round_exact (by rw [abs_two]; exact lt_trans (by norm_num) (pow_lt_ovf (le_refl 1023)))
      (Or.inr (by rw [abs_two]; exact udf_lt_one.trans (by norm_num)))
  have hpress : (fin 1e308 : Double ℝ)
      + E.double.sqrt (Duration.toSec (4000000000 - 0) : Double ℝ) * fin 1e308
      = inf false := by
    rw [hsec, hsqrt, mul_fin, round_overflow hbig]
    rfl
  have h := new_pressure_inf E 4000000000
    ((ofState (heavy_state : State ℝ)).pos_eci
      + (Duration.toSec (4000000000 - 0) : Double ℝ) • (ofState (heavy_state : State ℝ)).vel
      + ((Duration.toSec (4000000000 - 0) : Double ℝ) * Duration.toSec (4000000000 - 0) / 2)
        • ((ofState (heavy_state : State ℝ)).orient._transformVector
            (ofExtra (heavy_extra : ExtraType ℝ)).first.second
          + E.double.gravity (ofState (heavy_state : State ℝ)).pos_eci))
    ((ofState (heavy_state : State ℝ)).orient * E.double.quat_from_rotvec
      ((Duration.toSec (4000000000 - 0) : Double ℝ)
        • ((ofExtra (heavy_extra : ExtraType ℝ)).first.first
          - (ofState (heavy_state : State ℝ)).gyro_bias)))
    ((ofState (heavy_state : State ℝ)).vel + (Duration.toSec (4000000000 - 0) : Double ℝ)
        • ((ofState (heavy_state : State ℝ)).orient._transformVector
            (ofExtra (heavy_extra : ExtraType ℝ)).first.second
          + E.double.gravity (ofState (heavy_state : State ℝ)).pos_eci))
    (ofState (heavy_state : State ℝ)).gyro_bias (ofState (heavy_state : State ℝ)).local_g false
  rw [← hpress] at h
  exact h

theorem new_some_inRange {E : Helpers ℝ} (hE : E.Exact) (t : Int) (p : Vec 3 (Double ℝ))
    (q : Quaternion (Double ℝ)) (v b : Vec 3 (Double ℝ)) (g a : Double ℝ)
    (S : State (Double ℝ)) (h : State.new E.double t p q v b g a = some S)
    (hq : QInRange q) (hp : VFin S.pos_eci) (hv : VFin S.vel) (hb : VFin S.gyro_bias) :
    ∃ s : State ℝ, S = ofState s ∧ s.orient.squaredNorm = 1 := by
  unfold State.new at h
  split at h
  · rename_i hc
    simp only [Bool.and_eq_true] at hc
    obtain ⟨⟨_, hg⟩, ha⟩ := hc
    have hS := (Option.some.inj h).symm
    rw [hS] at hp hv hb
    obtain ⟨s, hs, hu⟩ := new_inRange hE t p q v b g a hp hq hv hb hg ha
    refine ⟨s, ?_, hu⟩
    rw [new_isSome E t hp (by obtain ⟨q0, rfl, _⟩ := hq; exact ofQuat_coeffs_vfin q0) hv hb
      hg ha] at hs
    rw [hS]
    exact Option.some.inj hs
  · exact absurd h (by simp)

theorem moderate_scenario :
    StateUpdater.Moderate
      (Helpers.exact Real.sqrt Real.cos Real.sin Real.arccos scenario_gravity)
      (scenario_updater true : StateUpdater ℝ).imu.header_stamp scenario_state
      spin_force_extra := by
  have h1 : |(1 : ℝ)| ≤ 2 ^ 100 := by
    rw [abs_one]
    exact one_le_pow₀ (by norm_num)
  have h0 : |(0 : ℝ)| ≤ 2 ^ 100 := by
    rw [abs_zero]
    positivity
  refine ⟨by decide, fun i => h0, ?_, fun i => h0, fun i => h0, ?_, ?_, ?_, h0, ?_⟩
  · intro c hc
    simp only [scenario_state, Quaternion.Identity, List.mem_cons, List.mem_singleton,
      List.not_mem_nil, or_false] at hc
    rcases hc with rfl | rfl | rfl | rfl <;> assumption
  · show |(101325.0 : ℝ)| ≤ 2 ^ 100
    rw [abs_of_nonneg (by norm_num)]
    norm_num
  · intro i
    fin_cases i
    · exact h1
    · exact h0
    · exact h0
  · intro i
    fin_cases i
    · exact h0
    · exact h1
    · exact h0
  · intro i
    fin_cases i
    · exact h0
    · exact h0
    · show |(-9.8 : ℝ)| ≤ 2 ^ 100
      rw [abs_neg, abs_of_nonneg (by norm_num)]
      norm_num

theorem inRange_two : (⟨2, 0, 0, 0⟩ : Quaternion ℝ).InRange := by
  constructor
  · intro h
    have hw := congrArg Quaternion.w h
    norm_num at hw
  · intro c hc
    simp only [List.mem_cons, List.mem_singleton, List.not_mem_nil, or_false] at hc
    rcases hc with rfl | rfl | rfl | rfl
    · right
      rw [abs_two]
      constructor
      · exact (div_le_one (by positivity)).mpr (one_le_pow₀ (by norm_num)) |>.trans
          (by norm_num)
      · exact le_self_pow₀ (by norm_num) (by norm_num)
    · exact Or.inl rfl
    · exact Or.inl rfl
    · exact Or.inl rfl

theorem round_one : round (1 : ℝ) = fin 1 :=
  round_exact (by rw [abs_one]; exact lt_of_le_of_lt (by norm_num) (pow_lt_ovf (le_refl 1023)))
    (Or.inr (by rw [abs_one]; exact udf_lt_one.trans (by norm_num)))

theorem ofQuat_Identity_mul :
    (ofQuat (Quaternion.Identity : Quaternion ℝ)) * ofQuat Quaternion.Identity
      = ofQuat Quaternion.Identity := by
  simp only [Quaternion.mul_eq, ofQuat, Quaternion.Identity, mul_fin, sub_fin, add_fin,
    mul_one, mul_zero, zero_mul, sub_zero, add_zero, round_zero, round_one]

theorem inRange_Identity : (Quaternion.Identity : Quaternion ℝ).InRange := by
  constructor
  · intro h
    have hw := congrArg Quaternion.w h
    simp [Quaternion.Identity] at hw
  · intro c hc
    simp only [Quaternion.Identity, List.mem_cons, List.mem_singleton, List.not_mem_nil,
      or_false] at hc
    rcases hc with rfl | rfl | rfl | rfl
    · right
      rw [abs_one]
      exact ⟨(div_le_one (by positivity)).mpr (one_le_pow₀ (by norm_num)),
        one_le_pow₀ (by norm_num)⟩
    · exact Or.inl rfl
    · exact Or.inl rfl
    · exact Or.inl rfl

theorem scenario_product_inRange {E : Helpers ℝ} (hE : E.Exact) :
    QInRange ((ofState (scenario_state : State ℝ)).orient * E.double.quat_from_rotvec
      ((Duration.toSec ((ofUpdater (scenario_updater false : StateUpdater ℝ)).imu.header_stamp
          - (ofState (scenario_state : State ℝ)).t) : Double ℝ)
        • ((ofExtra (scenario_extra : ExtraType ℝ)).first.first
          - (ofState (scenario_state : State ℝ)).gyro_bias))) := by
  have hsec : (Duration.toSec (1000000000 - 0) : Double ℝ) = fin 1 := by
    rw [toSec_exact _ (by norm_num)]
    congr 1
    unfold Duration.toSec
    norm_num
  have hrot : (Duration.toSec (1000000000 - 0) : Double ℝ)
      • (ofVec (0 : Vec 3 ℝ) - ofVec (0 : Vec 3 ℝ)) = ofVec 0 := by
    rw [hsec]
    funext i
    show fin (1 : ℝ) * (fin 0 - fin 0) = fin 0
    rw [sub_fin, sub_zero, round_zero, mul_fin, mul_zero, round_zero]
  have hexp : E.double.quat_from_rotvec (ofVec (0 : Vec 3 ℝ)) = ofQuat Quaternion.Identity := by
    simp only [Helpers.double, all_isFin_of_vfin (ofVec_vfin (0 : Vec 3 ℝ)), if_true]
    have h0 : (fun i => (ofVec (0 : Vec 3 ℝ) i).getD 0) = (0 : Vec 3 ℝ) := rfl
    rw [h0, hE.exp_zero]
    simp only [Quaternion.Identity, round_one, round_zero, ofQuat]
  refine ⟨Quaternion.Identity, ?_, inRange_Identity⟩
  show ofQuat Quaternion.Identity * E.double.quat_from_rotvec
      ((Duration.toSec (1000000000 - 0) : Double ℝ)
        • (ofVec (0 : Vec 3 ℝ) - ofVec (0 : Vec 3 ℝ))) = ofQuat Quaternion.Identity
  rw [hrot, hexp, ofQuat_Identity_mul]

theorem moderate_scenario_rest :
    StateUpdater.Moderate
      (Helpers.exact Real.sqrt Real.cos Real.sin Real.arccos scenario_gravity)
      (ofUpdater (scenario_updater false : StateUpdater ℝ)).imu.header_stamp scenario_state
      scenario_extra := by
  have h0 : |(0 : ℝ)| ≤ 2 ^ 100 := by
    rw [abs_zero]
    positivity
  have h98 : |(9.8 : ℝ)| ≤ 2 ^ 100 := by
    rw [abs_of_nonneg (by norm_num)]
    norm_num
  refine ⟨by decide, fun i => h0, ?_, fun i => h0, fun i => h0, ?_, fun i => h0, ?_, h0, ?_⟩
  · intro c hc
    simp only [scenario_state, Quaternion.Identity, List.mem_cons, List.mem_singleton,
      List.not_mem_nil, or_false] at hc
    rcases hc with rfl | rfl | rfl | rfl
    · rw [abs_one]
      exact one_le_pow₀ (by norm_num)
    · exact h0
    · exact h0
    · exact h0
  · show |(101325.0 : ℝ)| ≤ 2 ^ 100
    rw [abs_of_nonneg (by norm_num)]
    norm_num
  · intro i
    fin_cases i
    · exact h0
    · exact h0
    · exact h98
  · intro i
    fin_cases i
    · exact h0
    · exact h0
    · show |(-9.8 : ℝ)| ≤ 2 ^ 100
      rw [abs_neg]
      exact h98

end Double

/-! ## The claims -/

/-- C1: plus then minus is the identity on deltas.  For exact helpers, every
State `S` with a unit orientation and every delta `D` whose rotation block
(entries 3..5) is shorter than `π` (squared length below `π ^ 2`), `S + D` is a
State and `(S + D) - S = D` in all 14 entries. -/
theorem plus_minus_round_trip (E : Helpers ℝ) (hE : E.Exact) (S : State ℝ)
    (D : State.DeltaType ℝ) (hS : S.orient.squaredNorm = 1)
    (hD : (D.segment3 State.ORIENT (by decide)).squaredNorm < Real.pi ^ 2) :
    ∃ S1, S.operator_plus E D = some S1 ∧ S1.operator_minus E S = D := by
  refine ⟨_, State.operator_plus_exact hE S D hS, ?_⟩
  simp only [State.operator_minus]
  rw [Quaternion.mul_conjugate_cancel _ _ hS, hE.log_exp _ hD]
  simp only [add_sub_cancel_left]
  exact State.DeltaType.finished_segments D

/-- C1 at a concrete input: with the real exponential and logarithm, the State
`sample_state` (turned half a turn about x) and the delta `sample_delta`, whose
rotation block is `(1, 0, 0)`. -/
theorem plus_minus_round_trip_witness :
    (Helpers.exact Real.sqrt Real.cos Real.sin Real.arccos (fun _ => 0)).Exact
    ∧ sample_state.orient.squaredNorm = 1
    ∧ (sample_delta.segment3 State.ORIENT (by decide)).squaredNorm < Real.pi ^ 2
    ∧ ∃ S1, sample_state.operator_plus
          (Helpers.exact Real.sqrt Real.cos Real.sin Real.arccos (fun _ => 0)) sample_delta
          = some S1
        ∧ S1.operator_minus
          (Helpers.exact Real.sqrt Real.cos Real.sin Real.arccos (fun _ => 0)) sample_state
          = sample_delta :=
  have h1 : sample_state.orient.squaredNorm = 1 := by
    simp [sample_state, Quaternion.squaredNorm]
  have h2 : (sample_delta.segment3 State.ORIENT (by decide)).squaredNorm < Real.pi ^ 2 := by
    have e : (sample_delta.segment3 State.ORIENT (by decide)).squaredNorm = 1 := by
      simp [sample_delta, Vec.segment3, Vec.squaredNorm]
    rw [e]
    nlinarith [Real.pi_gt_three]
  ⟨Helpers.exact_real _, h1, h2,
    plus_minus_round_trip _ (Helpers.exact_real _) sample_state sample_delta h1 h2⟩

/-- C2: minus then plus gives the first State back.  For exact helpers and
States `S1`, `S2` with unit orientations, `S2 + (S1 - S2)` is a State whose
`pos_eci`, `orient`, `vel`, `gyro_bias`, `local_g` and `ground_air_pressure` are
those of `S1` (its time stamp is the one of `S2`). -/
theorem minus_plus_round_trip (E : Helpers ℝ) (hE : E.Exact) (S1 S2 : State ℝ)
    (h1 : S1.orient.squaredNorm = 1) (h2 : S2.orient.squaredNorm = 1) :
    ∃ S, S2.operator_plus E (S1.operator_minus E S2) = some S
      ∧ S.pos_eci = S1.pos_eci ∧ S.orient = S1.orient ∧ S.vel = S1.vel
      ∧ S.gyro_bias = S1.gyro_bias ∧ S.local_g = S1.local_g
      ∧ S.ground_air_pressure = S1.ground_air_pressure := by
  refine ⟨_, State.operator_plus_exact hE S2 _ h2, ?_⟩
  obtain ⟨hp, hr, hv, hb, hg, ha⟩ := State.DeltaType.segment3_finished
    (S1.pos_eci - S2.pos_eci) (E.rotvec_from_quat (S1.orient * S2.orient.conjugate))
    (S1.vel - S2.vel) (S1.gyro_bias - S2.gyro_bias) (S1.local_g - S2.local_g)
    (S1.ground_air_pressure - S2.ground_air_pressure)
  have hu : (S1.orient * S2.orient.conjugate).squaredNorm = 1 := by
    rw [Quaternion.squaredNorm_mul, Quaternion.squaredNorm_conjugate, h1, h2, one_mul]
  simp only [State.operator_minus, hp, hr, hv, hb, hg, ha, hE.exp_log _ hu,
    Quaternion.conjugate_mul_cancel _ _ h2, add_sub_cancel, and_self]

/-- C2 at a concrete input: with the real exponential and logarithm and the
States `sample_state` and `sample_state2`, which differ in every field. -/
theorem minus_plus_round_trip_witness :
    (Helpers.exact Real.sqrt Real.cos Real.sin Real.arccos (fun _ => 0)).Exact
    ∧ sample_state.orient.squaredNorm = 1
    ∧ sample_state2.orient.squaredNorm = 1
    ∧ ∃ S, sample_state2.operator_plus
          (Helpers.exact Real.sqrt Real.cos Real.sin Real.arccos (fun _ => 0))
          (sample_state.operator_minus
            (Helpers.exact Real.sqrt Real.cos Real.sin Real.arccos (fun _ => 0))
            sample_state2)
          = some S
        ∧ S.pos_eci = sample_state.pos_eci ∧ S.orient = sample_state.orient
        ∧ S.vel = sample_state.vel ∧ S.gyro_bias = sample_state.gyro_bias
        ∧ S.local_g = sample_state.local_g
        ∧ S.ground_air_pressure = sample_state.ground_air_pressure :=
  have h1 : sample_state.orient.squaredNorm = 1 := by
    simp [sample_state, Quaternion.squaredNorm]
  have h2 : sample_state2.orient.squaredNorm = 1 := by
    simp [sample_state2, Quaternion.Identity, Quaternion.squaredNorm]
  ⟨Helpers.exact_real _, h1, h2,
    minus_plus_round_trip _ (Helpers.exact_real _) sample_state sample_state2 h1 h2⟩

/-- C3: identity laws.  For exact helpers and a State `S` with a unit
orientation, `S - S` is the zero delta and `S + 0` is `S`, all seven fields
(the time stamp too) unchanged. -/
theorem identity_laws (E : Helpers ℝ) (hE : E.Exact) (S : State ℝ)
    (hS : S.orient.squaredNorm = 1) :
    S.operator_minus E S = 0 ∧ S.operator_plus E 0 = some S := by
  constructor
  · have hlog : E.rotvec_from_quat Quaternion.Identity = 0 := by
      have h := hE.log_exp 0 (by simp [Vec.squaredNorm, Real.pi_pos])
      rwa [hE.exp_zero] at h
    simp only [State.operator_minus, Quaternion.self_mul_conjugate _ hS, hlog, sub_self]
    funext i
    fin_cases i <;> rfl
  · rw [State.operator_plus_exact hE S 0 hS]
    have hz : ∀ (i : Nat) (h : i + 3 ≤ State.RowsAtCompileTime),
        (0 : State.DeltaType ℝ).segment3 i h = 0 := by
      intro i h
      rfl
    simp only [hz, hE.exp_zero, Quaternion.Identity_mul, add_zero, Pi.zero_apply]

/-- C3 at a concrete input: with the real exponential and logarithm and the
State `sample_state`. -/
theorem identity_laws_witness :
    (Helpers.exact Real.sqrt Real.cos Real.sin Real.arccos (fun _ => 0)).Exact
    ∧ sample_state.orient.squaredNorm = 1
    ∧ sample_state.operator_minus
        (Helpers.exact Real.sqrt Real.cos Real.sin Real.arccos (fun _ => 0)) sample_state = 0
    ∧ sample_state.operator_plus
        (Helpers.exact Real.sqrt Real.cos Real.sin Real.arccos (fun _ => 0)) 0
        = some sample_state :=
  have h1 : sample_state.orient.squaredNorm = 1 := by
    simp [sample_state, Quaternion.squaredNorm]
  ⟨Helpers.exact_real _, h1, identity_laws _ (Helpers.exact_real _) sample_state h1⟩

/-- C5: the orientation of a sum is normalised.  For exact helpers, a State `S`
whose orientation is not the zero quaternion (every unit orientation is such)
and every delta `D`, `S + D` is a State, the squared norm of its orientation is
exactly 1, and so is its norm `sqrt (squaredNorm)`. -/
theorem operator_plus_orient_unit (E : Helpers ℝ) (hE : E.Exact) (S : State ℝ)
    (D : State.DeltaType ℝ) (hS : S.orient.squaredNorm ≠ 0) :
    ∃ S1, S.operator_plus E D = some S1 ∧ S1.orient.squaredNorm = 1
      ∧ E.sqrt S1.orient.squaredNorm = 1 := by
  have hne : (E.quat_from_rotvec (D.segment3 State.ORIENT (by decide))
      * S.orient).squaredNorm ≠ 0 := by
    rw [Quaternion.squaredNorm_mul, hE.exp_unit, one_mul]
    exact hS
  have hu := Quaternion.squaredNorm_normalized hE _ hne
  refine ⟨_, by rw [State.operator_plus, State.new_exact hE], hu, ?_⟩
  simp only [hu, hE.sqrt_one]

/-- C5 at a concrete input: the State `sample_state3`, whose stored orientation
`(2, 0, 0, 0)` has norm 2, plus `sample_delta`. -/
theorem operator_plus_orient_unit_witness :
    (Helpers.exact Real.sqrt Real.cos Real.sin Real.arccos (fun _ => 0)).Exact
    ∧ sample_state3.orient.squaredNorm ≠ 0
    ∧ ∃ S1, sample_state3.operator_plus
          (Helpers.exact Real.sqrt Real.cos Real.sin Real.arccos (fun _ => 0)) sample_delta
          = some S1
        ∧ S1.orient.squaredNorm = 1
        ∧ (Helpers.exact Real.sqrt Real.cos Real.sin Real.arccos (fun _ => 0)).sqrt
            S1.orient.squaredNorm = 1 :=
  have h1 : sample_state3.orient.squaredNorm ≠ 0 := by
    simp [sample_state3, Quaternion.squaredNorm]
  ⟨Helpers.exact_real _, h1,
    operator_plus_orient_unit _ (Helpers.exact_real _) sample_state3 sample_delta h1⟩

/-- C6 fails as stated: the dimension that `rows()` reports,
`RowsAtCompileTime`, is not 16. -/
theorem rows_ne_sixteen :
    State.RowsAtCompileTime ≠ 16 ∧ ¬ (∀ s : State ℝ, s.rows = 16) := by
  refine ⟨by decide, fun h => ?_⟩
  have h16 : State.RowsAtCompileTime = 16 := h ⟨0, 0, Quaternion.Identity, 0, 0, 0, 0⟩
  exact absurd h16 (by decide)

/-- C6 amended: the dimension of State is 14: `rows()` returns
`RowsAtCompileTime`, which is `GROUND_AIR_PRESSURE + 1 = 14`, the blocks starting
at 0, 3, 6, 9, 12 and 13; `DeltaType` has 14 entries and `CovType` 14 rows and
columns. -/
theorem rows_eq_fourteen {α : Type} (s : State α) :
    s.rows = 14 ∧ State.RowsAtCompileTime = 14
      ∧ State.POS_ECI = 0 ∧ State.ORIENT = 3 ∧ State.VEL = 6 ∧ State.GYRO_BIAS = 9
      ∧ State.LOCAL_G = 12 ∧ State.GROUND_AIR_PRESSURE = 13
      ∧ State.DeltaType α = (Fin 14 → α) ∧ State.CovType α = (Fin 14 → Fin 14 → α) :=
  ⟨rfl, rfl, rfl, rfl, rfl, rfl, rfl, rfl, rfl, rfl⟩

/-- C7: the distribution of the extra input.  Its mean is the measured angular
velocity, the measured linear acceleration and a zero noise entry.  Its 7x7
covariance is block diagonal: rows and columns 0..2 hold the angular-velocity
covariance of the sample, 3..5 its linear-acceleration covariance (each as
`Eigen::Map` reads the nine-entry array), entry (6, 6) is `scalar_matrix(5)`,
which is 25 in the model of `scalar_matrix` taken from the spec, and every
entry outside the three blocks is 0. -/
theorem get_extra_distribution_spec (u : StateUpdater ℝ) :
    u.get_extra_distribution.mean.first.first
        = ![u.imu.angular_velocity.x, u.imu.angular_velocity.y, u.imu.angular_velocity.z]
    ∧ u.get_extra_distribution.mean.first.second
        = ![u.imu.linear_acceleration.x, u.imu.linear_acceleration.y,
            u.imu.linear_acceleration.z]
    ∧ u.get_extra_distribution.mean.second = 0
    ∧ (∀ i j : Fin 3,
        u.get_extra_distribution.cov ⟨i.val, by omega⟩ ⟨j.val, by omega⟩
          = Map3 u.imu.angular_velocity_covariance i j)
    ∧ (∀ i j : Fin 3,
        u.get_extra_distribution.cov ⟨3 + i.val, by omega⟩ ⟨3 + j.val, by omega⟩
          = Map3 u.imu.linear_acceleration_covariance i j)
    ∧ u.get_extra_distribution.cov 6 6 = scalar_matrix (5 : ℝ) 0 0
    ∧ u.get_extra_distribution.cov 6 6 = 25
    ∧ (∀ i j : Fin 3,
        u.get_extra_distribution.cov ⟨i.val, by omega⟩ ⟨3 + j.val, by omega⟩ = 0
        ∧ u.get_extra_distribution.cov ⟨3 + i.val, by omega⟩ ⟨j.val, by omega⟩ = 0)
    ∧ (∀ i : Fin 6,
        u.get_extra_distribution.cov ⟨i.val, by omega⟩ 6 = 0
        ∧ u.get_extra_distribution.cov 6 ⟨i.val, by omega⟩ = 0) := by
  refine ⟨rfl, rfl, rfl, ?_, ?_, ?_, ?_, ?_, ?_⟩
  · intro i j
    fin_cases i <;> fin_cases j <;> rfl
  · intro i j
    fin_cases i <;> fin_cases j <;> rfl
  · show ((5 : ℤ) : ℝ) * ((5 : ℤ) : ℝ) = (5 : ℝ) * 5
    norm_num
  · show ((5 : ℤ) : ℝ) * ((5 : ℤ) : ℝ) = 25
    norm_num
  · intro i j
    fin_cases i <;> fin_cases j <;> exact ⟨rfl, rfl⟩
  · intro i
    fin_cases i <;> exact ⟨rfl, rfl⟩

/-- C8 fails as stated: on doubles with NaN, for the finite State `late_state`
stamped `t = 2 s`, the sample of the scenario stamped `t = 1 s` (so `dt = -1`)
and the finite extra input of the scenario, `apply` returns no State: `sqrt(dt)`
is NaN, so is the pressure handed to the constructor, and the assertion
`isfinite(ground_air_pressure)` fails. -/
theorem apply_negative_dt_fails :
    (scenario_updater false : StateUpdater ℝ).imu.header_stamp < (late_state : State ℝ).t
    ∧ (WithNaN.ofUpdater (scenario_updater false)).apply
        (Helpers.exact Real.sqrt Real.cos Real.sin Real.arccos scenario_gravity).withNaN
        (WithNaN.ofState late_state) (WithNaN.ofExtra scenario_extra) = none := by
  have hlt : (scenario_updater false : StateUpdater ℝ).imu.header_stamp
      < (late_state : State ℝ).t := by
    decide
  refine ⟨hlt, ?_⟩
  have h := WithNaN.apply_isSome_iff
    (Helpers.exact Real.sqrt Real.cos Real.sin Real.arccos scenario_gravity)
    (WithNaN.ofUpdater (scenario_updater false)) late_state scenario_extra
  cases hap : (WithNaN.ofUpdater (scenario_updater false)).apply
      (Helpers.exact Real.sqrt Real.cos Real.sin Real.arccos scenario_gravity).withNaN
      (WithNaN.ofState late_state) (WithNaN.ofExtra scenario_extra) with
  | none => rfl
  | some S =>
    have hle := h.mp ⟨S, hap⟩
    exact absurd hlt (not_lt.mpr hle)

/-- C8 amended: on doubles with their range and exact helpers, `apply` returns
no State when the sample is stamped before the State (`dt < 0`), whatever the
State and the extra input are: `sqrt(dt)` is NaN and the assertion on
`ground_air_pressure` fails.  For moderate inputs (a duration that
`ros::Duration` holds, entries of the State, of the extra input and of the
gravity of magnitude at most `2^100`) `apply` returns a State exactly when
`dt ≥ 0`.  Finite inputs and `dt ≥ 0` alone are not enough: for `dt = 4 s`,
pressure `1e308` and noise `1e308` the new pressure overflows and the assertion
fails. -/
theorem apply_total_iff (E : Helpers ℝ) (hE : E.Exact) :
    (∀ (u : StateUpdater (Double ℝ)) (state : State (Double ℝ))
        (extra : ExtraType (Double ℝ)),
        u.imu.header_stamp < state.t → u.apply E.double state extra = none)
    ∧ (∀ (u : StateUpdater (Double ℝ)) (state : State ℝ) (extra : ExtraType ℝ),
        StateUpdater.Moderate E u.imu.header_stamp state extra →
        ((∃ S, u.apply E.double (Double.ofState state) (Double.ofExtra extra) = some S)
          ↔ state.t ≤ u.imu.header_stamp))
    ∧ ((heavy_state : State ℝ).t ≤ (heavy_updater : StateUpdater ℝ).imu.header_stamp
      ∧ (Double.ofUpdater heavy_updater).apply E.double (Double.ofState heavy_state)
          (Double.ofExtra heavy_extra) = none) := by
  refine ⟨fun u state extra h => Double.apply_neg E u state extra h, ?_,
    by decide, Double.heavy_apply hE⟩
  intro u state extra hM
  constructor
  · rintro ⟨S, hS⟩
    by_contra hlt
    have hnone := Double.apply_neg E u (Double.ofState state) (Double.ofExtra extra)
      (not_le.mp hlt)
    rw [hnone] at hS
    exact absurd hS (by simp)
  · exact Double.apply_isSome hE u state extra hM

/-- C8 amended at a concrete input: the State, the sample (`dt = 1 s`) and the
gravity of the scenario, with angular velocity `(1, 0, 0)` and specific force
`(0, 1, 0)`, are moderate, and `apply` returns a State. -/
theorem apply_total_iff_witness :
    (Helpers.exact Real.sqrt Real.cos Real.sin Real.arccos scenario_gravity).Exact
    ∧ StateUpdater.Moderate
        (Helpers.exact Real.sqrt Real.cos Real.sin Real.arccos scenario_gravity)
        (scenario_updater true : StateUpdater ℝ).imu.header_stamp scenario_state
        spin_force_extra
    ∧ ∃ S, (Double.ofUpdater (scenario_updater true)).apply
          (Helpers.exact Real.sqrt Real.cos Real.sin Real.arccos scenario_gravity).double
          (Double.ofState scenario_state) (Double.ofExtra spin_force_extra) = some S :=
  ⟨Helpers.exact_real _, Double.moderate_scenario,
    ((apply_total_iff _ (Helpers.exact_real _)).2.1 (Double.ofUpdater (scenario_updater true))
      scenario_state spin_force_extra Double.moderate_scenario).mpr (by decide)⟩

/-- C9 fails as stated: with the real exponential, the State of the scenario,
`dt = 1` and the extra input `spin_extra` (angular velocity `(1, 0, 0)`, no
specific force), the incremental rotation is not the identity, yet `apply`
returns the same State for both values of `rightSideAccelFrame`. -/
theorem frame_flag_counterexample :
    (Helpers.exact Real.sqrt Real.cos Real.sin Real.arccos
        (fun _ => (0 : Vec 3 ℝ))).quat_from_rotvec
      ((Duration.toSec ((scenario_updater true : StateUpdater ℝ).imu.header_stamp
          - (scenario_state : State ℝ).t) : ℝ)
        • ((spin_extra : ExtraType ℝ).first.first - (scenario_state : State ℝ).gyro_bias))
      ≠ Quaternion.Identity
    ∧ ∃ S, (scenario_updater true).apply
          (Helpers.exact Real.sqrt Real.cos Real.sin Real.arccos (fun _ => 0))
          scenario_state spin_extra = some S
        ∧ (scenario_updater false).apply
          (Helpers.exact Real.sqrt Real.cos Real.sin Real.arccos (fun _ => 0))
          scenario_state spin_extra = some S := by
  constructor
  · rw [scenario_increment]
    intro h
    have hx := congrArg Quaternion.x h
    simp only [Quaternion.Identity] at hx
    exact sin_half_pos.ne' hx
  · refine ⟨_, StateUpdater.apply_exact (Helpers.exact_real _) _ _ _, ?_⟩
    rw [StateUpdater.apply_exact (Helpers.exact_real _)]
    simp [spin_extra, scenario_updater, Quaternion.transformVector_zero]

/-- C9 amended: for exact helpers and a sample that is not stamped before the
State (`dt ≥ 0`), the States that `apply` returns for the two values of
`rightSideAccelFrame` differ exactly when the specific force rotated by the new
orientation `orient * quat_from_rotvec(dt * (angular velocity - gyro_bias))`
differs from the specific force rotated by the prior orientation; they differ
only if the incremental rotation is not the identity.  On doubles with their
range both calls return a State when the inputs are moderate. -/
theorem frame_flag_sensitivity (E : Helpers ℝ) (hE : E.Exact) (imu : Imu ℝ)
    (state : State ℝ) (extra : ExtraType ℝ) (hdt : state.t ≤ imu.header_stamp) :
    ∃ S1 S2, StateUpdater.apply E ⟨imu, true⟩ state extra = some S1
      ∧ StateUpdater.apply E ⟨imu, false⟩ state extra = some S2
      ∧ (S1 ≠ S2 ↔
          (state.orient * E.quat_from_rotvec
              ((Duration.toSec (imu.header_stamp - state.t) : ℝ)
                • (extra.first.first - state.gyro_bias)))._transformVector
              extra.first.second
            ≠ state.orient._transformVector extra.first.second)
      ∧ (S1 ≠ S2 →
          E.quat_from_rotvec ((Duration.toSec (imu.header_stamp - state.t) : ℝ)
            • (extra.first.first - state.gyro_bias)) ≠ Quaternion.Identity)
      ∧ (StateUpdater.Moderate E imu.header_stamp state extra →
          (∃ S, StateUpdater.apply E.double (Double.ofUpdater ⟨imu, true⟩)
              (Double.ofState state) (Double.ofExtra extra) = some S)
          ∧ (∃ S, StateUpdater.apply E.double (Double.ofUpdater ⟨imu, false⟩)
              (Double.ofState state) (Double.ofExtra extra) = some S)) := by
  have hiff : (⟨imu.header_stamp,
        state.pos_eci + (Duration.toSec (imu.header_stamp - state.t) : ℝ) • state.vel
          + ((Duration.toSec (imu.header_stamp - state.t) : ℝ)
              * Duration.toSec (imu.header_stamp - state.t) / 2)
            • ((state.orient * E.quat_from_rotvec
                    ((Duration.toSec (imu.header_stamp - state.t) : ℝ)
                      • (extra.first.first - state.gyro_bias)))._transformVector
                  extra.first.second
                + E.gravity state.pos_eci),
        (state.orient * E.quat_from_rotvec
          ((Duration.toSec (imu.header_stamp - state.t) : ℝ)
            • (extra.first.first - state.gyro_bias))).normalized E.sqrt,
        state.vel + (Duration.toSec (imu.header_stamp - state.t) : ℝ)
            • ((state.orient * E.quat_from_rotvec
                    ((Duration.toSec (imu.header_stamp - state.t) : ℝ)
                      • (extra.first.first - state.gyro_bias)))._transformVector
                  extra.first.second
                + E.gravity state.pos_eci),
        state.gyro_bias, state.local_g,
        state.ground_air_pressure
          + E.sqrt (Duration.toSec (imu.header_stamp - state.t)) * extra.second 0⟩ : State ℝ)
      ≠ ⟨imu.header_stamp,
        state.pos_eci + (Duration.toSec (imu.header_stamp - state.t) : ℝ) • state.vel
          + ((Duration.toSec (imu.header_stamp - state.t) : ℝ)
              * Duration.toSec (imu.header_stamp - state.t) / 2)
            • (state.orient._transformVector extra.first.second
                + E.gravity state.pos_eci),
        (state.orient * E.quat_from_rotvec
          ((Duration.toSec (imu.header_stamp - state.t) : ℝ)
            • (extra.first.first - state.gyro_bias))).normalized E.sqrt,
        state.vel + (Duration.toSec (imu.header_stamp - state.t) : ℝ)
            • (state.orient._transformVector extra.first.second
                + E.gravity state.pos_eci),
        state.gyro_bias, state.local_g,
        state.ground_air_pressure
          + E.sqrt (Duration.toSec (imu.header_stamp - state.t)) * extra.second 0⟩
      ↔ (state.orient * E.quat_from_rotvec
              ((Duration.toSec (imu.header_stamp - state.t) : ℝ)
                • (extra.first.first - state.gyro_bias)))._transformVector
              extra.first.second
            ≠ state.orient._transformVector extra.first.second := by
    constructor
    · intro hne heq
      apply hne
      rw [heq]
    · intro hne heq
      have hdt0 : (Duration.toSec (imu.header_stamp - state.t) : ℝ) ≠ 0 := by
        intro h0
        apply hne
        rw [h0, zero_smul, hE.exp_zero, Quaternion.mul_Identity]
      have hv := congrArg State.vel heq
      simp only [add_right_inj] at hv
      have h2 := smul_right_injective (Vec 3 ℝ) hdt0 hv
      exact hne (add_right_cancel h2)
  refine ⟨_, _, StateUpdater.apply_exact hE _ _ _, StateUpdater.apply_exact hE _ _ _, ?_, ?_,
    ?_⟩
  · simpa only [if_true, Bool.false_eq_true, if_false] using hiff
  · simp only [if_true, Bool.false_eq_true, if_false]
    intro hne hid
    apply hiff.mp hne
    rw [hid, Quaternion.mul_Identity]
  · intro hM
    exact ⟨Double.apply_isSome hE (Double.ofUpdater ⟨imu, true⟩) state extra hM hdt,
      Double.apply_isSome hE (Double.ofUpdater ⟨imu, false⟩) state extra hM hdt⟩

/-- C9 amended at a concrete input: with the real exponential, the State of the
scenario, `dt = 1` and the extra input `spin_force_extra` (angular velocity
`(1, 0, 0)`, specific force `(0, 1, 0)`), the inputs are moderate, the two
States differ, and both calls return a State on doubles. -/
theorem frame_flag_sensitivity_witness :
    (Helpers.exact Real.sqrt Real.cos Real.sin Real.arccos scenario_gravity).Exact
    ∧ (scenario_state : State ℝ).t
        ≤ (scenario_updater true : StateUpdater ℝ).imu.header_stamp
    ∧ StateUpdater.Moderate
        (Helpers.exact Real.sqrt Real.cos Real.sin Real.arccos scenario_gravity)
        (scenario_updater true : StateUpdater ℝ).imu.header_stamp scenario_state
        spin_force_extra
    ∧ ∃ S1 S2, (scenario_updater true).apply
          (Helpers.exact Real.sqrt Real.cos Real.sin Real.arccos scenario_gravity)
          scenario_state spin_force_extra = some S1
        ∧ (scenario_updater false).apply
          (Helpers.exact Real.sqrt Real.cos Real.sin Real.arccos scenario_gravity)
          scenario_state spin_force_extra = some S2
        ∧ S1 ≠ S2
        ∧ (∃ S, (Double.ofUpdater (scenario_updater true)).apply
            (Helpers.exact Real.sqrt Real.cos Real.sin Real.arccos scenario_gravity).double
            (Double.ofState scenario_state) (Double.ofExtra spin_force_extra) = some S)
        ∧ (∃ S, (Double.ofUpdater (scenario_updater false)).apply
            (Helpers.exact Real.sqrt Real.cos Real.sin Real.arccos scenario_gravity).double
            (Double.ofState scenario_state) (Double.ofExtra spin_force_extra) = some S) := by
  obtain ⟨S1, S2, h1, h2, hiff, _, hret⟩ := frame_flag_sensitivity
    (Helpers.exact Real.sqrt Real.cos Real.sin Real.arccos scenario_gravity)
    (Helpers.exact_real _) (scenario_updater true).imu scenario_state spin_force_extra
    (by decide)
  refine ⟨Helpers.exact_real _, by decide, Double.moderate_scenario, S1, S2, h1, h2,
    hiff.mpr ?_, (hret Double.moderate_scenario).1, (hret Double.moderate_scenario).2⟩
  intro heq
  have hy := congrFun heq 1
  simp [Helpers.exact, quat_exp, Vec.squaredNorm, Duration.toSec, scenario_updater,
    scenario_state, spin_force_extra, Quaternion.mul_eq, Quaternion.Identity,
    Quaternion._transformVector, Quaternion.vec, Vec.cross] at hy
  rw [← one_div] at hy
  exact sin_half_pos.ne' hy

/-- C10: zero-rotation dynamics.  For exact helpers, a State with unit
orientation and zero `gyro_bias`, a sample with `dt ≥ 0`, and an extra input
with zero angular velocity, zero noise and a specific force whose rotation by
the orientation cancels `gravity(pos_eci)`, `apply` returns a State, for either
value of the frame flag, with `vel` unchanged, `pos_eci` advanced by `dt * vel`,
`orient` unchanged and `ground_air_pressure` unchanged; on doubles with NaN
`apply` returns the same State. -/
theorem zero_rotation_dynamics (E : Helpers ℝ) (hE : E.Exact) (u : StateUpdater ℝ)
    (state : State ℝ) (extra : ExtraType ℝ)
    (hS : state.orient.squaredNorm = 1)
    (hbias : state.gyro_bias = 0)
    (hdt : (0 : ℝ) ≤ Duration.toSec (u.imu.header_stamp - state.t))
    (hω : extra.first.first = 0)
    (hnoise : extra.second 0 = 0)
    (hf : state.orient._transformVector extra.first.second + E.gravity state.pos_eci = 0) :
    ∃ S, u.apply E state extra = some S
      ∧ (WithNaN.ofUpdater u).apply E.withNaN (WithNaN.ofState state)
          (WithNaN.ofExtra extra) = some (WithNaN.ofState S)
      ∧ S.vel = state.vel
      ∧ S.pos_eci = state.pos_eci
          + (Duration.toSec (u.imu.header_stamp - state.t) : ℝ) • state.vel
      ∧ S.orient = state.orient
      ∧ S.ground_air_pressure = state.ground_air_pressure := by
  have hq : (state.orient * E.quat_from_rotvec
      ((Duration.toSec (u.imu.header_stamp - state.t) : ℝ)
        • (extra.first.first - state.gyro_bias))).squaredNorm ≠ 0 := by
    rw [hbias, hω, sub_zero, smul_zero, hE.exp_zero, Quaternion.mul_Identity, hS]
    exact one_ne_zero
  refine ⟨_, StateUpdater.apply_exact hE u state extra,
    WithNaN.apply_ofState hE u state extra hdt hq _ (StateUpdater.apply_exact hE u state extra),
    ?_⟩
  simp only [hbias, hω, sub_zero, smul_zero, hE.exp_zero, Quaternion.mul_Identity, ite_self,
    hf, add_zero, hnoise, mul_zero, Quaternion.normalized_of_unit hE _ hS, and_self]

/-- C10 at the concrete scenario of the claim: State at `t = 0` with
`pos_eci = (0, 0, 0)`, identity orientation, `vel = (0, 0, 0)`, no bias,
`local_g = 9.8`, pressure `101325`; sample at `t = 1 s`, specific force
`(0, 0, 9.8)`, gravity `(0, 0, -9.8)`, no noise.  The posterior has
`pos_eci = (0, 0, 0)`, `vel = (0, 0, 0)`, identity orientation and pressure
`101325`. -/
theorem zero_rotation_dynamics_witness :
    (Helpers.exact Real.sqrt Real.cos Real.sin Real.arccos scenario_gravity).Exact
    ∧ (scenario_state : State ℝ).orient.squaredNorm = 1
    ∧ (scenario_state : State ℝ).gyro_bias = 0
    ∧ (0 : ℝ) ≤ Duration.toSec
        ((scenario_updater false : StateUpdater ℝ).imu.header_stamp
          - (scenario_state : State ℝ).t)
    ∧ (scenario_extra : ExtraType ℝ).first.first = 0
    ∧ (scenario_extra : ExtraType ℝ).second 0 = 0
    ∧ (scenario_state : State ℝ).orient._transformVector scenario_extra.first.second
        + scenario_gravity (scenario_state : State ℝ).pos_eci = 0
    ∧ ∃ S, (scenario_updater false).apply
          (Helpers.exact Real.sqrt Real.cos Real.sin Real.arccos scenario_gravity)
          scenario_state scenario_extra = some S
        ∧ S.pos_eci = 0 ∧ S.vel = 0 ∧ S.orient = Quaternion.Identity
        ∧ S.ground_air_pressure = 101325 := by
  have hS : (scenario_state : State ℝ).orient.squaredNorm = 1 := by
    simp [scenario_state, Quaternion.Identity, Quaternion.squaredNorm]
  have hdt : (0 : ℝ) ≤ Duration.toSec
      ((scenario_updater false : StateUpdater ℝ).imu.header_stamp
        - (scenario_state : State ℝ).t) := by
    simp [Duration.toSec, scenario_updater, scenario_state]
  have hf : (scenario_state : State ℝ).orient._transformVector scenario_extra.first.second
      + scenario_gravity (scenario_state : State ℝ).pos_eci = 0 := by
    funext i
    fin_cases i <;>
      simp [scenario_state, scenario_extra, scenario_gravity, Quaternion.Identity,
        Quaternion._transformVector, Quaternion.vec, Vec.cross]
  obtain ⟨S, hap, _, hv, hp, ho, ha⟩ := zero_rotation_dynamics
    (Helpers.exact Real.sqrt Real.cos Real.sin Real.arccos scenario_gravity)
    (Helpers.exact_real _) (scenario_updater false) scenario_state scenario_extra
    hS rfl hdt rfl rfl hf
  refine ⟨Helpers.exact_real _, hS, rfl, hdt, rfl, rfl, hf, S, hap, ?_, ?_, ?_, ?_⟩
  · rw [hp]
    simp [scenario_state]
  · rw [hv]
    rfl
  · rw [ho]
    rfl
  · rw [ha]
    norm_num [scenario_state]

/-- C11: `getVelECI`.  The call fails (the assertion on `gyro`) exactly when
`body_point` is not zero and no `gyro` is supplied; for a zero `body_point` it
returns `vel` whatever `gyro` is; for a nonzero `body_point` and a supplied
`gyro` it returns `vel + orient._transformVector((gyro - gyro_bias) × body_point)`. -/
theorem getVelECI_spec {α : Type} [Zero α] [One α] [Add α] [Sub α] [Mul α] [Div α] [Neg α]
    [DecidableEq α] (s : State α) (body_point gyro : Vec 3 α) (g : Option (Vec 3 α)) :
    (s.getVelECI body_point g = none ↔ body_point ≠ 0 ∧ g = none)
    ∧ s.getVelECI 0 g = some s.vel
    ∧ (body_point ≠ 0 → s.getVelECI body_point (some gyro)
        = some (s.vel + s.orient._transformVector ((gyro - s.gyro_bias).cross body_point))) := by
  refine ⟨?_, ?_, ?_⟩
  · unfold State.getVelECI
    by_cases hb : body_point ≠ 0
    · cases g <;> simp [hb]
    · simp [hb]
  · simp [State.getVelECI]
  · intro hb
    simp [State.getVelECI, hb]

/-- C11 at a concrete input: the State `sample_state`, the body point
`(1, 0, 0)` and the gyro reading `(0, 0, 1)`. -/
theorem getVelECI_spec_witness :
    (![1, 0, 0] : Vec 3 ℝ) ≠ 0
    ∧ sample_state.getVelECI ![1, 0, 0] none = none
    ∧ sample_state.getVelECI 0 none = some sample_state.vel
    ∧ sample_state.getVelECI ![1, 0, 0] (some ![0, 0, 1])
        = some (sample_state.vel + sample_state.orient._transformVector
            (Vec.cross (![0, 0, 1] - sample_state.gyro_bias) ![1, 0, 0])) := by
  have hb : (![1, 0, 0] : Vec 3 ℝ) ≠ 0 := by
    intro h
    have h0 := congrFun h 0
    simp at h0
  obtain ⟨h1, h2, h3⟩ := getVelECI_spec sample_state ![1, 0, 0] ![0, 0, 1] none
  exact ⟨hb, h1.mpr ⟨hb, rfl⟩, h2, h3 hb⟩

/-- C12: `operator+` entry by entry.  For exact helpers (no assertion fails),
`S + D` is the State with the time stamp of `S`, with `pos_eci`, `vel`,
`gyro_bias`, `local_g` and `ground_air_pressure` those of `S` plus the entries
0..2, 6..8, 9..11, 12 and 13 of `D`, and with the orientation
`normalized(quat_from_rotvec(D 3, D 4, D 5) * S.orient)`: the exponential on the
left of the base orientation. -/
theorem operator_plus_spec (E : Helpers ℝ) (hE : E.Exact) (S : State ℝ)
    (D : State.DeltaType ℝ) :
    ∃ S1, S.operator_plus E D = some S1
      ∧ S1.t = S.t
      ∧ S1.pos_eci = ![S.pos_eci 0 + D 0, S.pos_eci 1 + D 1, S.pos_eci 2 + D 2]
      ∧ S1.vel = ![S.vel 0 + D 6, S.vel 1 + D 7, S.vel 2 + D 8]
      ∧ S1.gyro_bias = ![S.gyro_bias 0 + D 9, S.gyro_bias 1 + D 10, S.gyro_bias 2 + D 11]
      ∧ S1.local_g = S.local_g + D 12
      ∧ S1.ground_air_pressure = S.ground_air_pressure + D 13
      ∧ S1.orient = (E.quat_from_rotvec ![D 3, D 4, D 5] * S.orient).normalized E.sqrt := by
  have hseg : ∀ (i : Nat) (h : i + 3 ≤ State.RowsAtCompileTime),
      D.segment3 i h
        = ![D ⟨i, by omega⟩, D ⟨i + 1, by omega⟩, D ⟨i + 2, by omega⟩] := by
    intro i h
    funext k
    fin_cases k <;> rfl
  have hadd : ∀ (a : Vec 3 ℝ) (x y z : ℝ), a + ![x, y, z] = ![a 0 + x, a 1 + y, a 2 + z] := by
    intro a x y z
    funext k
    fin_cases k <;> rfl
  rw [State.operator_plus, State.new_exact hE]
  refine ⟨_, rfl, rfl, ?_, ?_, ?_, rfl, rfl, ?_⟩
  · simp only [hseg, hadd]
    rfl
  · simp only [hseg, hadd]
    rfl
  · simp only [hseg, hadd]
    rfl
  · simp only [hseg]
    rfl

/-- C12 at a concrete input: `sample_state + sample_delta`. -/
theorem operator_plus_spec_witness :
    (Helpers.exact Real.sqrt Real.cos Real.sin Real.arccos (fun _ => 0)).Exact
    ∧ ∃ S1, sample_state.operator_plus
          (Helpers.exact Real.sqrt Real.cos Real.sin Real.arccos (fun _ => 0)) sample_delta
          = some S1
        ∧ S1.t = 0 ∧ S1.pos_eci = ![2, 3, 4] ∧ S1.vel = ![6, 7, 8]
        ∧ S1.gyro_bias = ![0, 0, 0] ∧ S1.local_g = 11 ∧ S1.ground_air_pressure = 101330 := by
  obtain ⟨S1, h, ht, hp, hv, hb, hg, ha, _⟩ := operator_plus_spec
    (Helpers.exact Real.sqrt Real.cos Real.sin Real.arccos (fun _ => 0))
    (Helpers.exact_real _) sample_state sample_delta
  refine ⟨Helpers.exact_real _, S1, h, ?_, ?_, ?_, ?_, ?_, ?_⟩
  · rw [ht]
    rfl
  · rw [hp]
    show (![1 + 1, 2 + 1, 3 + 1] : Vec 3 ℝ) = ![2, 3, 4]
    norm_num
  · rw [hv]
    show (![4 + 2, 5 + 2, 6 + 2] : Vec 3 ℝ) = ![6, 7, 8]
    norm_num
  · rw [hb]
    show (![0 + 0, 0 + 0, 0 + 0] : Vec 3 ℝ) = ![0, 0, 0]
    norm_num
  · rw [hg]
    show (10 + 1 : ℝ) = 11
    norm_num
  · rw [ha]
    show (101325 + 5 : ℝ) = 101330
    norm_num

/-- C13: `operator-` entry by entry.  For every pair of States (no assertion is
involved) `S1 - S2` is the vector of 14 entries made of `pos_eci` difference
(3), `rotvec_from_quat(S1.orient * S2.orient.conjugate())` (3), `vel` difference
(3), `gyro_bias` difference (3), `local_g` difference and
`ground_air_pressure` difference; the blocks `operator+` reads at `POS_ECI`,
`ORIENT`, `VEL`, `GYRO_BIAS`, `LOCAL_G` and `GROUND_AIR_PRESSURE` are these
blocks. -/
theorem operator_minus_spec {α : Type} [Zero α] [One α] [Add α] [Sub α] [Mul α] [Div α]
    [Neg α] (E : Helpers α) (S1 S2 : State α) :
    S1.operator_minus E S2
        = ![S1.pos_eci 0 - S2.pos_eci 0, S1.pos_eci 1 - S2.pos_eci 1,
            S1.pos_eci 2 - S2.pos_eci 2,
            E.rotvec_from_quat (S1.orient * S2.orient.conjugate) 0,
            E.rotvec_from_quat (S1.orient * S2.orient.conjugate) 1,
            E.rotvec_from_quat (S1.orient * S2.orient.conjugate) 2,
            S1.vel 0 - S2.vel 0, S1.vel 1 - S2.vel 1, S1.vel 2 - S2.vel 2,
            S1.gyro_bias 0 - S2.gyro_bias 0, S1.gyro_bias 1 - S2.gyro_bias 1,
            S1.gyro_bias 2 - S2.gyro_bias 2,
            S1.local_g - S2.local_g,
            S1.ground_air_pressure - S2.ground_air_pressure]
    ∧ (S1.operator_minus E S2).segment3 State.POS_ECI (by decide) = S1.pos_eci - S2.pos_eci
    ∧ (S1.operator_minus E S2).segment3 State.ORIENT (by decide)
        = E.rotvec_from_quat (S1.orient * S2.orient.conjugate)
    ∧ (S1.operator_minus E S2).segment3 State.VEL (by decide) = S1.vel - S2.vel
    ∧ (S1.operator_minus E S2).segment3 State.GYRO_BIAS (by decide)
        = S1.gyro_bias - S2.gyro_bias
    ∧ S1.operator_minus E S2 ⟨State.LOCAL_G, by decide⟩ = S1.local_g - S2.local_g
    ∧ S1.operator_minus E S2 ⟨State.GROUND_AIR_PRESSURE, by decide⟩
        = S1.ground_air_pressure - S2.ground_air_pressure := by
  refine ⟨rfl, ?_, ?_, ?_, ?_, rfl, rfl⟩ <;> (funext k; fin_cases k <;> rfl)

open MeasureTheory ProbabilityTheory in
/-- C14: the pressure random walk.  On a probability space, let `n` updaters
with increasing time stamps be applied one after the other to `s0`, update `i`
with the noise `noise i` and all other inputs at their mean; let the noises be
square integrable, pairwise independent, and each of the variance that
`get_extra_distribution` gives the noise entry.  Then for exact helpers every
run returns a State, its pressure is
`p0 + Σ sqrt(dt i) * noise i`, and the variance of that pressure is `25 * T`,
`T` the time elapsed from `s0` to the last sample. -/
theorem pressure_random_walk_variance (E : Helpers ℝ) (hE : E.Exact) {Ω : Type}
    [MeasurableSpace Ω] (μ : Measure Ω) [IsProbabilityMeasure μ]
    (u : Nat → StateUpdater ℝ) (noise : Nat → Ω → ℝ) (s0 : State ℝ) (n : Nat)
    (hmono : ∀ k < n, prior_stamp u s0.t k < (u k).imu.header_stamp)
    (hL2 : ∀ k < n, Memℒp (noise k) 2 μ)
    (hindep : ∀ i < n, ∀ j < n, i ≠ j → IndepFun (noise i) (noise j) μ)
    (hvar : ∀ k < n, variance (noise k) μ = (u k).get_extra_distribution.cov 6 6) :
    ∃ P : Ω → ℝ,
      (∀ ω, ∃ S, apply_repeated E u (fun k => noise k ω) s0 n = some S
        ∧ S.ground_air_pressure = P ω)
      ∧ (∀ ω, P ω = s0.ground_air_pressure
          + ∑ i ∈ Finset.range n,
              E.sqrt (Duration.toSec ((u i).imu.header_stamp - prior_stamp u s0.t i))
                * noise i ω)
      ∧ variance P μ = 25 * Duration.toSec (prior_stamp u s0.t n - s0.t) := by
  refine ⟨fun ω => s0.ground_air_pressure
      + ∑ i ∈ Finset.range n,
          E.sqrt (Duration.toSec ((u i).imu.header_stamp - prior_stamp u s0.t i))
            * noise i ω, fun ω => ?_, fun ω => rfl, ?_⟩
  · obtain ⟨S, hS, _, hp⟩ := apply_repeated_pressure hE u (fun k => noise k ω) s0 n
    exact ⟨S, hS, hp⟩
  · have hint : Integrable (fun ω => ∑ i ∈ Finset.range n,
        E.sqrt (Duration.toSec ((u i).imu.header_stamp - prior_stamp u s0.t i))
          * noise i ω) μ := by
      refine integrable_finset_sum _ (fun i hi => ?_)
      exact ((hL2 i (Finset.mem_range.mp hi)).integrable (by norm_num)).const_mul _
    rw [variance_const_add μ _ _ hint, variance_weighted_sum μ _ noise n hL2 hindep,
      ← prior_stamp_elapsed u s0.t n, Finset.mul_sum]
    refine Finset.sum_congr rfl (fun i hi => ?_)
    have hi' := Finset.mem_range.mp hi
    have hdt : (0 : ℝ) ≤ Duration.toSec ((u i).imu.header_stamp - prior_stamp u s0.t i) :=
      Duration.toSec_nonneg _ (by have := hmono i hi'; omega)
    rw [hvar i hi', cov_noise_entry, pow_two, hE.sqrt_sq _ hdt]
    ring

open MeasureTheory ProbabilityTheory in
/-- C14 at a concrete input: two updates, stamped `1 s` and `2 s`, of
`sample_state` (stamped 0), with two independent fair coins of values `5` and
`-5` as noises: the variance of the final pressure is `25 * 2`. -/
theorem pressure_random_walk_variance_witness :
    (Helpers.exact Real.sqrt Real.cos Real.sin Real.arccos (fun _ => 0)).Exact
    ∧ (∀ k < 2, prior_stamp walk_updater sample_state.t k
        < (walk_updater k).imu.header_stamp)
    ∧ (∀ k < 2, Memℒp (coin_noise k) 2
        ((PMF.uniformOfFintype Bool).toMeasure.prod (PMF.uniformOfFintype Bool).toMeasure))
    ∧ (∀ i < 2, ∀ j < 2, i ≠ j → IndepFun (coin_noise i) (coin_noise j)
        ((PMF.uniformOfFintype Bool).toMeasure.prod (PMF.uniformOfFintype Bool).toMeasure))
    ∧ (∀ k < 2, variance (coin_noise k)
        ((PMF.uniformOfFintype Bool).toMeasure.prod (PMF.uniformOfFintype Bool).toMeasure)
        = (walk_updater k).get_extra_distribution.cov 6 6)
    ∧ ∃ P : Bool × Bool → ℝ,
        (∀ ω, ∃ S, apply_repeated
            (Helpers.exact Real.sqrt Real.cos Real.sin Real.arccos (fun _ => 0))
            walk_updater (fun k => coin_noise k ω) sample_state 2 = some S
          ∧ S.ground_air_pressure = P ω)
        ∧ variance P
            ((PMF.uniformOfFintype Bool).toMeasure.prod (PMF.uniformOfFintype Bool).toMeasure)
            = 50 := by
  have hmono : ∀ k < 2, prior_stamp walk_updater sample_state.t k
      < (walk_updater k).imu.header_stamp := fun k _ => walk_updater_stamps k
  have hL2 : ∀ k < 2, Memℒp (coin_noise k) 2
      ((PMF.uniformOfFintype Bool).toMeasure.prod (PMF.uniformOfFintype Bool).toMeasure) :=
    fun k _ => coin_noise_memLp k
  have hvar : ∀ k < 2, variance (coin_noise k)
      ((PMF.uniformOfFintype Bool).toMeasure.prod (PMF.uniformOfFintype Bool).toMeasure)
      = (walk_updater k).get_extra_distribution.cov 6 6 := by
    intro k hk
    rw [coin_noise_variance k hk, cov_noise_entry]
  obtain ⟨P, hP, _, hV⟩ := pressure_random_walk_variance
    (Helpers.exact Real.sqrt Real.cos Real.sin Real.arccos (fun _ => 0))
    (Helpers.exact_real _)
    ((PMF.uniformOfFintype Bool).toMeasure.prod (PMF.uniformOfFintype Bool).toMeasure)
    walk_updater coin_noise sample_state 2 hmono hL2 coin_noise_indep hvar
  refine ⟨Helpers.exact_real _, hmono, hL2, coin_noise_indep, hvar, P, hP, ?_⟩
  rw [hV]
  simp [prior_stamp, walk_updater, sample_state, Duration.toSec]
  norm_num

/-- C15: `apply` integrates position and velocity with one step of constant
acceleration.  For exact helpers and a State with unit orientation, with
`dt = toSec(stamp - state.t)` and
`accel = R._transformVector(specific force) + gravity(state.pos_eci)`, `R` the
orientation of the result when `rightSideAccelFrame` is set and the prior
orientation otherwise, the result has
`pos_eci = pos_eci + dt * vel + (dt * dt / 2) * accel` and
`vel = vel + dt * accel`. -/
theorem apply_integrates (E : Helpers ℝ) (hE : E.Exact) (u : StateUpdater ℝ)
    (state : State ℝ) (extra : ExtraType ℝ) (hS : state.orient.squaredNorm = 1) :
    ∃ S, u.apply E state extra = some S
      ∧ S.pos_eci = state.pos_eci
          + (Duration.toSec (u.imu.header_stamp - state.t) : ℝ) • state.vel
          + ((Duration.toSec (u.imu.header_stamp - state.t) : ℝ)
              * Duration.toSec (u.imu.header_stamp - state.t) / 2)
            • ((if u.rightSideAccelFrame then S.orient else state.orient)._transformVector
                  extra.first.second
                + E.gravity state.pos_eci)
      ∧ S.vel = state.vel
          + (Duration.toSec (u.imu.header_stamp - state.t) : ℝ)
            • ((if u.rightSideAccelFrame then S.orient else state.orient)._transformVector
                  extra.first.second
                + E.gravity state.pos_eci) := by
  have hu : (state.orient * E.quat_from_rotvec
      ((Duration.toSec (u.imu.header_stamp - state.t) : ℝ)
        • (extra.first.first - state.gyro_bias))).squaredNorm = 1 := by
    rw [Quaternion.squaredNorm_mul, hE.exp_unit, hS, one_mul]
  rw [StateUpdater.apply_exact hE, Quaternion.normalized_of_unit hE _ hu]
  exact ⟨_, rfl, rfl, rfl⟩

/-- C15 at a concrete input: the State of the scenario, `dt = 1`, the flag set,
angular velocity `(1, 0, 0)`, specific force `(0, 1, 0)` and gravity
`(0, 0, -9.8)`. -/
theorem apply_integrates_witness :
    (Helpers.exact Real.sqrt Real.cos Real.sin Real.arccos scenario_gravity).Exact
    ∧ (scenario_state : State ℝ).orient.squaredNorm = 1
    ∧ ∃ S, (scenario_updater true).apply
          (Helpers.exact Real.sqrt Real.cos Real.sin Real.arccos scenario_gravity)
          scenario_state spin_force_extra = some S
        ∧ S.pos_eci = (1 / 2 : ℝ) • (S.orient._transformVector ![0, 1, 0] + ![0, 0, -9.8])
        ∧ S.vel = S.orient._transformVector ![0, 1, 0] + ![0, 0, -9.8] := by
  have hS : (scenario_state : State ℝ).orient.squaredNorm = 1 := by
    simp [scenario_state, Quaternion.Identity, Quaternion.squaredNorm]
  have hdt : (Duration.toSec ((scenario_updater true : StateUpdater ℝ).imu.header_stamp
      - (scenario_state : State ℝ).t) : ℝ) = 1 := by
    simp [Duration.toSec, scenario_updater, scenario_state]
  obtain ⟨S, h, hp, hv⟩ := apply_integrates
    (Helpers.exact Real.sqrt Real.cos Real.sin Real.arccos scenario_gravity)
    (Helpers.exact_real _) (scenario_updater true) scenario_state spin_force_extra hS
  refine ⟨Helpers.exact_real _, hS, S, h, ?_, ?_⟩
  · rw [hp, hdt]
    simp [scenario_state, scenario_updater, spin_force_extra, Helpers.exact, scenario_gravity]
  · rw [hv, hdt]
    simp [scenario_state, scenario_updater, spin_force_extra, Helpers.exact, scenario_gravity]

/-- C16: the orientation and the stamp of the result of `apply`.  For exact
helpers the result has
`orient = normalized(state.orient * quat_from_rotvec(dt * (angular velocity - gyro_bias)))`
with `dt = toSec(stamp - state.t)`, the increment on the right of the prior
orientation, and `t` the stamp of the sample. -/
theorem apply_orientation (E : Helpers ℝ) (hE : E.Exact) (u : StateUpdater ℝ)
    (state : State ℝ) (extra : ExtraType ℝ) :
    ∃ S, u.apply E state extra = some S
      ∧ S.orient = (state.orient * E.quat_from_rotvec
          ((Duration.toSec (u.imu.header_stamp - state.t) : ℝ)
            • (extra.first.first - state.gyro_bias))).normalized E.sqrt
      ∧ S.t = u.imu.header_stamp := by
  rw [StateUpdater.apply_exact hE]
  exact ⟨_, rfl, rfl, rfl⟩

/-- C16 at the concrete scenario: no rotation, so the orientation stays the
identity, and the result is stamped `1 s`. -/
theorem apply_orientation_witness :
    (Helpers.exact Real.sqrt Real.cos Real.sin Real.arccos scenario_gravity).Exact
    ∧ ∃ S, (scenario_updater false).apply
          (Helpers.exact Real.sqrt Real.cos Real.sin Real.arccos scenario_gravity)
          scenario_state scenario_extra = some S
        ∧ S.orient = Quaternion.Identity ∧ S.t = 1000000000 := by
  obtain ⟨S, h, ho, ht⟩ := apply_orientation
    (Helpers.exact Real.sqrt Real.cos Real.sin Real.arccos scenario_gravity)
    (Helpers.exact_real _) (scenario_updater false) scenario_state scenario_extra
  refine ⟨Helpers.exact_real _, S, h, ?_, ?_⟩
  · rw [ho]
    have hz : (scenario_extra : ExtraType ℝ).first.first
        - (scenario_state : State ℝ).gyro_bias = 0 := by
      simp [scenario_extra, scenario_state]
    rw [hz, smul_zero, (Helpers.exact_real _).exp_zero, Quaternion.mul_Identity]
    exact Quaternion.normalized_of_unit (Helpers.exact_real _) _
      (by simp [scenario_state, Quaternion.Identity, Quaternion.squaredNorm])
  · rw [ht]
    rfl

/-- C17: the fields `apply` does not integrate.  On doubles with NaN, for a
State and extra inputs with finite components and `dt ≥ 0`, `apply` returns a
State with the `gyro_bias` and `local_g` of the prior State and
`ground_air_pressure = pressure + sqrt(dt) * noise`.  An updater with the same
stamp but other measured values and another frame flag, applied to an extra
input with the same noise but other angular velocity and specific force,
returns the same three fields. -/
theorem apply_constant_fields {β : Type} [LinearOrderedField β] (E : Helpers β)
    (u1 u2 : StateUpdater (WithNaN β)) (state : State β) (e1 e2 : ExtraType β)
    (hdt : state.t ≤ u1.imu.header_stamp)
    (hstamp : u2.imu.header_stamp = u1.imu.header_stamp)
    (hnoise : e2.second 0 = e1.second 0) :
    ∃ S1 S2, u1.apply E.withNaN (WithNaN.ofState state) (WithNaN.ofExtra e1) = some S1
      ∧ u2.apply E.withNaN (WithNaN.ofState state) (WithNaN.ofExtra e2) = some S2
      ∧ S1.gyro_bias = WithNaN.ofVec state.gyro_bias
      ∧ S1.local_g = WithNaN.fin state.local_g
      ∧ S1.ground_air_pressure = WithNaN.fin (state.ground_air_pressure
          + E.sqrt (Duration.toSec (u1.imu.header_stamp - state.t)) * e1.second 0)
      ∧ S2.gyro_bias = S1.gyro_bias ∧ S2.local_g = S1.local_g
      ∧ S2.ground_air_pressure = S1.ground_air_pressure := by
  obtain ⟨S1, h1, hb1, hg1, hp1⟩ := WithNaN.apply_fields E u1 state e1 hdt
  obtain ⟨S2, h2, hb2, hg2, hp2⟩ := WithNaN.apply_fields E u2 state e2 (hstamp ▸ hdt)
  refine ⟨S1, S2, h1, h2, hb1, hg1, hp1, ?_, ?_, ?_⟩
  · rw [hb1, hb2]
  · rw [hg1, hg2]
  · rw [hp1, hp2, hstamp, hnoise]

/-- C17 at a concrete input: the State and updater of the scenario, once with
the extra input of the scenario and the flag off, once with angular velocity
`(1, 0, 0)`, specific force `(0, 1, 0)` and the flag on. -/
theorem apply_constant_fields_witness :
    (scenario_state : State ℝ).t ≤ (WithNaN.ofUpdater (scenario_updater false :
        StateUpdater ℝ)).imu.header_stamp
    ∧ (WithNaN.ofUpdater (scenario_updater true : StateUpdater ℝ)).imu.header_stamp
        = (WithNaN.ofUpdater (scenario_updater false : StateUpdater ℝ)).imu.header_stamp
    ∧ (spin_force_extra : ExtraType ℝ).second 0 = (scenario_extra : ExtraType ℝ).second 0
    ∧ ∃ S1 S2, (WithNaN.ofUpdater (scenario_updater false)).apply
          (Helpers.exact Real.sqrt Real.cos Real.sin Real.arccos scenario_gravity).withNaN
          (WithNaN.ofState scenario_state) (WithNaN.ofExtra scenario_extra) = some S1
        ∧ (WithNaN.ofUpdater (scenario_updater true)).apply
          (Helpers.exact Real.sqrt Real.cos Real.sin Real.arccos scenario_gravity).withNaN
          (WithNaN.ofState scenario_state) (WithNaN.ofExtra spin_force_extra) = some S2
        ∧ S1.gyro_bias = WithNaN.ofVec 0 ∧ S1.local_g = WithNaN.fin 9.8
        ∧ S1.ground_air_pressure = WithNaN.fin 101325
        ∧ S2.gyro_bias = S1.gyro_bias ∧ S2.local_g = S1.local_g
        ∧ S2.ground_air_pressure = S1.ground_air_pressure := by
  have hdt : (scenario_state : State ℝ).t ≤ (WithNaN.ofUpdater (scenario_updater false :
      StateUpdater ℝ)).imu.header_stamp := by decide
  obtain ⟨S1, S2, h1, h2, hb, hg, hp, hb2, hg2, hp2⟩ := apply_constant_fields
    (Helpers.exact Real.sqrt Real.cos Real.sin Real.arccos scenario_gravity)
    (WithNaN.ofUpdater (scenario_updater false)) (WithNaN.ofUpdater (scenario_updater true))
    scenario_state scenario_extra spin_force_extra hdt rfl rfl
  refine ⟨hdt, rfl, rfl, S1, S2, h1, h2, hb, hg, ?_, hb2, hg2, hp2⟩
  rw [hp]
  congr 1
  simp [scenario_state, scenario_extra]
  norm_num

/-- C18: applying the same updater again changes nothing.  For exact helpers
and a State with unit orientation, `apply` returns a State `S1`, and `apply` on
`S1` with any other extra input returns `S1` again; when `dt ≥ 0` both calls
return these States on doubles with NaN too. -/
theorem apply_twice (E : Helpers ℝ) (hE : E.Exact) (u : StateUpdater ℝ) (s : State ℝ)
    (e1 e2 : ExtraType ℝ) (hS : s.orient.squaredNorm = 1) :
    ∃ S1, u.apply E s e1 = some S1 ∧ u.apply E S1 e2 = some S1
      ∧ ((0 : ℝ) ≤ Duration.toSec (u.imu.header_stamp - s.t) →
          (WithNaN.ofUpdater u).apply E.withNaN (WithNaN.ofState s) (WithNaN.ofExtra e1)
              = some (WithNaN.ofState S1)
            ∧ (WithNaN.ofUpdater u).apply E.withNaN (WithNaN.ofState S1)
                (WithNaN.ofExtra e2) = some (WithNaN.ofState S1)) := by
  obtain ⟨S1, h1, ht, hu⟩ := StateUpdater.apply_exact_unit hE u s e1 hS
  have h2 := StateUpdater.apply_exact_same_stamp hE u S1 e2 ht hu
  have hq : ∀ (S : State ℝ) (e : ExtraType ℝ), S.orient.squaredNorm = 1 →
      (S.orient * E.quat_from_rotvec
        ((Duration.toSec (u.imu.header_stamp - S.t) : ℝ)
          • (e.first.first - S.gyro_bias))).squaredNorm ≠ 0 := by
    intro S e hS1
    rw [Quaternion.squaredNorm_mul, hE.exp_unit, hS1, one_mul]
    exact one_ne_zero
  refine ⟨S1, h1, h2, fun hdt => ⟨?_, ?_⟩⟩
  · exact WithNaN.apply_ofState hE u s e1 hdt (hq s e1 hS) S1 h1
  · refine WithNaN.apply_ofState hE u S1 e2 ?_ (hq S1 e2 hu) S1 h2
    rw [ht, sub_self, Duration.toSec_zero]

/-- C18 at a concrete input: the State and updater of the scenario, first with
angular velocity `(1, 0, 0)` and specific force `(0, 1, 0)`, then with the
extra input of the scenario. -/
theorem apply_twice_witness :
    (Helpers.exact Real.sqrt Real.cos Real.sin Real.arccos scenario_gravity).Exact
    ∧ (scenario_state : State ℝ).orient.squaredNorm = 1
    ∧ ∃ S1, (scenario_updater false).apply
          (Helpers.exact Real.sqrt Real.cos Real.sin Real.arccos scenario_gravity)
          scenario_state spin_force_extra = some S1
        ∧ (scenario_updater false).apply
          (Helpers.exact Real.sqrt Real.cos Real.sin Real.arccos scenario_gravity)
          S1 scenario_extra = some S1 := by
  have hS : (scenario_state : State ℝ).orient.squaredNorm = 1 := by
    simp [scenario_state, Quaternion.Identity, Quaternion.squaredNorm]
  obtain ⟨S1, h1, h2, _⟩ := apply_twice
    (Helpers.exact Real.sqrt Real.cos Real.sin Real.arccos scenario_gravity)
    (Helpers.exact_real _) (scenario_updater false) scenario_state spin_force_extra
    scenario_extra hS
  exact ⟨Helpers.exact_real _, hS, S1, h1, h2⟩

/-- C19: without incremental rotation the frame flag does not matter.  For
exact helpers, when `dt = 0` or the angular velocity of the extra input equals
`gyro_bias`, `apply` with `rightSideAccelFrame` set and `apply` with it unset
return the same State. -/
theorem frame_flag_irrelevant (E : Helpers ℝ) (hE : E.Exact) (imu : Imu ℝ)
    (state : State ℝ) (extra : ExtraType ℝ)
    (h : (Duration.toSec (imu.header_stamp - state.t) : ℝ) = 0
      ∨ extra.first.first = state.gyro_bias) :
    ∃ S, StateUpdater.apply E ⟨imu, true⟩ state extra = some S
      ∧ StateUpdater.apply E ⟨imu, false⟩ state extra = some S := by
  have hinc : E.quat_from_rotvec
      ((Duration.toSec (imu.header_stamp - state.t) : ℝ)
        • (extra.first.first - state.gyro_bias)) = Quaternion.Identity := by
    rcases h with h | h
    · rw [h, zero_smul, hE.exp_zero]
    · rw [h, sub_self, smul_zero, hE.exp_zero]
  refine ⟨_, StateUpdater.apply_exact hE _ _ _, ?_⟩
  rw [StateUpdater.apply_exact hE]
  simp only [hinc, Quaternion.mul_Identity, ite_self]

/-- C19 at the concrete scenario, where the angular velocity and the gyro
bias are both zero. -/
theorem frame_flag_irrelevant_witness :
    (Helpers.exact Real.sqrt Real.cos Real.sin Real.arccos scenario_gravity).Exact
    ∧ ((Duration.toSec ((scenario_updater true : StateUpdater ℝ).imu.header_stamp
          - (scenario_state : State ℝ).t) : ℝ) = 0
        ∨ (scenario_extra : ExtraType ℝ).first.first = (scenario_state : State ℝ).gyro_bias)
    ∧ ∃ S, (scenario_updater true).apply
          (Helpers.exact Real.sqrt Real.cos Real.sin Real.arccos scenario_gravity)
          scenario_state scenario_extra = some S
        ∧ (scenario_updater false).apply
          (Helpers.exact Real.sqrt Real.cos Real.sin Real.arccos scenario_gravity)
          scenario_state scenario_extra = some S :=
  ⟨Helpers.exact_real _, Or.inr rfl,
    frame_flag_irrelevant
      (Helpers.exact Real.sqrt Real.cos Real.sin Real.arccos scenario_gravity)
      (Helpers.exact_real _) (scenario_updater true).imu scenario_state scenario_extra
      (Or.inr rfl)⟩

/-- C20: `operator-` is antisymmetric.  For States `S1`, `S2` with unit
orientations whose relative rotation `S1.orient * S2.orient.conjugate()` has an
angle below `π` (a positive scalar part), and a `rotvec_from_quat` that is odd
under conjugation on such quaternions, `S1 - S2 = -(S2 - S1)` in all 14
entries. -/
theorem operator_minus_antisymm (E : Helpers ℝ) (S1 S2 : State ℝ)
    (h1 : S1.orient.squaredNorm = 1) (h2 : S2.orient.squaredNorm = 1)
    (hangle : 0 < (S1.orient * S2.orient.conjugate).w)
    (hodd : ∀ q : Quaternion ℝ, q.squaredNorm = 1 → 0 < q.w →
      E.rotvec_from_quat q.conjugate = -E.rotvec_from_quat q) :
    S1.operator_minus E S2 = -S2.operator_minus E S1 := by
  have hu : (S1.orient * S2.orient.conjugate).squaredNorm = 1 := by
    rw [Quaternion.squaredNorm_mul, Quaternion.squaredNorm_conjugate, h1, h2, one_mul]
  have hconj : (S1.orient * S2.orient.conjugate).conjugate
      = S2.orient * S1.orient.conjugate := by
    ext <;> simp only [Quaternion.mul_eq, Quaternion.conjugate] <;> ring
  have hrot := hodd _ hu hangle
  rw [hconj] at hrot
  simp only [State.operator_minus, hrot]
  funext i
  fin_cases i <;> simp [State.DeltaType.finished]

/-- C20 at a concrete input: the logarithm built from `sqrt` and `arccos`, the
State `tilted_state` with orientation `(0.6, 0.8, 0, 0)` and the State of the
scenario. -/
theorem operator_minus_antisymm_witness :
    (tilted_state : State ℝ).orient.squaredNorm = 1
    ∧ (scenario_state : State ℝ).orient.squaredNorm = 1
    ∧ 0 < ((tilted_state : State ℝ).orient
        * (scenario_state : State ℝ).orient.conjugate).w
    ∧ (∀ q : Quaternion ℝ, q.squaredNorm = 1 → 0 < q.w →
        (Helpers.exact Real.sqrt Real.cos Real.sin Real.arccos (fun _ => 0)).rotvec_from_quat
            q.conjugate
          = -(Helpers.exact Real.sqrt Real.cos Real.sin Real.arccos
              (fun _ => 0)).rotvec_from_quat q)
    ∧ (tilted_state : State ℝ).operator_minus
          (Helpers.exact Real.sqrt Real.cos Real.sin Real.arccos (fun _ => 0)) scenario_state
        = -(scenario_state : State ℝ).operator_minus
          (Helpers.exact Real.sqrt Real.cos Real.sin Real.arccos (fun _ => 0))
          tilted_state := by
  have h1 : (tilted_state : State ℝ).orient.squaredNorm = 1 := by
    simp [tilted_state, Quaternion.squaredNorm]
    norm_num
  have h2 : (scenario_state : State ℝ).orient.squaredNorm = 1 := by
    simp [scenario_state, Quaternion.Identity, Quaternion.squaredNorm]
  have hw : 0 < ((tilted_state : State ℝ).orient
      * (scenario_state : State ℝ).orient.conjugate).w := by
    simp [tilted_state, scenario_state, Quaternion.Identity, Quaternion.conjugate,
      Quaternion.mul_eq]
    norm_num
  exact ⟨h1, h2, hw, quat_log_odd,
    operator_minus_antisymm _ tilted_state scenario_state h1 h2 hw quat_log_odd⟩

end odom_estimator
